import Mathlib

/-!
# Pix3lForge: command engine and pixel transformation library

A shallow embedding of `src/imageprocessor.cpp`, `src/imageprocessor.h`,
`src/model/adjustmentparameters.h`, `src/commands/imagecommand.cpp`,
`src/commands/commandfactory.cpp`, `src/commands/commandmanager.cpp`,
`src/preview/previewmanager.cpp`, `src/model/imagedocument.cpp`,
`src/ai/EnhancementResponseParser.cpp` and of the AI enhancement slots of
`src/mainwindow.cpp`.

Conventions of the embedding:

* a raster (`QImage`) is a width, a height and a grid of 8-bit RGBA colours
  indexed by C++ `int` coordinates; `setPixelColor` outside the grid is ignored,
  as in Qt;
* C++ `int` is `Int`: the arithmetic on 8-bit channels never leaves the 32-bit
  range, and the `int` products of `analyzeImage`, which can leave it, wrap
  explicitly (`wrapInt32`); `static_cast<int>` truncates towards zero;
* a C++ `double` is the rational number it holds, and every `double` operation
  of the library (`+`, `-`, `*`, `/`) computes the exact result and rounds it to
  the nearest IEEE-754 binary64 value, ties to even (`dadd`, `dsub`, `dmul`,
  `ddiv`, `toDouble`); a decimal literal such as `0.299` is the `double` nearest
  to it, and the conversion of an `int` to `double` is exact. Overflow,
  infinities and NaN are outside the model. `qPow` and `qSqrt` are function
  parameters; `dsqrt` is the correctly rounded square root. The comparisons of
  `gamma` with the tolerance `0.01` and the HSV conversions of Qt, which are not
  code of the library, are written with exact rational arithmetic;
* every `for` loop of the source is a left fold over its index range
  (`forLoop`), threading the raster that the loop body mutates;
* a `QString` is a `String`, positions counting its characters; what Qt reads
  from a file, paints or transforms (`read`, `drawText`, `drawImage`,
  `transformed`, `smoothScale`) and `QString::toLower` are function parameters;
* the document is passed as a value: a command built on
  `document->currentImagePtr()` assigns the raster member of that value.
-/

namespace Pix3lForge

/-! ## Data model -/

/-- An 8-bit colour channel. -/
abbrev Channel := Fin 256

/-- The colour of one pixel as read by `QImage::pixelColor`: red, green, blue, alpha. -/
structure QColor where
  r : Channel
  g : Channel
  b : Channel
  a : Channel
deriving DecidableEq, Repr

/-- The accessor `QColor::red()`, an `int` in 0..255. -/
def QColor.red (c : QColor) : Int := (c.r.val : Int)

/-- The accessor `QColor::green()`, an `int` in 0..255. -/
def QColor.green (c : QColor) : Int := (c.g.val : Int)

/-- The accessor `QColor::blue()`, an `int` in 0..255. -/
def QColor.blue (c : QColor) : Int := (c.b.val : Int)

/-- The accessor `QColor::alpha()`, an `int` in 0..255. -/
def QColor.alpha (c : QColor) : Int := (c.a.val : Int)

/-- Converts a C++ `int` already bounded to 0..255 into a channel. -/
def toChannel (v : Int) : Channel := ⟨v.toNat % 256, Nat.mod_lt _ (by decide)⟩

/-- The constructor `QColor(r, g, b, a)` on `int` arguments. -/
def QColor.rgba (r g b a : Int) : QColor :=
  ⟨toChannel r, toChannel g, toChannel b, toChannel a⟩

/-- The value `qBound(min, val, max)` of Qt, that is `qMax(min, qMin(max, val))`. -/
def qBound {α : Type} [LinearOrder α] (lo v hi : α) : α := max lo (min hi v)

/-- The conversion `static_cast<int>` of a `double`: truncation towards zero. -/
def castInt (q : ℚ) : Int := if 0 ≤ q then ⌊q⌋ else ⌈q⌉

/-- Integer division of C++ (`/` on `int`), truncating towards zero. -/
def cdiv (a b : Int) : Int := Int.tdiv a b

/-- Integer remainder of C++ (`%` on `int`), with the sign of the dividend. -/
def cmod (a b : Int) : Int := Int.tmod a b

/-! ## The type `double`

A `double` is the rational number it holds. Every arithmetic operation on `double` computes
the exact result and rounds it to the nearest binary64 value, ties to even (`toDouble`).
Overflow, infinities and NaN are outside the model. -/

/-- The power `2 ^ e` for an integer exponent. -/
def pow2 (e : Int) : ℚ :=
  if 0 ≤ e then ((2 ^ e.toNat : Nat) : ℚ) else 1 / ((2 ^ (-e).toNat : Nat) : ℚ)

/-- Rounding of a rational to the nearest integer, ties to the even one. -/
def roundHalfEven (q : ℚ) : Int :=
  if q - ⌊q⌋ < 1 / 2 then ⌊q⌋
  else if 1 / 2 < q - ⌊q⌋ then ⌊q⌋ + 1
  else if ⌊q⌋ % 2 = 0 then ⌊q⌋ else ⌊q⌋ + 1

/-- Halving `n` until it is below 2, at most `fuel` times, counting the steps. -/
def log2Fuel : Nat → Nat → Nat
  | 0, _ => 0
  | fuel + 1, n => if n < 2 then 0 else log2Fuel fuel (n / 2) + 1

/-- The binary logarithm `⌊log₂ n⌋` of a natural number, 0 for 0. -/
def natLog2 (n : Nat) : Nat := log2Fuel n n

/-- The binary exponent of a rational `x` other than 0: the `e` with
`2 ^ e ≤ |x| < 2 ^ (e + 1)`. -/
def binaryExponent (x : ℚ) : Int :=
  let e : Int := (natLog2 x.num.natAbs : Int) - (natLog2 x.den : Int)
  if |x| < pow2 e then e - 1 else e

/-- The spacing of the binary64 values around `x`: 52 fraction bits below the binary
exponent, which is at least -1022. -/
def ulp (x : ℚ) : ℚ := pow2 (max (binaryExponent x) (-1022) - 52)

/-- The binary64 value nearest to `x`, ties to even. -/
def toDouble (x : ℚ) : ℚ := (roundHalfEven (x / ulp x) : ℚ) * ulp x

/-- The sum `a + b` of two `double`s. -/
def dadd (a b : ℚ) : ℚ := toDouble (a + b)

/-- The difference `a - b` of two `double`s. -/
def dsub (a b : ℚ) : ℚ := toDouble (a - b)

/-- The product `a * b` of two `double`s. -/
def dmul (a b : ℚ) : ℚ := toDouble (a * b)

/-- The quotient `a / b` of two `double`s, `b` not 0. -/
def ddiv (a b : ℚ) : ℚ := toDouble (a / b)

/-- Newton's iteration for the integer square root, from a start above the root. -/
def sqrtIter (n : Nat) : Nat → Nat → Nat
  | 0, x => x
  | fuel + 1, x =>
    let y := (x + n / x) / 2
    if y < x then sqrtIter n fuel y else x

/-- The integer square root `⌊√n⌋`: the result of Newton's iteration when it passes the
check `s * s ≤ n < (s + 1) * (s + 1)`, as it does. -/
def natSqrt (n : Nat) : Nat :=
  let s := sqrtIter n (natLog2 n + 2) (2 ^ (natLog2 n / 2 + 1))
  if s * s ≤ n ∧ n < (s + 1) * (s + 1) then s else Nat.sqrt n

/-- The square root `sqrt(x)` of a `double`, correctly rounded as IEEE 754 requires: the
binary64 value nearest to the real root (a tie cannot occur). -/
def dsqrt (x : ℚ) : ℚ :=
  if x ≤ 0 then 0
  else
    let u := pow2 (max (binaryExponent x / 2) (-1022) - 52)
    let t := x / (u * u)
    let s : ℚ := ((natSqrt ⌊t⌋.toNat : Nat) : ℚ)
    if t < (s + 1 / 2) * (s + 1 / 2) then s * u else (s + 1) * u

/-- A raster: `width x height` pixels; `data x y` is the colour at column `x`, row `y`. -/
structure QImage where
  width : Nat
  height : Nat
  data : Int → Int → QColor

namespace QImage

/-- The test `QImage::isNull`: the raster holds no pixel. -/
def isNull (img : QImage) : Bool := img.width == 0 || img.height == 0

/-- The read `QImage::pixelColor(x, y)`. -/
def pixelColor (img : QImage) (x y : Int) : QColor := img.data x y

/-- Whether `(x, y)` is a valid position of the raster (`QImage::valid`). -/
def valid (img : QImage) (x y : Int) : Bool :=
  decide (0 ≤ x) && decide (x < img.width) && decide (0 ≤ y) && decide (y < img.height)

/-- The write `QImage::setPixelColor(x, y, c)`; ignored outside the raster. -/
def setPixelColor (img : QImage) (x y : Int) (c : QColor) : QImage :=
  if img.valid x y then
    { img with data := fun x' y' => if x' = x ∧ y' = y then c else img.data x' y' }
  else img

/-- Pixel identity of two rasters: same dimensions and the same colour at every position. -/
def same (a b : QImage) : Prop :=
  a.width = b.width ∧ a.height = b.height ∧
    ∀ y : Nat, y < a.height → ∀ x : Nat, x < a.width → a.data x y = b.data x y

instance (a b : QImage) : Decidable (same a b) := by
  unfold same; infer_instance

/-- A raster of one colour. -/
def uniform (w h : Nat) (c : QColor) : QImage := ⟨w, h, fun _ _ => c⟩

/-- A raster given by its rows, for concrete examples; `dflt` fills positions outside. -/
def ofRows (w h : Nat) (rows : List (List QColor)) (dflt : QColor) : QImage :=
  ⟨w, h, fun x y => ((rows.getD y.toNat []).getD x.toNat dflt)⟩

/-- The rows of a raster as lists, for concrete examples. -/
def toRows (img : QImage) : List (List QColor) :=
  (List.range img.height).map fun y => (List.range img.width).map fun x => img.data x y

end QImage

/-- The loop `for (int i = lo; i < hi; ++i) body(i)` threading the state `s`. -/
def forLoop {σ : Type} (lo hi : Int) (body : Int → σ → σ) (s : σ) : σ :=
  (List.range (hi - lo).toNat).foldl (fun acc (i : Nat) => body (lo + (i : Int)) acc) s

/-- The nested loop `for y in [y0, y1) for x in [x0, x1) step(x, y)` over a raster. -/
def forPixels (x0 x1 y0 y1 : Int) (step : Int → Int → QImage → QImage) (img : QImage) : QImage :=
  forLoop y0 y1 (fun y r => forLoop x0 x1 (fun x r' => step x y r') r) img

/-! ## Transformation library (`src/imageprocessor.cpp`) -/

/-- The function `ImageProcessor::adjustBrightness`. -/
def adjustBrightness (image : QImage) (brightness : Int) : QImage :=
  if image.isNull then image
  else
    let result := image
    let brightness := qBound (-100) brightness 100
    forPixels 0 result.width 0 result.height (fun x y result =>
      let color := result.pixelColor x y
      let r := qBound 0 (color.red + brightness) 255
      let g := qBound 0 (color.green + brightness) 255
      let b := qBound 0 (color.blue + brightness) 255
      result.setPixelColor x y (QColor.rgba r g b color.alpha)) result

/-- The function `ImageProcessor::adjustColorTemperatureHelper`. -/
def adjustColorTemperatureHelper (color : QColor) (temperature : Int) : QColor :=
  let result := color
  if temperature > 0 then
    let r := result.red
    let g := qBound 0 (result.green - cdiv temperature 2) 255
    let b := qBound 0 (result.blue - temperature) 255
    QColor.rgba r g b result.alpha
  else if temperature < 0 then
    let r := qBound 0 (result.red + temperature) 255
    let g := qBound 0 (result.green + cdiv temperature 2) 255
    let b := result.blue
    QColor.rgba r g b result.alpha
  else result

/-- The function `ImageProcessor::adjustColorTemperature`. -/
def adjustColorTemperature (image : QImage) (temperature : Int) : QImage :=
  if image.isNull then image
  else
    let result := image
    let temperature := qBound (-100) temperature 100
    forPixels 0 result.width 0 result.height (fun x y result =>
      let color := result.pixelColor x y
      let adjustedColor := adjustColorTemperatureHelper color temperature
      result.setPixelColor x y adjustedColor) result

/-! ### Qt colour conversions used by the library

The HSV conversions of `QColor` belong to Qt, not to the repository. They are modelled
after Qt's `qcolor.cpp`: a colour holds 16-bit components (an 8-bit channel `c` is stored
as `c * 0x101`), the accessors `hue()`, `saturation()`, `value()` return integer degrees
and 8-bit values, and writing a colour into an 8-bit raster divides by 257 with rounding. -/

/-- The rounding `qRound` of Qt on `double`. -/
def qRound (d : ℚ) : Int := if 0 ≤ d then castInt (d + 1 / 2) else castInt (d - 1 / 2)

/-- A `QColor` in the HSV colour spec: 16-bit hue (centidegrees, 65535 when achromatic),
saturation, value and alpha. -/
structure QHsv where
  h16 : Int
  s16 : Int
  v16 : Int
  a16 : Int
deriving DecidableEq, Repr

/-- The conversion `QColor::toHsv()` of an RGB colour. -/
def QColor.toHsv (c : QColor) : QHsv :=
  let r : ℚ := ((c.red * 257 : Int) : ℚ) / 65535
  let g : ℚ := ((c.green * 257 : Int) : ℚ) / 65535
  let b : ℚ := ((c.blue * 257 : Int) : ℚ) / 65535
  let mx := max r (max g b)
  let mn := min r (min g b)
  let delta := mx - mn
  let value := qRound (mx * 65535)
  if delta = 0 then
    ⟨65535, 0, value, c.alpha * 257⟩
  else
    let saturation := qRound ((delta / mx) * 65535)
    let hue0 : ℚ :=
      if r = mx then (g - b) / delta
      else if g = mx then 2 + (b - r) / delta
      else 4 + (r - g) / delta
    let hue1 := hue0 * 60
    let hue2 := if hue1 < 0 then hue1 + 360 else hue1
    ⟨qRound (hue2 * 100), saturation, value, c.alpha * 257⟩

/-- The accessor `QColor::hue()` of an HSV colour: integer degrees, or -1 when achromatic. -/
def QHsv.hue (c : QHsv) : Int := if c.h16 = 65535 then -1 else cdiv c.h16 100

/-- The accessor `QColor::saturation()` of an HSV colour (`>> 8`). -/
def QHsv.saturation (c : QHsv) : Int := c.s16 / 256

/-- The accessor `QColor::value()` of an HSV colour (`>> 8`). -/
def QHsv.value (c : QHsv) : Int := c.v16 / 256

/-- The accessor `QColor::alpha()` of an HSV colour (`>> 8`). -/
def QHsv.alpha (c : QHsv) : Int := c.a16 / 256

/-- The setter `QColor::setHsv(h, s, v, a)`; out-of-range arguments give an invalid colour
(`none`). -/
def QHsv.setHsv (h s v a : Int) : Option QHsv :=
  if h < -1 ∨ s < 0 ∨ 255 < s ∨ v < 0 ∨ 255 < v ∨ a < 0 ∨ 255 < a then none
  else some ⟨if h = -1 then 65535 else cmod h 360 * 100, s * 257, v * 257, a * 257⟩

/-- The 16-bit to 8-bit reduction `div_257` applied when a colour is written to a raster. -/
def div257 (x : Int) : Int := ((x + 128) - (x + 128) / 256) / 256

/-- The conversion `QColor::toRgb()` of an HSV colour, as the 8-bit colour that
`setPixelColor` stores. -/
def QHsv.toRgb (c : QHsv) : QColor :=
  let out (r g b : Int) : QColor := QColor.rgba (div257 r) (div257 g) (div257 b) (div257 c.a16)
  if c.s16 = 0 ∨ c.h16 = 65535 then out c.v16 c.v16 c.v16
  else
    let h : ℚ := if c.h16 = 36000 then 0 else (c.h16 : ℚ) / 6000
    let s : ℚ := (c.s16 : ℚ) / 65535
    let v : ℚ := (c.v16 : ℚ) / 65535
    let i := castInt h
    let f := h - (i : ℚ)
    let p := v * (1 - s)
    if cmod i 2 = 1 then
      let q := v * (1 - s * f)
      if i = 1 then out (qRound (q * 65535)) (qRound (v * 65535)) (qRound (p * 65535))
      else if i = 3 then out (qRound (p * 65535)) (qRound (q * 65535)) (qRound (v * 65535))
      else out (qRound (v * 65535)) (qRound (p * 65535)) (qRound (q * 65535))
    else
      let t := v * (1 - s * (1 - f))
      if i = 0 then out (qRound (v * 65535)) (qRound (t * 65535)) (qRound (p * 65535))
      else if i = 2 then out (qRound (p * 65535)) (qRound (v * 65535)) (qRound (t * 65535))
      else out (qRound (t * 65535)) (qRound (p * 65535)) (qRound (v * 65535))

/-- Writes an HSV colour into the raster; an invalid colour is refused by `setPixelColor`. -/
def QImage.setPixelHsv (img : QImage) (x y : Int) (c : Option QHsv) : QImage :=
  match c with
  | some hsv => img.setPixelColor x y hsv.toRgb
  | none => img

/-- The function `ImageProcessor::adjustContrast`. -/
def adjustContrast (image : QImage) (contrast : Int) : QImage :=
  if image.isNull then image
  else
    let result := image
    let contrast := qBound (-100) contrast 100
    let factor : ℚ :=
      ddiv (dmul 259 ((contrast + 255 : Int) : ℚ)) (dmul 255 ((259 - contrast : Int) : ℚ))
    forPixels 0 result.width 0 result.height (fun x y result =>
      let color := result.pixelColor x y
      let r := qBound 0 (castInt (dadd (dmul factor ((color.red - 128 : Int) : ℚ)) 128)) 255
      let g := qBound 0 (castInt (dadd (dmul factor ((color.green - 128 : Int) : ℚ)) 128)) 255
      let b := qBound 0 (castInt (dadd (dmul factor ((color.blue - 128 : Int) : ℚ)) 128)) 255
      result.setPixelColor x y (QColor.rgba r g b color.alpha)) result

/-- The function `ImageProcessor::adjustSaturation`. -/
def adjustSaturation (image : QImage) (saturation : Int) : QImage :=
  if image.isNull then image
  else
    let result := image
    let saturation := qBound (-100) saturation 100
    let factor : ℚ := dadd 1 (ddiv (saturation : ℚ) 100)
    forPixels 0 result.width 0 result.height (fun x y result =>
      let color := result.pixelColor x y
      let hsvColor := color.toHsv
      let s := qBound 0 (castInt (dmul (hsvColor.saturation : ℚ) factor)) 255
      let hsvColor := QHsv.setHsv hsvColor.hue s hsvColor.value hsvColor.alpha
      result.setPixelHsv x y hsvColor) result

/-- The function `ImageProcessor::adjustHue`. -/
def adjustHue (image : QImage) (hue : Int) : QImage :=
  if image.isNull then image
  else
    let result := image
    let hue := qBound (-180) hue 180
    forPixels 0 result.width 0 result.height (fun x y result =>
      let color := result.pixelColor x y
      let hsvColor := color.toHsv
      let h := cmod (hsvColor.hue + hue) 360
      let h := if h < 0 then h + 360 else h
      let hsvColor := QHsv.setHsv h hsvColor.saturation hsvColor.value hsvColor.alpha
      result.setPixelHsv x y hsvColor) result

/-- The function `ImageProcessor::adjustGamma`; `qPow` is the power function of the
C++ runtime. -/
def adjustGamma (qPow : ℚ → ℚ → ℚ) (image : QImage) (gamma : ℚ) : QImage :=
  if image.isNull then image
  else
    let result := image
    let gamma := qBound (toDouble (1 / 10)) gamma 10
    forPixels 0 result.width 0 result.height (fun x y result =>
      let color := result.pixelColor x y
      let r := qBound 0 (castInt (dmul 255 (qPow (ddiv (color.red : ℚ) 255) (ddiv 1 gamma)))) 255
      let g := qBound 0 (castInt (dmul 255 (qPow (ddiv (color.green : ℚ) 255) (ddiv 1 gamma)))) 255
      let b := qBound 0 (castInt (dmul 255 (qPow (ddiv (color.blue : ℚ) 255) (ddiv 1 gamma)))) 255
      result.setPixelColor x y (QColor.rgba r g b color.alpha)) result

/-- The function `ImageProcessor::adjustExposure`; `qPow` is the power function of the
C++ runtime. -/
def adjustExposure (qPow : ℚ → ℚ → ℚ) (image : QImage) (exposure : Int) : QImage :=
  if image.isNull then image
  else
    let result := image
    let exposure := qBound (-100) exposure 100
    let factor : ℚ := qPow 2 (ddiv (exposure : ℚ) 50)
    forPixels 0 result.width 0 result.height (fun x y result =>
      let color := result.pixelColor x y
      let r := qBound 0 (castInt (dmul (color.red : ℚ) factor)) 255
      let g := qBound 0 (castInt (dmul (color.green : ℚ) factor)) 255
      let b := qBound 0 (castInt (dmul (color.blue : ℚ) factor)) 255
      result.setPixelColor x y (QColor.rgba r g b color.alpha)) result

/-- The `double` expression
`(0.299 * color.red() + 0.587 * color.green() + 0.114 * color.blue()) / 255.0`. -/
def luminance (color : QColor) : ℚ :=
  ddiv (dadd (dadd (dmul (toDouble (299 / 1000)) (color.red : ℚ))
    (dmul (toDouble (587 / 1000)) (color.green : ℚ)))
    (dmul (toDouble (114 / 1000)) (color.blue : ℚ))) 255

/-- The function `ImageProcessor::adjustShadows`. -/
def adjustShadows (image : QImage) (shadows : Int) : QImage :=
  if image.isNull then image
  else
    let result := image
    let shadows := qBound (-100) shadows 100
    let factor : ℚ := ddiv (shadows : ℚ) 100
    forPixels 0 result.width 0 result.height (fun x y result =>
      let color := result.pixelColor x y
      let luminance := luminance color
      if luminance < 1 / 2 then
        let shadowFactor : ℚ := dadd 1 (dmul factor (dsub 1 (dmul luminance 2)))
        let r := qBound 0 (castInt (dmul (color.red : ℚ) shadowFactor)) 255
        let g := qBound 0 (castInt (dmul (color.green : ℚ) shadowFactor)) 255
        let b := qBound 0 (castInt (dmul (color.blue : ℚ) shadowFactor)) 255
        result.setPixelColor x y (QColor.rgba r g b color.alpha)
      else result) result

/-- The function `ImageProcessor::adjustHighlights`. -/
def adjustHighlights (image : QImage) (highlights : Int) : QImage :=
  if image.isNull then image
  else
    let result := image
    let highlights := qBound (-100) highlights 100
    let factor : ℚ := ddiv (highlights : ℚ) 100
    forPixels 0 result.width 0 result.height (fun x y result =>
      let color := result.pixelColor x y
      let luminance := luminance color
      if luminance > 1 / 2 then
        let highlightFactor : ℚ := dsub 1 (dmul factor (dsub (dmul luminance 2) 1))
        let r := qBound 0 (castInt (dmul (color.red : ℚ) highlightFactor)) 255
        let g := qBound 0 (castInt (dmul (color.green : ℚ) highlightFactor)) 255
        let b := qBound 0 (castInt (dmul (color.blue : ℚ) highlightFactor)) 255
        result.setPixelColor x y (QColor.rgba r g b color.alpha)
      else result) result

/-- The entry `m[i][j]` of a 3x3 `int` table. -/
def entry3 (m : List (List Int)) (i j : Int) : Int := (m.getD i.toNat []).getD j.toNat 0

/-- The sharpening kernel of `ImageProcessor::applySharpen`. -/
def sharpenKernel : List (List Int) := [[0, -1, 0], [-1, 5, -1], [0, -1, 0]]

/-- The function `ImageProcessor::applySharpen`. -/
def applySharpen (image : QImage) : QImage :=
  if image.isNull then image
  else
    let source := image
    let result := image
    let kernel := sharpenKernel
    forPixels 1 ((result.width : Int) - 1) 1 ((result.height : Int) - 1) (fun x y result =>
      let rgb : Int × Int × Int := (0, 0, 0)
      let rgb := forLoop (-1) (1 + 1) (fun ky rgb =>
        forLoop (-1) (1 + 1) (fun kx rgb =>
          let color := source.pixelColor (x + kx) (y + ky)
          (rgb.1 + color.red * entry3 kernel (ky + 1) (kx + 1),
           rgb.2.1 + color.green * entry3 kernel (ky + 1) (kx + 1),
           rgb.2.2 + color.blue * entry3 kernel (ky + 1) (kx + 1))) rgb) rgb
      let r := qBound 0 rgb.1 255
      let g := qBound 0 rgb.2.1 255
      let b := qBound 0 rgb.2.2 255
      result.setPixelColor x y (QColor.rgba r g b (source.pixelColor x y).alpha)) result

/-- The accumulators `r, g, b, a, count` of one blur window. -/
structure BlurAcc where
  r : Int
  g : Int
  b : Int
  a : Int
  count : Int
deriving DecidableEq, Repr

/-- Adds one colour to the accumulators of a blur window. -/
def BlurAcc.add (acc : BlurAcc) (color : QColor) : BlurAcc :=
  ⟨acc.r + color.red, acc.g + color.green, acc.b + color.blue, acc.a + color.alpha, acc.count + 1⟩

/-- The averaged colour `QColor(r / count, g / count, b / count, a / count)`. -/
def BlurAcc.average (acc : BlurAcc) : QColor :=
  QColor.rgba (cdiv acc.r acc.count) (cdiv acc.g acc.count) (cdiv acc.b acc.count)
    (cdiv acc.a acc.count)

/-- The function `ImageProcessor::applyGaussianBlur`: the horizontal pass reads and writes
`result`; the vertical pass reads the copy `temp` and writes `result`. -/
def applyGaussianBlur (image : QImage) (radius : Int) : QImage :=
  if image.isNull then image
  else
    let radius := qBound 1 radius 10
    let result := image
    -- Horizontal pass
    let result := forPixels 0 result.width 0 result.height (fun x y result =>
      let acc := forLoop (-radius) (radius + 1) (fun kx acc =>
        let nx := qBound 0 (x + kx) ((result.width : Int) - 1)
        let color := result.pixelColor nx y
        acc.add color) (⟨0, 0, 0, 0, 0⟩ : BlurAcc)
      result.setPixelColor x y acc.average) result
    -- Vertical pass
    let temp := result
    forPixels 0 temp.width 0 temp.height (fun x y result =>
      let acc := forLoop (-radius) (radius + 1) (fun ky acc =>
        let ny := qBound 0 (y + ky) ((temp.height : Int) - 1)
        let color := temp.pixelColor x ny
        acc.add color) (⟨0, 0, 0, 0, 0⟩ : BlurAcc)
      result.setPixelColor x y acc.average) result

/-- The function `ImageProcessor::applyBlur` (its logging left out). -/
def applyBlur (image : QImage) (radius : Int) : QImage :=
  if image.isNull then image
  else applyGaussianBlur image radius

/-- The gray level `qGray(r, g, b)` of Qt: `(r * 11 + g * 16 + b * 5) / 32`. -/
def qGray (c : QColor) : Int := (c.red * 11 + c.green * 16 + c.blue * 5) / 32

/-- The conversion `QImage::convertToFormat(QImage::Format_Grayscale8)`: every pixel becomes
its gray level, read back as an opaque gray colour. -/
def convertToGrayscale8 (image : QImage) : QImage :=
  ⟨image.width, image.height, fun x y =>
    let gray := qGray (image.data x y)
    QColor.rgba gray gray gray 255⟩

/-- The horizontal Sobel kernel of `ImageProcessor::applyEdgeDetection`. -/
def sobelGx : List (List Int) := [[-1, 0, 1], [-2, 0, 2], [-1, 0, 1]]

/-- The vertical Sobel kernel of `ImageProcessor::applyEdgeDetection`. -/
def sobelGy : List (List Int) := [[-1, -2, -1], [0, 0, 0], [1, 2, 1]]

/-- The integer part of the square root: the greatest `k` with `k * k <= n`. -/
def isqrt (n : Nat) : Nat := Nat.findGreatest (fun k => k * k ≤ n) n

/-- The value `static_cast<int>(qSqrt(n) / 4.0)` for an `int` `n >= 0`: the integer part of
a quarter of the square root, which is the integer square root divided by four. -/
def sqrtOver4 (n : Int) : Int := (isqrt n.toNat : Int) / 4

/-- The function `ImageProcessor::applyEdgeDetection`: the Sobel window is read from
`result`, the raster that the same loop writes. -/
def applyEdgeDetection (image : QImage) : QImage :=
  if image.isNull then image
  else
    let result := convertToGrayscale8 image
    forPixels 1 ((result.width : Int) - 1) 1 ((result.height : Int) - 1) (fun x y result =>
      let gxy : Int × Int := (0, 0)
      let gxy := forLoop (-1) (1 + 1) (fun ky gxy =>
        forLoop (-1) (1 + 1) (fun kx gxy =>
          let intensity := qGray (result.pixelColor (x + kx) (y + ky))
          (gxy.1 + intensity * entry3 sobelGx (ky + 1) (kx + 1),
           gxy.2 + intensity * entry3 sobelGy (ky + 1) (kx + 1))) gxy) gxy
      let gx := gxy.1
      let gy := gxy.2
      let magnitude := qBound 0 (sqrtOver4 (gx * gx + gy * gy)) 255
      result.setPixelColor x y (QColor.rgba magnitude magnitude magnitude 255)) result

/-! ## Adjustment parameters (`src/model/adjustmentparameters.h`) -/

/-- The value object `AdjustmentParameters` with its default member values. -/
structure AdjustmentParameters where
  brightness : Int := 0
  contrast : Int := 0
  saturation : Int := 0
  hue : Int := 0
  gamma : ℚ := 1
  temperature : Int := 0
  exposure : Int := 0
  shadows : Int := 0
  highlights : Int := 0
deriving DecidableEq

/-! ## Commands (`src/commands/imagecommand.cpp`)

All commands of a document share one target raster, `*m_targetImage`; the functions below
take the current content of that raster and return its new content. -/

/-- The default-constructed `QImage()`: the null raster. -/
def QImage.null : QImage := ⟨0, 0, fun _ _ => ⟨0, 0, 0, 0⟩⟩

/-- The class `ImageCommand`. `applyOperation` is its pure virtual member; `m_targetImage`
records whether the target pointer is non-null. -/
structure ImageCommand where
  applyOperation : QImage → QImage
  m_targetImage : Bool
  m_previousImage : QImage
  m_newImage : QImage
  m_firstRedo : Bool

namespace ImageCommand

/-- The constructor `ImageCommand::ImageCommand(targetImage, ...)` on a target that holds
`target`: it copies `*targetImage` into `m_previousImage`. -/
def new (target : QImage) (applyOperation : QImage → QImage) : ImageCommand :=
  { applyOperation := applyOperation
    m_targetImage := true
    m_previousImage := target
    m_newImage := QImage.null
    m_firstRedo := true }

/-- The member `ImageCommand::undo`, returning the new content of the target. -/
def undo (c : ImageCommand) (target : QImage) : QImage :=
  if c.m_targetImage then c.m_previousImage else target

/-- The member `ImageCommand::redo`, returning the updated command and the new content of
the target. -/
def redo (c : ImageCommand) (target : QImage) : ImageCommand × QImage :=
  if c.m_targetImage then
    let c :=
      if c.m_firstRedo then
        { c with m_newImage := c.applyOperation c.m_previousImage, m_firstRedo := false }
      else c
    (c, c.m_newImage)
  else (c, target)

end ImageCommand

/-- A call made on a command or on the stack: `redo()` or `undo()`. -/
inductive Call where
  | redo
  | undo
deriving DecidableEq, Repr

/-- Runs a sequence of `redo()` / `undo()` calls on one command and the target. -/
def ImageCommand.run : List Call → ImageCommand × QImage → ImageCommand × QImage
  | [], st => st
  | Call.redo :: rest, (c, target) => ImageCommand.run rest (c.redo target)
  | Call.undo :: rest, (c, target) => ImageCommand.run rest (c, c.undo target)

/-- The class `BrightnessCommand`. -/
def BrightnessCommand (target : QImage) (brightness : Int) : ImageCommand :=
  ImageCommand.new target (fun image => adjustBrightness image brightness)

/-- The class `ContrastCommand`. -/
def ContrastCommand (target : QImage) (contrast : Int) : ImageCommand :=
  ImageCommand.new target (fun image => adjustContrast image contrast)

/-- The class `SaturationCommand`. -/
def SaturationCommand (target : QImage) (saturation : Int) : ImageCommand :=
  ImageCommand.new target (fun image => adjustSaturation image saturation)

/-- The class `HueCommand`. -/
def HueCommand (target : QImage) (hue : Int) : ImageCommand :=
  ImageCommand.new target (fun image => adjustHue image hue)

/-- The class `GammaCommand`. -/
def GammaCommand (qPow : ℚ → ℚ → ℚ) (target : QImage) (gamma : ℚ) : ImageCommand :=
  ImageCommand.new target (fun image => adjustGamma qPow image gamma)

/-- The class `ColorTemperatureCommand`. -/
def ColorTemperatureCommand (target : QImage) (temperature : Int) : ImageCommand :=
  ImageCommand.new target (fun image => adjustColorTemperature image temperature)

/-- The class `ExposureCommand`. -/
def ExposureCommand (qPow : ℚ → ℚ → ℚ) (target : QImage) (exposure : Int) : ImageCommand :=
  ImageCommand.new target (fun image => adjustExposure qPow image exposure)

/-- The class `ShadowsCommand`. -/
def ShadowsCommand (target : QImage) (shadows : Int) : ImageCommand :=
  ImageCommand.new target (fun image => adjustShadows image shadows)

/-- The class `HighlightsCommand`. -/
def HighlightsCommand (target : QImage) (highlights : Int) : ImageCommand :=
  ImageCommand.new target (fun image => adjustHighlights image highlights)

/-- The class `CompoundAdjustmentCommand`: a `QUndoCommand` whose children are the commands
constructed with it as parent, in construction order. Its own `m_targetImage` is never read
and is left out. -/
structure CompoundAdjustmentCommand where
  children : List ImageCommand

namespace CompoundAdjustmentCommand

/-- Registers a command constructed with the compound as its `parent`. -/
def addChild (compound : CompoundAdjustmentCommand) (child : ImageCommand) :
    CompoundAdjustmentCommand :=
  ⟨compound.children ++ [child]⟩

/-- Runs `redo()` on the children of a list in order, threading the target. -/
def redoChildren : List ImageCommand → QImage → List ImageCommand × QImage
  | [], target => ([], target)
  | child :: rest, target =>
    let (child', target') := child.redo target
    let (rest', target'') := redoChildren rest target'
    (child' :: rest', target'')

/-- Modelled from the spec: the inherited `QUndoCommand::redo` of Qt, absent from the
sources: on apply, executes the children in insertion order, each against the same shared
target raster. -/
def redo (compound : CompoundAdjustmentCommand) (target : QImage) :
    CompoundAdjustmentCommand × QImage :=
  let (children, target') := redoChildren compound.children target
  (⟨children⟩, target')

/-- Modelled from the spec: the inherited `QUndoCommand::undo` of Qt, absent from the
sources: on undo, executes the children's `undo()` in reverse insertion order. -/
def undo (compound : CompoundAdjustmentCommand) (target : QImage) : QImage :=
  compound.children.reverse.foldl (fun t child => child.undo t) target

end CompoundAdjustmentCommand

/-! ## Command factory (`src/commands/commandfactory.cpp`) -/

/-- The function `CommandFactory::createCompoundAdjustmentCommand` on a target that holds
`target`. No child is executed here, so every child copies the same `target`. -/
def createCompoundAdjustmentCommand (qPow : ℚ → ℚ → ℚ) (target : QImage)
    (params : AdjustmentParameters) : CompoundAdjustmentCommand :=
  let compound : CompoundAdjustmentCommand := ⟨[]⟩
  let compound :=
    if params.brightness ≠ 0 then compound.addChild (BrightnessCommand target params.brightness)
    else compound
  let compound :=
    if params.contrast ≠ 0 then compound.addChild (ContrastCommand target params.contrast)
    else compound
  let compound :=
    if params.saturation ≠ 0 then compound.addChild (SaturationCommand target params.saturation)
    else compound
  let compound :=
    if params.hue ≠ 0 then compound.addChild (HueCommand target params.hue)
    else compound
  let compound :=
    if |params.gamma - 1| > 1 / 100 then compound.addChild (GammaCommand qPow target params.gamma)
    else compound
  let compound :=
    if params.temperature ≠ 0 then
      compound.addChild (ColorTemperatureCommand target params.temperature)
    else compound
  let compound :=
    if params.exposure ≠ 0 then compound.addChild (ExposureCommand qPow target params.exposure)
    else compound
  let compound :=
    if params.shadows ≠ 0 then compound.addChild (ShadowsCommand target params.shadows)
    else compound
  let compound :=
    if params.highlights ≠ 0 then compound.addChild (HighlightsCommand target params.highlights)
    else compound
  compound

/-! ## Preview (`src/preview/previewmanager.cpp`) -/

/-- The function `PreviewManager::applyAdjustments`. -/
def applyAdjustments (qPow : ℚ → ℚ → ℚ) (source : QImage) (params : AdjustmentParameters) :
    QImage :=
  let result := source
  let result := if params.brightness ≠ 0 then adjustBrightness result params.brightness else result
  let result := if params.contrast ≠ 0 then adjustContrast result params.contrast else result
  let result := if params.saturation ≠ 0 then adjustSaturation result params.saturation else result
  let result := if params.hue ≠ 0 then adjustHue result params.hue else result
  let result := if |params.gamma - 1| > 1 / 100 then adjustGamma qPow result params.gamma else result
  let result :=
    if params.temperature ≠ 0 then adjustColorTemperature result params.temperature else result
  let result := if params.exposure ≠ 0 then adjustExposure qPow result params.exposure else result
  let result := if params.shadows ≠ 0 then adjustShadows result params.shadows else result
  let result := if params.highlights ≠ 0 then adjustHighlights result params.highlights else result
  result

/-- The function `PreviewManager::generatePreview`. -/
def generatePreview (qPow : ℚ → ℚ → ℚ) (source : QImage) (params : AdjustmentParameters) :
    QImage :=
  if source.isNull then source else applyAdjustments qPow source params

/-! ## Command stack (`src/commands/commandmanager.cpp`)

`CommandManager` delegates to a `QUndoStack` of Qt. The stack is generic in the commands `C`
it stores and in the state `W` they act on (the document raster for image commands). -/

/-- The virtual members `redo()` and `undo()` of the commands stored in a stack. -/
structure QUndoCommand (C W : Type) where
  redo : C → W → C × W
  undo : C → W → W

/-- The virtual members of `ImageCommand`, acting on the target raster. -/
def imageCommands : QUndoCommand ImageCommand QImage :=
  ⟨ImageCommand.redo, ImageCommand.undo⟩

/-- The virtual members of `CompoundAdjustmentCommand`, acting on the target raster. -/
def compoundCommands : QUndoCommand CompoundAdjustmentCommand QImage :=
  ⟨CompoundAdjustmentCommand.redo, CompoundAdjustmentCommand.undo⟩

/-- Commands that only record the calls made on them, `(command, call)` in call order: they
show which commands a stack applies. -/
def recordingCommands : QUndoCommand Nat (List (Nat × Call)) :=
  ⟨fun c log => (c, log ++ [(c, Call.redo)]), fun c log => log ++ [(c, Call.undo)]⟩

/-- Modelled from the spec: the class `QUndoStack` of Qt, absent from the sources: an ordered
sequence of commands plus a current index, one past the last applied command. -/
structure QUndoStack (C : Type) where
  commands : List C
  index : Nat

namespace QUndoStack

variable {C W : Type}

/-- Modelled from the spec: `QUndoStack::push`, absent from the sources: truncate any commands
at or beyond the current index, append `cmd`, call `cmd.apply()`, advance the index. -/
def push (v : QUndoCommand C W) (s : QUndoStack C) (cmd : C) (w : W) : QUndoStack C × W :=
  let kept := s.commands.take s.index
  let (cmd', w') := v.redo cmd w
  (⟨kept ++ [cmd'], s.index + 1⟩, w')

/-- Modelled from the spec: `QUndoStack::undo`, absent from the sources: call
`stack[index-1].undo()` and decrement the index; nothing when `index` is 0. -/
def undo (v : QUndoCommand C W) (s : QUndoStack C) (w : W) : QUndoStack C × W :=
  if s.index = 0 then (s, w)
  else
    match s.commands.get? (s.index - 1) with
    | some cmd => (⟨s.commands, s.index - 1⟩, v.undo cmd w)
    | none => (s, w)

/-- Modelled from the spec: `QUndoStack::redo`, absent from the sources: call
`stack[index].apply()` and increment the index; nothing when `index` is the length. -/
def redo (v : QUndoCommand C W) (s : QUndoStack C) (w : W) : QUndoStack C × W :=
  match s.commands.get? s.index with
  | some cmd =>
    let (cmd', w') := v.redo cmd w
    (⟨s.commands.set s.index cmd', s.index + 1⟩, w')
  | none => (s, w)

/-- Modelled from the spec: `QUndoStack::clear`, absent from the sources: drop all commands,
reset the index to 0. -/
def clear (_s : QUndoStack C) : QUndoStack C := ⟨[], 0⟩

/-- Modelled from the spec: `QUndoStack::canUndo`, absent from the sources: `index > 0`. -/
def canUndo (s : QUndoStack C) : Bool := decide (0 < s.index)

/-- Modelled from the spec: `QUndoStack::canRedo`, absent from the sources:
`index < length`. -/
def canRedo (s : QUndoStack C) : Bool := decide (s.index < s.commands.length)

end QUndoStack

/-- The class `CommandManager`: its undo stack, and how many times the signal
`commandExecuted` was emitted. -/
structure CommandManager (C : Type) where
  m_undoStack : QUndoStack C
  commandExecuted : Nat

namespace CommandManager

variable {C W : Type}

/-- The constructor `CommandManager::CommandManager`: an empty stack. -/
def new : CommandManager C := ⟨⟨[], 0⟩, 0⟩

/-- The member `CommandManager::executeCommand`; `none` is the null pointer. -/
def executeCommand (v : QUndoCommand C W) (m : CommandManager C) (command : Option C) (w : W) :
    CommandManager C × W :=
  match command with
  | some cmd =>
    let (stack, w') := m.m_undoStack.push v cmd w
    (⟨stack, m.commandExecuted + 1⟩, w')
  | none => (m, w)

/-- The member `CommandManager::clear`. -/
def clear (m : CommandManager C) : CommandManager C := { m with m_undoStack := m.m_undoStack.clear }

/-- The member `CommandManager::canUndo`. -/
def canUndo (m : CommandManager C) : Bool := m.m_undoStack.canUndo

/-- The member `CommandManager::canRedo`. -/
def canRedo (m : CommandManager C) : Bool := m.m_undoStack.canRedo

/-- The undo action of `CommandManager::createUndoAction`: `QUndoStack::undo`. -/
def undo (v : QUndoCommand C W) (m : CommandManager C) (w : W) : CommandManager C × W :=
  let (stack, w') := m.m_undoStack.undo v w
  ({ m with m_undoStack := stack }, w')

/-- The redo action of `CommandManager::createRedoAction`: `QUndoStack::redo`. -/
def redo (v : QUndoCommand C W) (m : CommandManager C) (w : W) : CommandManager C × W :=
  let (stack, w') := m.m_undoStack.redo v w
  ({ m with m_undoStack := stack }, w')

/-- Runs a sequence of undo and redo actions. -/
def run (v : QUndoCommand C W) : List Call → CommandManager C × W → CommandManager C × W
  | [], st => st
  | Call.redo :: rest, (m, w) => run v rest (redo v m w)
  | Call.undo :: rest, (m, w) => run v rest (undo v m w)

end CommandManager

/-- A power function for examples: exact at the exponents 0 and 1, the base otherwise. -/
def powExample (x y : ℚ) : ℚ := if y = 0 then 1 else x

/-! ## Reference definitions

The blur and the edge detection as the specification words them, computed from an
unmodified input raster; the theorems compare the library functions with them. -/

/-- The per-channel integer average of the colours `pick k` for `k` in `[-r, r]`: each
channel sum divided by `2 r + 1`. -/
def windowAverage (r : Int) (pick : Int → QColor) : QColor :=
  let ks := (List.range (2 * r + 1).toNat).map fun (i : Nat) => (i : Int) - r
  let n : Int := 2 * r + 1
  QColor.rgba ((ks.map fun k => (pick k).red).sum / n) ((ks.map fun k => (pick k).green).sum / n)
    ((ks.map fun k => (pick k).blue).sum / n) ((ks.map fun k => (pick k).alpha).sum / n)

/-- The horizontal pass `H` of the specification: every pixel becomes the average of the
`2 r + 1` pixels of the input at columns `clamp(x + k, 0, w - 1)` of its row. -/
def boxBlurRowsSpec (R : QImage) (r : Int) : QImage :=
  ⟨R.width, R.height, fun x y =>
    if R.valid x y then windowAverage r fun k => R.data (qBound 0 (x + k) ((R.width : Int) - 1)) y
    else R.data x y⟩

/-- The vertical pass `V` of the specification: every pixel becomes the average of the
`2 r + 1` pixels of the input at rows `clamp(y + k, 0, h - 1)` of its column. -/
def boxBlurColumnsSpec (R : QImage) (r : Int) : QImage :=
  ⟨R.width, R.height, fun x y =>
    if R.valid x y then windowAverage r fun k => R.data x (qBound 0 (y + k) ((R.height : Int) - 1))
    else R.data x y⟩

/-- The blur of the specification: `V(H(R))` with the radius bounded to 1..10. -/
def gaussianBlurSpec (R : QImage) (radius : Int) : QImage :=
  boxBlurColumnsSpec (boxBlurRowsSpec R (qBound 1 radius 10)) (qBound 1 radius 10)

/-- The edge detection of the specification: with `G` the grayscale conversion of `R`,
border pixels are those of `G` and every interior pixel is the gray level
`clamp(floor(sqrt(Gx^2 + Gy^2) / 4), 0, 255)` of the Sobel responses computed on `G`. -/
def edgeDetectionSpec (R : QImage) : QImage :=
  let G := convertToGrayscale8 R
  ⟨G.width, G.height, fun x y =>
    if 1 ≤ x ∧ x < (G.width : Int) - 1 ∧ 1 ≤ y ∧ y < (G.height : Int) - 1 then
      let g (dx dy : Int) : Int := qGray (G.data (x + dx) (y + dy))
      let gx := -(g (-1) (-1)) + g 1 (-1) - 2 * g (-1) 0 + 2 * g 1 0 - g (-1) 1 + g 1 1
      let gy := -(g (-1) (-1)) - 2 * g 0 (-1) - g 1 (-1) + g (-1) 1 + 2 * g 0 1 + g 1 1
      let magnitude := qBound 0 (sqrtOver4 (gx * gx + gy * gy)) 255
      QColor.rgba magnitude magnitude magnitude 255
    else G.data x y⟩


/-! ## Auto-enhancement (`src/imageprocessor.cpp`, `src/imageprocessor.h`) -/

/-- The value of a C++ `int` expression whose mathematical result is `v`: the result wraps
to the 32-bit two's complement range when it leaves it. -/
def wrapInt32 (v : Int) : Int := (v + 2147483648) % 4294967296 - 2147483648

/-- The struct `ImageStats`. -/
structure ImageStats where
  averageBrightness : ℚ
  contrast : ℚ
  saturation : ℚ
  darkPixels : Int
  brightPixels : Int
deriving DecidableEq

/-- The `double` expression
`0.299 * color.red() + 0.587 * color.green() + 0.114 * color.blue()`. -/
def brightnessOf (color : QColor) : ℚ :=
  dadd (dadd (dmul (toDouble (299 / 1000)) (color.red : ℚ))
    (dmul (toDouble (587 / 1000)) (color.green : ℚ)))
    (dmul (toDouble (114 / 1000)) (color.blue : ℚ))

/-- The accessor `QColor::saturationF()` of an HSV colour: the 16-bit saturation over 65535. -/
def QHsv.saturationF (c : QHsv) : ℚ := (c.s16 : ℚ) / 65535

/-- The local variables that the pixel loop of `ImageProcessor::analyzeImage` updates. -/
structure AnalyzeAcc where
  totalBrightness : ℚ
  totalSaturation : ℚ
  darkCount : Int
  brightCount : Int
  brightnessValues : List ℚ

/-- The body of the pixel loop of `ImageProcessor::analyzeImage` for one colour. -/
def AnalyzeAcc.visit (acc : AnalyzeAcc) (color : QColor) : AnalyzeAcc :=
  let brightness := brightnessOf color
  { totalBrightness := dadd acc.totalBrightness brightness
    brightnessValues := acc.brightnessValues ++ [brightness]
    darkCount := if brightness < 64 then acc.darkCount + 1 else acc.darkCount
    brightCount := if brightness > 192 then acc.brightCount + 1 else acc.brightCount
    totalSaturation := dadd acc.totalSaturation color.toHsv.saturationF }

/-- The function `ImageProcessor::analyzeImage`; `qSqrt` is the square root of the C++
runtime. The `int` products `width * height` and `count * 100` wrap as 32-bit values; the
counters themselves never exceed the number of pixels. -/
def analyzeImage (qSqrt : ℚ → ℚ) (image : QImage) : ImageStats :=
  let stats : ImageStats := ⟨0, 0, 0, 0, 0⟩
  if image.isNull then stats
  else
    let totalPixels := wrapInt32 ((image.width : Int) * (image.height : Int))
    let acc := forLoop 0 image.height (fun y acc =>
      forLoop 0 image.width (fun x (acc : AnalyzeAcc) =>
        acc.visit (image.pixelColor x y)) acc) (⟨0, 0, 0, 0, []⟩ : AnalyzeAcc)
    let averageBrightness := ddiv acc.totalBrightness (totalPixels : ℚ)
    let variance := acc.brightnessValues.foldl (fun (variance : ℚ) brightness =>
      let diff := dsub brightness averageBrightness
      dadd variance (dmul diff diff)) 0
    let contrast := qSqrt (ddiv variance (totalPixels : ℚ))
    let saturation := ddiv acc.totalSaturation (totalPixels : ℚ)
    let darkPixels := cdiv (wrapInt32 (acc.darkCount * 100)) totalPixels
    let brightPixels := cdiv (wrapInt32 (acc.brightCount * 100)) totalPixels
    { stats with
      averageBrightness := averageBrightness
      contrast := contrast
      saturation := saturation
      darkPixels := darkPixels
      brightPixels := brightPixels }

/-- The function `ImageProcessor::calculateHistogram`: 256 counters, one incremented per
pixel at the index of its integer brightness. -/
def calculateHistogram (image : QImage) : List Int :=
  let histogram : List Int := List.replicate 256 0
  if image.isNull then histogram
  else
    forLoop 0 image.height (fun y histogram =>
      forLoop 0 image.width (fun x (histogram : List Int) =>
        let color := image.pixelColor x y
        let brightness := castInt (brightnessOf color)
        histogram.set brightness.toNat (histogram.getD brightness.toNat 0 + 1)) histogram)
      histogram

/-- The function `ImageProcessor::suggestEnhancements`. The fields of `params` that the
function assigns are computed in source order; the others keep their default values. -/
def suggestEnhancements (stats : ImageStats) : AdjustmentParameters :=
  let params : AdjustmentParameters := {}
  -- Brightness adjustment
  let brightness :=
    if stats.averageBrightness < 100 then
      qBound (-100) (castInt (dmul (dsub 115 stats.averageBrightness) (toDouble (6 / 10)))) 100
    else if stats.averageBrightness > 155 then
      qBound (-100) (castInt (dmul (dsub 140 stats.averageBrightness) (toDouble (6 / 10)))) 100
    else params.brightness
  -- Contrast adjustment
  let contrast :=
    if stats.contrast < 40 then
      qBound 0 (castInt (dmul (dsub 50 stats.contrast) (15 / 10))) 50
    else if stats.contrast > 75 then
      qBound (-30) (castInt (dmul (dsub 65 stats.contrast) (5 / 10))) 0
    else params.contrast
  -- Saturation adjustment
  let saturation :=
    if stats.saturation < 25 / 100 then
      qBound 0 (castInt (dmul (dsub (toDouble (40 / 100)) stats.saturation) 150)) 40
    else if stats.saturation > toDouble (65 / 100) then
      qBound (-30) (castInt (dmul (dsub (50 / 100) stats.saturation) 100)) 0
    else params.saturation
  -- Additional adjustments based on dark/bright pixels
  let shadows :=
    if stats.darkPixels > 40 then qBound 0 (20 + cdiv brightness 2) 50
    else params.shadows
  let highlights :=
    if stats.brightPixels > 30 then qBound (-50) (-15 + cdiv brightness 2) 0
    else params.highlights
  { params with
    brightness := brightness
    contrast := contrast
    saturation := saturation
    shadows := shadows
    highlights := highlights }

/-! ## Vignette and geometric transformations (`src/imageprocessor.cpp`) -/

/-- The function `ImageProcessor::applyVignette`; `qSqrt` is the square root of the C++
runtime. -/
def applyVignette (qSqrt : ℚ → ℚ) (image : QImage) : QImage :=
  if image.isNull then image
  else
    let result := image
    let centerX := cdiv result.width 2
    let centerY := cdiv result.height 2
    let radius : ℚ := ddiv ((min result.width result.height : Nat) : ℚ) 2
    forPixels 0 result.width 0 result.height (fun x y result =>
      let dx : ℚ := ((x - centerX : Int) : ℚ)
      let dy : ℚ := ((y - centerY : Int) : ℚ)
      let distance := qSqrt (dadd (dmul dx dx) (dmul dy dy))
      let factor := qBound 0 (dsub 1 (ddiv distance radius)) 1
      let color := result.pixelColor x y
      let r := castInt (dmul (color.red : ℚ) factor)
      let g := castInt (dmul (color.green : ℚ) factor)
      let b := castInt (dmul (color.blue : ℚ) factor)
      result.setPixelColor x y (QColor.rgba r g b color.alpha)) result

/-- The call `QImage::scaled(width, height, Qt::IgnoreAspectRatio, Qt::SmoothTransformation)`
of Qt: the null raster for a null raster or an empty target size (width or height not
positive); otherwise the raster `smoothScale` that Qt's smooth scaling produces. -/
def QImage.scaled (smoothScale : QImage → Int → Int → QImage) (image : QImage)
    (width height : Int) : QImage :=
  if image.isNull then QImage.null
  else if width ≤ 0 ∨ height ≤ 0 then QImage.null
  else smoothScale image width height

/-- The call `QImage::copy(x, y, width, height)` of Qt: the whole raster for the null
rectangle (width and height both 0), the null raster for any other rectangle without area,
otherwise the `width x height` raster read at offset `(x, y)`, with 0 outside the source. -/
def QImage.copy (image : QImage) (x y width height : Int) : QImage :=
  if image.isNull then QImage.null
  else if width = 0 ∧ height = 0 then image
  else if width ≤ 0 ∨ height ≤ 0 then QImage.null
  else
    ⟨width.toNat, height.toNat, fun i j =>
      if 0 ≤ i ∧ i < width ∧ 0 ≤ j ∧ j < height ∧ image.valid (x + i) (y + j) = true then
        image.data (x + i) (y + j)
      else ⟨0, 0, 0, 0⟩⟩

/-- The function `ImageProcessor::resize`. -/
def resize (smoothScale : QImage → Int → Int → QImage) (image : QImage) (width height : Int) :
    QImage :=
  if image.isNull then image
  else image.scaled smoothScale width height

/-- The function `ImageProcessor::crop`. -/
def crop (image : QImage) (x y width height : Int) : QImage :=
  if image.isNull then image
  else image.copy x y width height

/-- The class `ResizeCommand`. -/
def ResizeCommand (smoothScale : QImage → Int → Int → QImage) (target : QImage)
    (width height : Int) : ImageCommand :=
  ImageCommand.new target (fun image => resize smoothScale image width height)

/-- The class `CropCommand`. -/
def CropCommand (target : QImage) (x y width height : Int) : ImageCommand :=
  ImageCommand.new target (fun image => crop image x y width height)

/-- A square root for examples: the integer square root of the integer part. -/
def sqrtExample (q : ℚ) : ℚ := ((isqrt ⌊q⌋.toNat : Nat) : ℚ)


/-- The number of pixels of a raster whose colour satisfies `p`, counted row by row. -/
def countPixels (image : QImage) (p : QColor → Bool) : Nat :=
  ((List.range image.height).map fun (y : Nat) =>
    ((List.range image.width).filter fun (x : Nat) => p (image.data x y)).length).sum


/-! ## Identity test and comparison (`src/model/adjustmentparameters.h`) -/

namespace AdjustmentParameters

/-- The member `AdjustmentParameters::hasAnyAdjustments`. -/
def hasAnyAdjustments (p : AdjustmentParameters) : Bool :=
  p.brightness != 0
    || p.contrast != 0
    || p.saturation != 0
    || p.hue != 0
    || decide (|p.gamma - 1| > 1 / 100)
    || p.temperature != 0
    || p.exposure != 0
    || p.shadows != 0
    || p.highlights != 0

/-- The member `AdjustmentParameters::operator==`. -/
def operatorEq (p other : AdjustmentParameters) : Bool :=
  p.brightness == other.brightness
    && p.contrast == other.contrast
    && p.saturation == other.saturation
    && p.hue == other.hue
    && decide (|p.gamma - other.gamma| < 1 / 100)
    && p.temperature == other.temperature
    && p.exposure == other.exposure
    && p.shadows == other.shadows
    && p.highlights == other.highlights

/-- The member `AdjustmentParameters::operator!=`. -/
def operatorNe (p other : AdjustmentParameters) : Bool :=
  !(p.operatorEq other)

/-- The identity test as the specification words it: some field deviates from its identity
value, 0 for the integer fields and exactly 1.0 for gamma. -/
def deviatesFromIdentity (p : AdjustmentParameters) : Bool :=
  p.brightness != 0 || p.contrast != 0 || p.saturation != 0 || p.hue != 0 || p.gamma != 1
    || p.temperature != 0 || p.exposure != 0 || p.shadows != 0 || p.highlights != 0

end AdjustmentParameters

/-- The children the specification expects of the compound factory: one command per field
that is not at identity, in the order of the fields. -/
def expectedChildren (qPow : ℚ → ℚ → ℚ) (target : QImage) (p : AdjustmentParameters) :
    List ImageCommand :=
  (if p.brightness ≠ 0 then [BrightnessCommand target p.brightness] else [])
    ++ (if p.contrast ≠ 0 then [ContrastCommand target p.contrast] else [])
    ++ (if p.saturation ≠ 0 then [SaturationCommand target p.saturation] else [])
    ++ (if p.hue ≠ 0 then [HueCommand target p.hue] else [])
    ++ (if |p.gamma - 1| > 1 / 100 then [GammaCommand qPow target p.gamma] else [])
    ++ (if p.temperature ≠ 0 then [ColorTemperatureCommand target p.temperature] else [])
    ++ (if p.exposure ≠ 0 then [ExposureCommand qPow target p.exposure] else [])
    ++ (if p.shadows ≠ 0 then [ShadowsCommand target p.shadows] else [])
    ++ (if p.highlights ≠ 0 then [HighlightsCommand target p.highlights] else [])


/-! ## Remaining filters and transformations (`src/imageprocessor.cpp`) -/

/-- The function `ImageProcessor::applyBlackAndWhite`. -/
def applyBlackAndWhite (image : QImage) : QImage :=
  if image.isNull then image
  else
    let result := convertToGrayscale8 image
    result

/-- The function `ImageProcessor::applySepia`. -/
def applySepia (image : QImage) : QImage :=
  if image.isNull then image
  else
    let result := image
    forPixels 0 result.width 0 result.height (fun x y result =>
      let color := result.pixelColor x y
      let tr := qBound 0 (castInt (dadd (dadd (dmul (toDouble (393 / 1000)) (color.red : ℚ))
        (dmul (toDouble (769 / 1000)) (color.green : ℚ)))
        (dmul (toDouble (189 / 1000)) (color.blue : ℚ)))) 255
      let tg := qBound 0 (castInt (dadd (dadd (dmul (toDouble (349 / 1000)) (color.red : ℚ))
        (dmul (toDouble (686 / 1000)) (color.green : ℚ)))
        (dmul (toDouble (168 / 1000)) (color.blue : ℚ)))) 255
      let tb := qBound 0 (castInt (dadd (dadd (dmul (toDouble (272 / 1000)) (color.red : ℚ))
        (dmul (toDouble (534 / 1000)) (color.green : ℚ)))
        (dmul (toDouble (131 / 1000)) (color.blue : ℚ)))) 255
      result.setPixelColor x y (QColor.rgba tr tg tb color.alpha)) result

/-- The function `ImageProcessor::rotate`; `transformed image angle` is the raster that
`QImage::transformed` of Qt returns for the rotation by `angle` degrees. -/
def rotate (transformed : QImage → Int → QImage) (image : QImage) (angle : Int) : QImage :=
  if image.isNull then image
  else transformed image angle

/-- The enumeration `Qt::Orientation`. -/
inductive Orientation where
  | Horizontal
  | Vertical
deriving DecidableEq, Repr

/-- The call `QImage::flipped(orientation)` of Qt: the mirror image along the given
direction. -/
def QImage.flipped (image : QImage) (orientation : Orientation) : QImage :=
  match orientation with
  | Orientation.Horizontal =>
    ⟨image.width, image.height, fun x y => image.data ((image.width : Int) - 1 - x) y⟩
  | Orientation.Vertical =>
    ⟨image.width, image.height, fun x y => image.data x ((image.height : Int) - 1 - y)⟩

/-- The function `ImageProcessor::flipHorizontal`. -/
def flipHorizontal (image : QImage) : QImage :=
  if image.isNull then image
  else image.flipped Orientation.Horizontal

/-- The function `ImageProcessor::flipVertical`. -/
def flipVertical (image : QImage) : QImage :=
  if image.isNull then image
  else image.flipped Orientation.Vertical

/-- The function `ImageProcessor::addTextWatermark`; `drawText result x y text` is the raster
after `QPainter::drawText` of Qt with the pen and font the function sets. -/
def addTextWatermark (drawText : QImage → Int → Int → String → QImage) (image : QImage)
    (text : String) (x y : Int) : QImage :=
  if image.isNull || text.isEmpty then image
  else
    let result := image
    drawText result x y text

/-- The function `ImageProcessor::addImageWatermark`; `drawImage result x y watermark` is the
raster after `QPainter::drawImage` of Qt at opacity 0.5. -/
def addImageWatermark (drawImage : QImage → Int → Int → QImage → QImage) (image : QImage)
    (watermark : QImage) (x y : Int) : QImage :=
  if image.isNull || watermark.isNull then image
  else
    let result := image
    drawImage result x y watermark

/-! ## Filter and blur commands (`src/commands/imagecommand.cpp`) -/

/-- The enumeration `FilterCommand::FilterType`. -/
inductive FilterType where
  | BlackAndWhite
  | Sepia
  | Vignette
  | Sharpen
  | EdgeDetection
deriving DecidableEq, Repr

/-- The class `FilterCommand`. -/
def FilterCommand (qSqrt : ℚ → ℚ) (target : QImage) (filterType : FilterType) : ImageCommand :=
  ImageCommand.new target (fun image =>
    match filterType with
    | FilterType.BlackAndWhite => applyBlackAndWhite image
    | FilterType.Sepia => applySepia image
    | FilterType.Vignette => applyVignette qSqrt image
    | FilterType.Sharpen => applySharpen image
    | FilterType.EdgeDetection => applyEdgeDetection image)

/-- The class `BlurCommand`. -/
def BlurCommand (target : QImage) (radius : Int) : ImageCommand :=
  ImageCommand.new target (fun image => applyBlur image radius)

/-! ## Document (`src/model/imagedocument.cpp`)

`QString` is a Lean `String`; the reader `QImageReader(filePath).read()` is the function
`read`, the null raster when the file cannot be decoded. Signals are left out. -/

/-- The class `ImageDocument`. -/
structure ImageDocument where
  m_currentImage : QImage
  m_originalImage : QImage
  m_filePath : String
  m_modified : Bool

namespace ImageDocument

/-- The constructor `ImageDocument::ImageDocument`. -/
def new : ImageDocument := ⟨QImage.null, QImage.null, "", false⟩

/-- The member `ImageDocument::setModified`. -/
def setModified (d : ImageDocument) (modified : Bool) : ImageDocument :=
  if d.m_modified != modified then { d with m_modified := modified } else d

/-- The member `ImageDocument::validateImage`. -/
def validateImage (image : QImage) : Bool :=
  if image.isNull then false
  else if (image.width : Int) ≤ 0 ∨ (image.height : Int) ≤ 0 then false
  else true

/-- The member `ImageDocument::load`: the returned flag and the document afterwards. -/
def load (read : String → QImage) (d : ImageDocument) (filePath : String) :
    Bool × ImageDocument :=
  if filePath.isEmpty then (false, d)
  else
    let newImage := read filePath
    if newImage.isNull then (false, d)
    else if !validateImage newImage then (false, d)
    else
      let d := { d with m_currentImage := newImage }
      let d := { d with m_originalImage := newImage }
      let d := { d with m_filePath := filePath }
      let d := d.setModified false
      (true, d)

/-- The member `ImageDocument::saveAs`; `written` tells whether `QImage::save` succeeds. -/
def saveAs (written : Bool) (d : ImageDocument) (filePath : String) : Bool × ImageDocument :=
  if filePath.isEmpty then (false, d)
  else if d.m_currentImage.isNull then (false, d)
  else if !written then (false, d)
  else
    let d := { d with m_filePath := filePath }
    let d := d.setModified false
    (true, d)

/-- The member `ImageDocument::getCurrentImage`. -/
def getCurrentImage (d : ImageDocument) : QImage := d.m_currentImage

/-- The member `ImageDocument::getOriginalImage`. -/
def getOriginalImage (d : ImageDocument) : QImage := d.m_originalImage

/-- The member `ImageDocument::setCurrentImage`. -/
def setCurrentImage (d : ImageDocument) (image : QImage) : ImageDocument :=
  if image.isNull then d
  else
    let d := { d with m_currentImage := image }
    d.setModified true

/-- The member `ImageDocument::filePath`. -/
def filePath (d : ImageDocument) : String := d.m_filePath

/-- The member `ImageDocument::isModified`. -/
def isModified (d : ImageDocument) : Bool := d.m_modified

/-- The member `ImageDocument::isEmpty`. -/
def isEmpty (d : ImageDocument) : Bool := d.m_currentImage.isNull

end ImageDocument

/-- The virtual members of an `ImageCommand` whose target is `document->currentImagePtr()`,
the address of `m_currentImage`: they assign the raster member and touch nothing else. -/
def documentCommands : QUndoCommand ImageCommand ImageDocument :=
  ⟨fun c d =>
      let (c', image) := c.redo d.m_currentImage
      (c', { d with m_currentImage := image }),
    fun c d => { d with m_currentImage := c.undo d.m_currentImage }⟩


/-! ## AI enhancement (`src/mainwindow.cpp`, `src/ai/EnhancementResponseParser.cpp`) -/

/-- The struct `ImageEnhancementSuggestion`. -/
structure ImageEnhancementSuggestion where
  operation : String
  value : ℚ
  reason : String
  confidence : ℚ
  selected : Bool

/-- The state that `MainWindow::applyAIEnhancements` works on: the command manager, the
document and the local counter `appliedCount`, 0 at the start. -/
structure EnhancementState where
  commandManager : CommandManager ImageCommand
  document : ImageDocument
  appliedCount : Int

/-- One call `commandManager->executeCommand(cmd); appliedCount++;` on a command built by
`new`, never the null pointer. -/
def EnhancementState.execute (s : EnhancementState) (cmd : ImageCommand) : EnhancementState :=
  let (commandManager, document) :=
    s.commandManager.executeCommand documentCommands (some cmd) s.document
  ⟨commandManager, document, s.appliedCount + 1⟩

/-- The function `MainWindow::applyAIEnhancements`; `toLower` is `QString::toLower` of Qt.
The commands take `*document->currentImagePtr()` as their target. -/
def applyAIEnhancements (toLower : String → String) (qPow : ℚ → ℚ → ℚ) (qSqrt : ℚ → ℚ)
    (suggestions : List ImageEnhancementSuggestion)
    (commandManager : CommandManager ImageCommand) (document : ImageDocument) :
    EnhancementState :=
  if suggestions.isEmpty then ⟨commandManager, document, 0⟩
  else
    suggestions.foldl (fun s suggestion =>
      let operation := toLower suggestion.operation
      let value := suggestion.value
      if operation = "brightness" then
        s.execute (BrightnessCommand s.document.m_currentImage (castInt value))
      else if operation = "contrast" then
        s.execute (ContrastCommand s.document.m_currentImage (castInt value))
      else if operation = "saturation" then
        s.execute (SaturationCommand s.document.m_currentImage (castInt value))
      else if operation = "hue" then
        s.execute (HueCommand s.document.m_currentImage (castInt value))
      else if operation = "gamma" then
        s.execute (GammaCommand qPow s.document.m_currentImage value)
      else if operation = "temperature" ∨ operation = "color_temperature" then
        s.execute (ColorTemperatureCommand s.document.m_currentImage (castInt value))
      else if operation = "exposure" then
        s.execute (ExposureCommand qPow s.document.m_currentImage (castInt value))
      else if operation = "shadows" then
        s.execute (ShadowsCommand s.document.m_currentImage (castInt value))
      else if operation = "highlights" then
        s.execute (HighlightsCommand s.document.m_currentImage (castInt value))
      else if operation = "sharpen" then
        s.execute (FilterCommand qSqrt s.document.m_currentImage FilterType.Sharpen)
      else if operation = "blur" then
        let radius := qBound 1 (castInt value) 100
        s.execute (BlurCommand s.document.m_currentImage radius)
      else s) ⟨commandManager, document, 0⟩

/-- The image that `MainWindow::aiEnhance` hands to the dialog: a temporary PNG file of the
current raster, or the file of the document. -/
inductive AnalysedImage where
  | temporaryFile (image : QImage)
  | documentFile (path : String)

/-- The choice of image in `MainWindow::aiEnhance`, for a valid provider configuration and a
temporary file that can be written; nothing is analysed for an empty document. -/
def aiEnhance (document : ImageDocument) : Option AnalysedImage :=
  if document.isEmpty then none
  else if document.isModified then
    some (AnalysedImage.temporaryFile document.getCurrentImage)
  else
    some (AnalysedImage.documentFile document.filePath)

/-- The call `QString::indexOf(ch)` of Qt: the position of the first occurrence, or -1. -/
def QString.indexOf (s : String) (ch : Char) : Int :=
  if ch ∈ s.data then (s.data.indexOf ch : Int) else -1

/-- The call `QString::lastIndexOf(ch)` of Qt: the position of the last occurrence, or -1. -/
def QString.lastIndexOf (s : String) (ch : Char) : Int :=
  if ch ∈ s.data then (s.data.length : Int) - 1 - (s.data.reverse.indexOf ch : Int) else -1

/-- The call `QString::mid(position, n)` of Qt: `n` characters from `position` on, fewer when
the string ends before; the empty string when `position` is past the end; all the rest when
`n` is negative; a negative `position` shortens `n` by as much. -/
def QString.mid (s : String) (position n : Int) : String :=
  if position > s.data.length then ""
  else if position < 0 then
    if n < 0 then s else ⟨s.data.take (n + position).toNat⟩
  else if n < 0 then ⟨s.data.drop position.toNat⟩
  else ⟨(s.data.drop position.toNat).take n.toNat⟩

/-- The function `EnhancementResponseParser::extractJsonFromResponse`. -/
def extractJsonFromResponse (response : String) : String :=
  let startIdx := QString.indexOf response '\x7b'
  let endIdx := QString.lastIndexOf response '\x7d'
  if startIdx = -1 ∨ endIdx = -1 ∨ startIdx ≥ endIdx then response
  else QString.mid response startIdx (endIdx - startIdx + 1)


/-- A lower-casing for examples: the ASCII letters `A`..`Z` become `a`..`z`. -/
def lowerExample (s : String) : String := ⟨s.data.map Char.toLower⟩


/-- A loop body that rewrites the visited pixel with `G x y` of its current colour and
touches nothing else, on rasters of the dimensions of `img`. -/
def WritesOnly (G : Int → Int → QColor → QColor) (step : Int → Int → QImage → QImage)
    (x0 x1 y0 y1 : Int) (img : QImage) : Prop :=
  ∀ (x y : Int) (r : QImage), x0 ≤ x → x < x1 → y0 ≤ y → y < y1 →
    r.width = img.width → r.height = img.height →
    (step x y r).width = r.width ∧ (step x y r).height = r.height ∧
      ∀ x' y', (step x y r).data x' y' =
        if x' = x ∧ y' = y then G x y (r.data x y) else r.data x' y'

/-! ## Rounding to `double` -/

theorem pow2_eq_zpow (e : Int) : pow2 e = (2 : ℚ) ^ e := by
  unfold pow2
  split_ifs with h
  · obtain ⟨n, rfl⟩ := Int.eq_ofNat_of_zero_le h
    simp
  · obtain ⟨n, hn⟩ := Int.eq_ofNat_of_zero_le (by omega : 0 ≤ -e)
    have he : e = -(n : Int) := by omega
    subst he
    simp

theorem pow2_pos (e : Int) : 0 < pow2 e := by
  rw [pow2_eq_zpow]
  positivity

theorem pow2_add (a b : Int) : pow2 (a + b) = pow2 a * pow2 b := by
  simp only [pow2_eq_zpow]
  exact zpow_add₀ (by norm_num) a b

theorem pow2_natCast (k : Nat) : pow2 (k : Int) = ((2 ^ k : Nat) : ℚ) := by
  rw [pow2_eq_zpow]
  simp

theorem pow2_le_pow2 {a b : Int} (h : a ≤ b) : pow2 a ≤ pow2 b := by
  simp only [pow2_eq_zpow]
  exact zpow_le_zpow_right₀ (by norm_num) h

theorem pow2_lt_pow2_iff {a b : Int} : pow2 a < pow2 b ↔ a < b := by
  simp only [pow2_eq_zpow]
  exact zpow_lt_zpow_iff_right₀ (by norm_num)

theorem roundHalfEven_ge (q : ℚ) (n : Int) (h : (n : ℚ) ≤ q) : n ≤ roundHalfEven q := by
  have hf : n ≤ ⌊q⌋ := Int.le_floor.2 h
  unfold roundHalfEven
  split_ifs <;> omega

theorem roundHalfEven_le (q : ℚ) (n : Int) (h : q ≤ (n : ℚ)) : roundHalfEven q ≤ n := by
  have hf : ⌊q⌋ ≤ n := Int.floor_le_iff.2 (by linarith)
  have hfl := Int.floor_le q
  unfold roundHalfEven
  split_ifs with h1 h2 h3
  · exact hf
  · by_contra hcon
    have heq : ⌊q⌋ = n := by omega
    rw [heq] at h2
    linarith
  · exact hf
  · by_contra hcon
    have heq : ⌊q⌋ = n := by omega
    rw [heq] at h1
    have : q - (n : ℚ) ≤ 0 := by linarith
    linarith

theorem log2Fuel_spec (fuel n : Nat) (h : n ≤ fuel) (hn : n ≠ 0) :
    2 ^ log2Fuel fuel n ≤ n ∧ n < 2 ^ (log2Fuel fuel n + 1) := by
  induction fuel generalizing n with
  | zero => omega
  | succ fuel ih =>
    unfold log2Fuel
    split_ifs with h2
    · constructor
      · simp
        omega
      · simp
        omega
    · have hdiv : n / 2 ≤ fuel := by omega
      have hne : n / 2 ≠ 0 := by omega
      obtain ⟨i1, i2⟩ := ih (n / 2) hdiv hne
      constructor
      · rw [pow_succ]
        omega
      · rw [pow_succ]
        omega

theorem natLog2_spec (n : Nat) (hn : n ≠ 0) : 2 ^ natLog2 n ≤ n ∧ n < 2 ^ (natLog2 n + 1) :=
  log2Fuel_spec n n (le_refl n) hn

/-- The binary exponent is not above the magnitude: `2 ^ e ≤ |x|`. -/
theorem pow2_binaryExponent_le (x : ℚ) (hx : x ≠ 0) : pow2 (binaryExponent x) ≤ |x| := by
  unfold binaryExponent
  dsimp only
  split_ifs with h
  · have hnum : x.num.natAbs ≠ 0 := by
      rw [Ne, Int.natAbs_eq_zero, Rat.num_eq_zero]
      exact hx
    obtain ⟨n1, _⟩ := natLog2_spec x.num.natAbs hnum
    obtain ⟨_, d2⟩ := natLog2_spec x.den x.den_nz
    have habs : |x| = (x.num.natAbs : ℚ) / (x.den : ℚ) := by
      rw [← Rat.num_div_den x] 
      rw [abs_div]
      congr 1
      · rw [Rat.num_div_den x]; rw [Nat.cast_natAbs]; push_cast; rfl
      · rw [Rat.num_div_den x]; simp
    rw [habs, show ((natLog2 x.num.natAbs : Int) - (natLog2 x.den : Int) - 1)
      = (natLog2 x.num.natAbs : Int) + (-((natLog2 x.den + 1 : Nat) : Int)) by push_cast; ring,
      pow2_add, pow2_natCast, pow2_eq_zpow, zpow_neg, zpow_natCast]
    have hd : (0 : ℚ) < (x.den : ℚ) := by exact_mod_cast x.den_pos
    have h1 : ((2 ^ natLog2 x.num.natAbs : Nat) : ℚ) ≤ (x.num.natAbs : ℚ) := by exact_mod_cast n1
    have h2 : (x.den : ℚ) ≤ (2 : ℚ) ^ (natLog2 x.den + 1) := by exact_mod_cast d2.le
    rw [← div_eq_mul_inv]
    exact div_le_div₀ (by positivity) h1 hd h2
  · exact not_lt.1 h

/-- The spacing around `x` divides `2 ^ j` when `|x| < 2 ^ (j + 53)`. -/
theorem ulp_dvd_pow2 (x : ℚ) (j : Int) (hj : -53 ≤ j) (hx : |x| < pow2 (j + 53)) :
    ∃ k : Nat, pow2 j = ((2 ^ k : Nat) : ℚ) * ulp x := by
  have hE : max (binaryExponent x) (-1022) ≤ j + 52 := by
    apply max_le _ (by omega)
    by_cases h0 : x = 0
    · subst h0
      have : binaryExponent 0 = -1 := by decide!
      omega
    · have h1 := pow2_binaryExponent_le x h0
      have h2 : pow2 (binaryExponent x) < pow2 (j + 53) := lt_of_le_of_lt h1 hx
      rw [pow2_lt_pow2_iff] at h2
      omega
  obtain ⟨k, hk⟩ := Int.eq_ofNat_of_zero_le (by omega :
    0 ≤ j - (max (binaryExponent x) (-1022) - 52))
  refine ⟨k, ?_⟩
  unfold ulp
  rw [← pow2_natCast, ← hk, ← pow2_add]
  congr 1
  ring

theorem toDouble_ge_of_grid (x g : ℚ) (n : Int) (hg : g = (n : ℚ) * ulp x) (h : g ≤ x) :
    g ≤ toDouble x := by
  have hu : 0 < ulp x := pow2_pos _
  unfold toDouble
  rw [hg]
  apply mul_le_mul_of_nonneg_right _ hu.le
  have : (n : ℚ) ≤ x / ulp x := by
    rw [le_div_iff₀ hu, ← hg]
    exact h
  exact_mod_cast roundHalfEven_ge _ n this

theorem toDouble_le_of_grid (x g : ℚ) (n : Int) (hg : g = (n : ℚ) * ulp x) (h : x ≤ g) :
    toDouble x ≤ g := by
  have hu : 0 < ulp x := pow2_pos _
  unfold toDouble
  rw [hg]
  apply mul_le_mul_of_nonneg_right _ hu.le
  have : x / ulp x ≤ (n : ℚ) := by
    rw [div_le_iff₀ hu, ← hg]
    exact h
  exact_mod_cast roundHalfEven_le _ n this

/-- Rounding does not cross a dyadic number `a * 2 ^ j` from above, for `|x| < 2 ^ (j + 53)`. -/
theorem toDouble_ge_of_dyadic (x : ℚ) (a j : Int) (hj : -53 ≤ j) (hx : |x| < pow2 (j + 53))
    (h : (a : ℚ) * pow2 j ≤ x) : (a : ℚ) * pow2 j ≤ toDouble x := by
  obtain ⟨k, hk⟩ := ulp_dvd_pow2 x j hj hx
  exact toDouble_ge_of_grid x _ (a * (2 ^ k : Nat)) (by rw [hk]; push_cast; ring) h

/-- Rounding does not cross a dyadic number `a * 2 ^ j` from below, for `|x| < 2 ^ (j + 53)`. -/
theorem toDouble_le_of_dyadic (x : ℚ) (a j : Int) (hj : -53 ≤ j) (hx : |x| < pow2 (j + 53))
    (h : x ≤ (a : ℚ) * pow2 j) : toDouble x ≤ (a : ℚ) * pow2 j := by
  obtain ⟨k, hk⟩ := ulp_dvd_pow2 x j hj hx
  exact toDouble_le_of_grid x _ (a * (2 ^ k : Nat)) (by rw [hk]; push_cast; ring) h

/-- An integer below `2 ^ 53` in magnitude is a `double`. -/
theorem toDouble_intCast (n : Int) (h : |n| < 2 ^ 53) : toDouble (n : ℚ) = n := by
  have hp53 : pow2 (0 + 53) = 9007199254740992 := by decide!
  have hx : |(n : ℚ)| < pow2 (0 + 53) := by
    rw [hp53]
    have h' : |n| < 9007199254740992 := by
      norm_num at h
      exact h
    exact_mod_cast h'
  have h1 := toDouble_ge_of_dyadic n n 0 (by norm_num) hx (by simp [pow2])
  have h2 := toDouble_le_of_dyadic n n 0 (by norm_num) hx (by simp [pow2])
  have hp : pow2 0 = 1 := by simp [pow2]
  rw [hp, mul_one] at h1 h2
  exact le_antisymm h2 h1

theorem toDouble_zero : toDouble 0 = 0 := by decide!

theorem toDouble_nonneg (x : ℚ) (h : 0 ≤ x) : 0 ≤ toDouble x :=
  toDouble_ge_of_grid x 0 0 (by simp) h

theorem toDouble_nonpos (x : ℚ) (h : x ≤ 0) : toDouble x ≤ 0 :=
  toDouble_le_of_grid x 0 0 (by simp) h

/-- A dyadic number `a * 2 ^ j` below `2 ^ (j + 53)` in magnitude is a `double`. -/
theorem toDouble_of_dyadic (a j : Int) (hj : -53 ≤ j) (hx : |(a : ℚ) * pow2 j| < pow2 (j + 53)) :
    toDouble ((a : ℚ) * pow2 j) = (a : ℚ) * pow2 j :=
  le_antisymm (toDouble_le_of_dyadic _ a j hj hx (le_refl _))
    (toDouble_ge_of_dyadic _ a j hj hx (le_refl _))

theorem natSqrt_spec (n : Nat) :
    natSqrt n * natSqrt n ≤ n ∧ n < (natSqrt n + 1) * (natSqrt n + 1) := by
  unfold natSqrt
  dsimp only
  split_ifs with h
  · exact h
  · exact ⟨Nat.sqrt_le n, Nat.lt_succ_sqrt n⟩

theorem dsqrt_zero : dsqrt 0 = 0 := by decide!

theorem dsqrt_nonneg (x : ℚ) : 0 ≤ dsqrt x := by
  unfold dsqrt
  dsimp only
  split_ifs
  · exact le_refl _
  · exact mul_nonneg (Nat.cast_nonneg _) (pow2_pos _).le
  · exact mul_nonneg (by positivity) (pow2_pos _).le

/-- The rounded square root is not below a dyadic number `a * 2 ^ j` whose square is not
above `x`, for `x < 2 ^ (2 j + 106)`. -/
theorem dsqrt_ge_of_dyadic (x : ℚ) (a : Nat) (j : Int) (hj : -1074 ≤ j) (hpos : 0 < x)
    (hx : x < pow2 (2 * j + 106))
    (h : ((a : ℚ) * pow2 j) * ((a : ℚ) * pow2 j) ≤ x) : (a : ℚ) * pow2 j ≤ dsqrt x := by
  have hbe : binaryExponent x < 2 * j + 106 := by
    have h1 := pow2_binaryExponent_le x hpos.ne'
    rw [abs_of_pos hpos] at h1
    exact pow2_lt_pow2_iff.1 (lt_of_le_of_lt h1 hx)
  have hK : max (binaryExponent x / 2) (-1022) - 52 ≤ j := by
    have : binaryExponent x / 2 ≤ j + 52 := by omega
    have := max_le this (by omega : (-1022 : Int) ≤ j + 52)
    omega
  obtain ⟨k, hk⟩ := Int.eq_ofNat_of_zero_le (by omega :
    0 ≤ j - (max (binaryExponent x / 2) (-1022) - 52))
  set u := pow2 (max (binaryExponent x / 2) (-1022) - 52) with hu
  have hupos : 0 < u := pow2_pos _
  have hju : pow2 j = ((2 ^ k : Nat) : ℚ) * u := by
    rw [hu, ← pow2_natCast, ← hk, ← pow2_add]
    congr 1
    ring
  have hN : ((a * 2 ^ k : Nat) : ℚ) * ((a * 2 ^ k : Nat) : ℚ) ≤ x / (u * u) := by
    rw [le_div_iff₀ (mul_pos hupos hupos)]
    rw [hju] at h
    push_cast at h ⊢
    nlinarith [h]
  have hfloor : (a * 2 ^ k) * (a * 2 ^ k) ≤ ⌊x / (u * u)⌋.toNat := by
    have h1 : (((a * 2 ^ k) * (a * 2 ^ k) : Nat) : Int) ≤ ⌊x / (u * u)⌋ := by
      rw [Int.le_floor]
      push_cast at hN ⊢
      exact hN
    omega
  have hs : a * 2 ^ k ≤ natSqrt ⌊x / (u * u)⌋.toNat := by
    by_contra hcon
    have hlt := (natSqrt_spec ⌊x / (u * u)⌋.toNat).2
    have : (natSqrt ⌊x / (u * u)⌋.toNat + 1) * (natSqrt ⌊x / (u * u)⌋.toNat + 1)
        ≤ (a * 2 ^ k) * (a * 2 ^ k) := Nat.mul_le_mul (by omega) (by omega)
    omega
  have hsq : ((a * 2 ^ k : Nat) : ℚ) ≤ ((natSqrt ⌊x / (u * u)⌋.toNat : Nat) : ℚ) := by
    exact_mod_cast hs
  have hg : (a : ℚ) * pow2 j = ((a * 2 ^ k : Nat) : ℚ) * u := by
    rw [hju]
    push_cast
    ring
  rw [hg]
  unfold dsqrt
  rw [if_neg (not_le.2 hpos)]
  dsimp only
  rw [← hu]
  split_ifs
  · exact mul_le_mul_of_nonneg_right hsq hupos.le
  · exact mul_le_mul_of_nonneg_right (by linarith) hupos.le

/-- The rounded square root of a number below `2 ^ (2 e)` is at most `2 ^ e + 1`, for
`e ≤ 52`. -/
theorem dsqrt_le (x : ℚ) (e : Nat) (he : e ≤ 52) (hpos : 0 < x) (hx : x < pow2 (2 * (e : Int))) :
    dsqrt x ≤ pow2 e + 1 := by
  have hbe : binaryExponent x < 2 * (e : Int) := by
    have h1 := pow2_binaryExponent_le x hpos.ne'
    rw [abs_of_pos hpos] at h1
    exact pow2_lt_pow2_iff.1 (lt_of_le_of_lt h1 hx)
  have hK : max (binaryExponent x / 2) (-1022) - 52 ≤ 0 := by
    have h2 : binaryExponent x / 2 ≤ (e : Int) := by omega
    have := max_le h2 (by omega : (-1022 : Int) ≤ (e : Int))
    omega
  set u := pow2 (max (binaryExponent x / 2) (-1022) - 52) with hu
  have hupos : 0 < u := pow2_pos _
  have hu1 : u ≤ 1 := by
    have := pow2_le_pow2 hK
    rw [← hu] at this
    simpa [pow2] using this
  set s : ℚ := ((natSqrt ⌊x / (u * u)⌋.toNat : Nat) : ℚ) with hs
  have hs0 : 0 ≤ s := Nat.cast_nonneg _
  have hsu : (s * u) * (s * u) ≤ x := by
    have h1 := (natSqrt_spec ⌊x / (u * u)⌋.toNat).1
    have ht0 : 0 ≤ x / (u * u) := by positivity
    have h2 : ((⌊x / (u * u)⌋.toNat : Nat) : ℚ) ≤ x / (u * u) := by
      have h3 : ((⌊x / (u * u)⌋.toNat : Nat) : Int) = ⌊x / (u * u)⌋ :=
        Int.toNat_of_nonneg (Int.floor_nonneg.2 ht0)
      have h4 : (((⌊x / (u * u)⌋.toNat : Nat) : Int) : ℚ) ≤ x / (u * u) := by
        rw [h3]
        exact Int.floor_le _
      exact_mod_cast h4
    have h5 : s * s ≤ x / (u * u) := by
      have : ((natSqrt ⌊x / (u * u)⌋.toNat * natSqrt ⌊x / (u * u)⌋.toNat : Nat) : ℚ)
          ≤ ((⌊x / (u * u)⌋.toNat : Nat) : ℚ) := by exact_mod_cast h1
      rw [hs]
      push_cast at this ⊢
      linarith
    rw [le_div_iff₀ (mul_pos hupos hupos)] at h5
    nlinarith [h5]
  have hpe : 0 < pow2 (e : Int) := pow2_pos _
  have hsule : s * u ≤ pow2 (e : Int) := by
    by_contra hcon
    rw [not_le] at hcon
    have : pow2 (e : Int) * pow2 (e : Int) < (s * u) * (s * u) := by nlinarith
    have h2 : pow2 (2 * (e : Int)) = pow2 (e : Int) * pow2 (e : Int) := by
      rw [← pow2_add]
      congr 1
      ring
    rw [h2] at hx
    linarith
  unfold dsqrt
  rw [if_neg (not_le.2 hpos)]
  dsimp only
  rw [← hu, ← hs]
  split_ifs
  · linarith
  · have : (s + 1) * u = s * u + u := by ring
    rw [this]
    linarith

theorem toDouble_one : toDouble 1 = 1 := by decide!

theorem dmul_one (x : ℚ) : dmul x 1 = toDouble x := by
  unfold dmul
  rw [mul_one]

theorem one_dmul (x : ℚ) : dmul 1 x = toDouble x := by
  unfold dmul
  rw [one_mul]

theorem zero_dmul (x : ℚ) : dmul 0 x = 0 := by
  unfold dmul
  rw [zero_mul, toDouble_zero]

theorem dmul_zero (x : ℚ) : dmul x 0 = 0 := by
  unfold dmul
  rw [mul_zero, toDouble_zero]

theorem zero_ddiv (x : ℚ) : ddiv 0 x = 0 := by
  unfold ddiv
  rw [zero_div, toDouble_zero]

/-- The value of an `int` of at most eight bits survives the conversion to `double` and
back. -/
theorem castInt_toDouble_channel (v : Int) (h0 : -255 ≤ v) (h1 : v ≤ 255) :
    toDouble (v : ℚ) = v ∧ castInt (toDouble (v : ℚ)) = v := by
  have hv : toDouble (v : ℚ) = v := toDouble_intCast v (by rw [abs_lt]; constructor <;> omega)
  refine ⟨hv, ?_⟩
  rw [hv]
  unfold castInt
  split_ifs
  · exact Int.floor_intCast v
  · exact Int.ceil_intCast v

/-! ## Loop reasoning -/

theorem forLoop_invariant {σ : Type} (I : Nat → σ → Prop) (lo hi : Int) (body : Int → σ → σ)
    (s : σ) (h0 : I 0 s)
    (hstep : ∀ (i : Nat) (acc : σ), (i : Int) < hi - lo → I i acc → I (i + 1) (body (lo + (i : Int)) acc)) :
    I (hi - lo).toNat (forLoop lo hi body s) := by
  unfold forLoop
  have key : ∀ n : Nat, n ≤ (hi - lo).toNat →
      I n ((List.range n).foldl (fun acc (i : Nat) => body (lo + (i : Int)) acc) s) := by
    intro n
    induction n with
    | zero => intro _; simpa using h0
    | succ k ih =>
      intro hk
      rw [List.range_succ, List.foldl_append]
      simp only [List.foldl_cons, List.foldl_nil]
      apply hstep k _ _ (ih (by omega))
      omega
  exact key _ le_rfl

theorem forPixels_spec (G : Int → Int → QColor → QColor) (step : Int → Int → QImage → QImage)
    (x0 x1 y0 y1 : Int) (img : QImage) (hstep : WritesOnly G step x0 x1 y0 y1 img) :
    (forPixels x0 x1 y0 y1 step img).width = img.width ∧
    (forPixels x0 x1 y0 y1 step img).height = img.height ∧
    ∀ x' y', (forPixels x0 x1 y0 y1 step img).data x' y' =
      if x0 ≤ x' ∧ x' < x1 ∧ y0 ≤ y' ∧ y' < y1 then G x' y' (img.data x' y') else img.data x' y' := by
  unfold forPixels
  have outer := forLoop_invariant
    (fun (j : Nat) (r : QImage) => r.width = img.width ∧ r.height = img.height ∧
      ∀ x' y', r.data x' y' =
        if x0 ≤ x' ∧ x' < x1 ∧ y0 ≤ y' ∧ y' < y0 + (j : Int) then G x' y' (img.data x' y')
        else img.data x' y')
    y0 y1 (fun y r => forLoop x0 x1 (fun x r' => step x y r') r) img
    (by
      refine ⟨rfl, rfl, ?_⟩
      intro x' y'
      rw [if_neg]; omega)
    (by
      intro j r hj ⟨hw, hh, hd⟩
      have inner := forLoop_invariant
        (fun (i : Nat) (r' : QImage) => r'.width = img.width ∧ r'.height = img.height ∧
          ∀ x' y', r'.data x' y' =
            if (x0 ≤ x' ∧ x' < x1 ∧ y0 ≤ y' ∧ y' < y0 + (j : Int)) ∨
                (y' = y0 + (j : Int) ∧ x0 ≤ x' ∧ x' < x0 + (i : Int))
            then G x' y' (img.data x' y') else img.data x' y')
        x0 x1 (fun x r' => step x (y0 + (j : Int)) r') r
        (by
          refine ⟨hw, hh, ?_⟩
          intro x' y'
          rw [hd x' y']
          by_cases hc : x0 ≤ x' ∧ x' < x1 ∧ y0 ≤ y' ∧ y' < y0 + (j : Int)
          · rw [if_pos hc, if_pos (Or.inl hc)]
          · rw [if_neg hc, if_neg]; omega)
        (by
          intro i r' hi ⟨hw', hh', hd'⟩
          obtain ⟨sw, sh, sd⟩ := hstep (x0 + (i : Int)) (y0 + (j : Int)) r'
            (by omega) (by omega) (by omega) (by omega) hw' hh'
          refine ⟨sw.trans hw', sh.trans hh', ?_⟩
          intro x' y'
          rw [sd x' y']
          by_cases hxy : x' = x0 + (i : Int) ∧ y' = y0 + (j : Int)
          · obtain ⟨rfl, rfl⟩ := hxy
            rw [if_pos ⟨rfl, rfl⟩, hd', if_neg (by omega), if_pos (by omega)]
          · rw [if_neg hxy, hd']
            by_cases hc : (x0 ≤ x' ∧ x' < x1 ∧ y0 ≤ y' ∧ y' < y0 + (j : Int)) ∨
                (y' = y0 + (j : Int) ∧ x0 ≤ x' ∧ x' < x0 + (i : Int))
            · rw [if_pos hc, if_pos]; omega
            · rw [if_neg hc, if_neg]; omega)
      obtain ⟨iw, ih, id⟩ := inner
      refine ⟨iw, ih, ?_⟩
      intro x' y'
      rw [id x' y']
      by_cases hc : x0 ≤ x' ∧ x' < x1 ∧ y0 ≤ y' ∧ y' < y0 + ((j + 1 : Nat) : Int)
      · rw [if_pos hc, if_pos]; omega
      · rw [if_neg hc, if_neg]; omega)
  obtain ⟨ow, oh, od⟩ := outer
  refine ⟨ow, oh, ?_⟩
  intro x' y'
  rw [od x' y']
  by_cases hc : x0 ≤ x' ∧ x' < x1 ∧ y0 ≤ y' ∧ y' < y1
  · rw [if_pos hc, if_pos]; omega
  · rw [if_neg hc, if_neg]; omega

/-! ## The command engine -/

theorem ImageCommand.redo_fields (c : ImageCommand) (target : QImage) :
    (c.redo target).1.m_targetImage = c.m_targetImage ∧
    (c.redo target).1.m_previousImage = c.m_previousImage ∧
    (c.redo target).1.applyOperation = c.applyOperation := by
  unfold ImageCommand.redo
  by_cases ht : c.m_targetImage = true
  · by_cases hf : c.m_firstRedo = true <;> simp [ht, hf]
  · simp [ht]

theorem ImageCommand.run_fields (calls : List Call) (c : ImageCommand) (target : QImage) :
    (ImageCommand.run calls (c, target)).1.m_targetImage = c.m_targetImage ∧
    (ImageCommand.run calls (c, target)).1.m_previousImage = c.m_previousImage := by
  induction calls generalizing c target with
  | nil => exact ⟨rfl, rfl⟩
  | cons call rest ih =>
    cases call with
    | redo =>
      have h := ImageCommand.redo_fields c target
      have h2 := ih (c.redo target).1 (c.redo target).2
      exact ⟨h2.1.trans h.1, h2.2.trans h.2.1⟩
    | undo => exact ih c (c.undo target)

theorem ImageCommand.run_append (xs ys : List Call) (st : ImageCommand × QImage) :
    ImageCommand.run (xs ++ ys) st = ImageCommand.run ys (ImageCommand.run xs st) := by
  induction xs generalizing st with
  | nil => rfl
  | cons call rest ih =>
    obtain ⟨c, target⟩ := st
    cases call with
    | redo => exact ih (c.redo target)
    | undo => exact ih (c, c.undo target)

/-- A command whose after-raster is computed stays so under any calls, with the same
after-raster. -/
theorem ImageCommand.run_computed (calls : List Call) (c : ImageCommand) (target : QImage)
    (hf : c.m_firstRedo = false) :
    (ImageCommand.run calls (c, target)).1 = c := by
  induction calls generalizing target with
  | nil => rfl
  | cons call rest ih =>
    cases call with
    | redo =>
      have h : c.redo target = (c, if c.m_targetImage then c.m_newImage else target) := by
        unfold ImageCommand.redo
        by_cases ht : c.m_targetImage = true <;> simp [ht, hf]
      show (ImageCommand.run rest (c.redo target)).1 = c
      rw [h]
      exact ih _
    | undo => exact ih (c.undo target)

/-- Claim C2. For every operation `op` and raster `R`, a command constructed on a target
holding `R` leaves the target equal to `R` after `redo()` then `undo()`, and after any
sequence of `redo()` / `undo()` calls that ends with `undo()`. -/
theorem ImageCommand.undo_restores (op : QImage → QImage) (R : QImage) (calls : List Call) :
    (((ImageCommand.new R op).redo R).1.undo ((ImageCommand.new R op).redo R).2 = R) ∧
    (ImageCommand.run [Call.redo, Call.undo] (ImageCommand.new R op, R)).2 = R ∧
    (ImageCommand.run (calls ++ [Call.undo]) (ImageCommand.new R op, R)).2 = R := by
  have key : ∀ cs : List Call,
      (ImageCommand.run (cs ++ [Call.undo]) (ImageCommand.new R op, R)).2 = R := by
    intro cs
    rw [ImageCommand.run_append]
    have h := ImageCommand.run_fields cs (ImageCommand.new R op) R
    generalize ImageCommand.run cs (ImageCommand.new R op, R) = st at h
    obtain ⟨c, target⟩ := st
    obtain ⟨h1, h2⟩ := h
    simp only [ImageCommand.new] at h1 h2
    show c.undo target = R
    unfold ImageCommand.undo
    rw [h1, h2]
    rfl
  exact ⟨rfl, key [Call.redo], key calls⟩

/-- Claim C3. The first `redo()` of a command evaluates `applyOperation` on the stored
before-raster, stores the result and clears `m_firstRedo`; whatever calls follow, the command
keeps `m_firstRedo = false` and the same `m_newImage`, a later `redo()` writes that stored
raster whatever `applyOperation` would now return, and `redo(); undo(); redo()` ends on the
raster of the first `redo()`. -/
theorem ImageCommand.redo_computes_once (op op' : QImage → QImage) (R target : QImage)
    (calls : List Call) :
    let first := (ImageCommand.new R op).redo R
    let later := ImageCommand.run calls first
    first.1.m_firstRedo = false ∧ first.1.m_newImage = op R ∧ first.2 = op R ∧
    later.1.m_firstRedo = false ∧ later.1.m_newImage = first.1.m_newImage ∧
    (later.1.redo target).2 = first.2 ∧
    (({ later.1 with applyOperation := op' } : ImageCommand).redo target).2 = first.2 ∧
    (ImageCommand.run [Call.redo, Call.undo, Call.redo] (ImageCommand.new R op, R)).2 = first.2 := by
  intro first later
  have hfirst : first.1.m_firstRedo = false := rfl
  have hlater : later.1 = first.1 := ImageCommand.run_computed calls first.1 first.2 hfirst
  refine ⟨rfl, rfl, rfl, ?_, ?_, ?_, ?_, rfl⟩
  · rw [hlater]; exact hfirst
  · rw [hlater]
  · rw [hlater]; rfl
  · rw [hlater]; rfl

/-- Running `redo()` on children keeps each child's target pointer and before-raster. -/
theorem CompoundAdjustmentCommand.redoChildren_fields (R : QImage) (children : List ImageCommand)
    (target : QImage)
    (h : ∀ c ∈ children, c.m_targetImage = true ∧ c.m_previousImage = R) :
    ∀ c ∈ (CompoundAdjustmentCommand.redoChildren children target).1,
      c.m_targetImage = true ∧ c.m_previousImage = R := by
  induction children generalizing target with
  | nil => intro c hc; simp [CompoundAdjustmentCommand.redoChildren] at hc
  | cons child rest ih =>
    intro c hc
    simp only [CompoundAdjustmentCommand.redoChildren, List.mem_cons] at hc
    rcases hc with rfl | hc
    · have hf := ImageCommand.redo_fields child target
      have hch := h child (List.mem_cons_self _ _)
      exact ⟨hf.1.trans hch.1, hf.2.1.trans hch.2⟩
    · exact ih (child.redo target).2 (fun c' hc' => h c' (List.mem_cons_of_mem _ hc')) c hc

/-- Undoing children that all hold the before-raster `R` ends on `R`, or on the untouched
target when there is no child. -/
theorem CompoundAdjustmentCommand.undo_children (R : QImage) (children : List ImageCommand)
    (target : QImage)
    (h : ∀ c ∈ children, c.m_targetImage = true ∧ c.m_previousImage = R) :
    children.reverse.foldl (fun t child => child.undo t) target =
      if children.isEmpty then target else R := by
  cases children with
  | nil => rfl
  | cons child rest =>
    rw [List.reverse_cons, List.foldl_append]
    simp only [List.foldl_cons, List.foldl_nil, List.isEmpty_cons, Bool.false_eq_true, if_false]
    have hch := h child (List.mem_cons_self _ _)
    unfold ImageCommand.undo
    rw [hch.1, hch.2]
    rfl

/-- Every child made by the factory points at the target, holds the raster the target had
when the factory ran, and has not computed its after-raster. -/
theorem createCompoundAdjustmentCommand_fresh (qPow : ℚ → ℚ → ℚ) (R : QImage)
    (p : AdjustmentParameters) :
    ∀ c ∈ (createCompoundAdjustmentCommand qPow R p).children,
      c.m_targetImage = true ∧ c.m_previousImage = R ∧ c.m_firstRedo = true := by
  have step : ∀ (compound : CompoundAdjustmentCommand) (cond : Prop) [Decidable cond]
      (op : QImage → QImage),
      (∀ c ∈ compound.children,
        c.m_targetImage = true ∧ c.m_previousImage = R ∧ c.m_firstRedo = true) →
      ∀ c ∈ (if cond then compound.addChild (ImageCommand.new R op) else compound).children,
        c.m_targetImage = true ∧ c.m_previousImage = R ∧ c.m_firstRedo = true := by
    intro compound cond _ op h c hc
    by_cases hcond : cond
    · rw [if_pos hcond] at hc
      simp only [CompoundAdjustmentCommand.addChild, List.mem_append, List.mem_singleton] at hc
      rcases hc with hc | rfl
      · exact h c hc
      · exact ⟨rfl, rfl, rfl⟩
    · rw [if_neg hcond] at hc
      exact h c hc
  unfold createCompoundAdjustmentCommand
  dsimp only
  apply step _ _ (fun image => adjustHighlights image p.highlights)
  apply step _ _ (fun image => adjustShadows image p.shadows)
  apply step _ _ (fun image => adjustExposure qPow image p.exposure)
  apply step _ _ (fun image => adjustColorTemperature image p.temperature)
  apply step _ _ (fun image => adjustGamma qPow image p.gamma)
  apply step _ _ (fun image => adjustHue image p.hue)
  apply step _ _ (fun image => adjustSaturation image p.saturation)
  apply step _ _ (fun image => adjustContrast image p.contrast)
  apply step _ _ (fun image => adjustBrightness image p.brightness)
  intro c hc
  simp at hc

theorem createCompoundAdjustmentCommand_children (qPow : ℚ → ℚ → ℚ) (R : QImage)
    (p : AdjustmentParameters) :
    ∀ c ∈ (createCompoundAdjustmentCommand qPow R p).children,
      c.m_targetImage = true ∧ c.m_previousImage = R :=
  fun c hc => ⟨(createCompoundAdjustmentCommand_fresh qPow R p c hc).1,
    (createCompoundAdjustmentCommand_fresh qPow R p c hc).2.1⟩

/-- Running `redo()` on children that all hold the before-raster `R` and have not run yet
ends on the operation of the last child applied to `R`: the work of the earlier children is
overwritten. -/
theorem CompoundAdjustmentCommand.redoChildren_last (R : QImage) (children : List ImageCommand)
    (target : QImage)
    (h : ∀ c ∈ children,
      c.m_targetImage = true ∧ c.m_previousImage = R ∧ c.m_firstRedo = true) :
    (CompoundAdjustmentCommand.redoChildren children target).2 =
      match children.getLast? with
      | some c => c.applyOperation R
      | none => target := by
  induction children generalizing target with
  | nil => rfl
  | cons child rest ih =>
    obtain ⟨h1, h2, h3⟩ := h child (List.mem_cons_self _ _)
    have hredo : (child.redo target).2 = child.applyOperation R := by
      unfold ImageCommand.redo
      simp [h1, h2, h3]
    have hrest := ih (child.redo target).2 (fun c hc => h c (List.mem_cons_of_mem _ hc))
    show (CompoundAdjustmentCommand.redoChildren rest (child.redo target).2).2 = _
    rw [hrest]
    cases rest with
    | nil => exact hredo
    | cons c2 rest2 => rfl

/-- What the applied compound command leaves in the target: the operation of its last child
applied to the original raster `R`, or `R` when it has no child. -/
theorem createCompoundAdjustmentCommand_redo_last (qPow : ℚ → ℚ → ℚ) (R : QImage)
    (p : AdjustmentParameters) :
    ((createCompoundAdjustmentCommand qPow R p).redo R).2 =
      match (createCompoundAdjustmentCommand qPow R p).children.getLast? with
      | some c => c.applyOperation R
      | none => R :=
  CompoundAdjustmentCommand.redoChildren_last R _ R (createCompoundAdjustmentCommand_fresh qPow R p)

/-- Claim C4. For every raster `R` and all parameters `p`, applying the compound command
built on `R` and then undoing it (children undone last to first) leaves the target equal to
`R`; identity parameters give a compound command without children, for which the same holds. -/
theorem createCompoundAdjustmentCommand_undo_restores (qPow : ℚ → ℚ → ℚ) (R : QImage)
    (p : AdjustmentParameters) :
    ((createCompoundAdjustmentCommand qPow R p).redo R).1.undo
        ((createCompoundAdjustmentCommand qPow R p).redo R).2 = R ∧
    (createCompoundAdjustmentCommand qPow R {}).children = [] ∧
    ((createCompoundAdjustmentCommand qPow R {}).redo R).1.undo
        ((createCompoundAdjustmentCommand qPow R {}).redo R).2 = R := by
  have key : ∀ q : AdjustmentParameters,
      ((createCompoundAdjustmentCommand qPow R q).redo R).1.undo
        ((createCompoundAdjustmentCommand qPow R q).redo R).2 = R := by
    intro q
    have hch := createCompoundAdjustmentCommand_children qPow R q
    generalize (createCompoundAdjustmentCommand qPow R q) = compound at hch
    have hre := CompoundAdjustmentCommand.redoChildren_fields R compound.children R hch
    unfold CompoundAdjustmentCommand.undo CompoundAdjustmentCommand.redo
    show List.foldl (fun t child => child.undo t)
      (CompoundAdjustmentCommand.redoChildren compound.children R).2
      (CompoundAdjustmentCommand.redoChildren compound.children R).1.reverse = R
    rw [CompoundAdjustmentCommand.undo_children R _ _ hre]
    cases hc : compound.children with
    | nil => rfl
    | cons child rest => rfl
  refine ⟨key p, ?_, key {}⟩
  norm_num [createCompoundAdjustmentCommand]

/-- Claim C1, at the failing input. On a 1x1 raster of colour (100,100,100,255) with
brightness 10 and temperature 10, the applied compound command leaves (100,95,90,255),
the temperature change of the original raster alone, whereas the preview returns
(110,105,100,255), the temperature change of the brightened raster. -/
theorem createCompoundAdjustmentCommand_redo_not_preview (qPow : ℚ → ℚ → ℚ) :
    ((createCompoundAdjustmentCommand qPow (QImage.uniform 1 1 ⟨100, 100, 100, 255⟩)
        { brightness := 10, temperature := 10 }).redo
          (QImage.uniform 1 1 ⟨100, 100, 100, 255⟩)).2.data 0 0 = ⟨100, 95, 90, 255⟩ ∧
    (generatePreview qPow (QImage.uniform 1 1 ⟨100, 100, 100, 255⟩)
        { brightness := 10, temperature := 10 }).data 0 0 = ⟨110, 105, 100, 255⟩ := by
  have h1 : createCompoundAdjustmentCommand qPow (QImage.uniform 1 1 ⟨100, 100, 100, 255⟩)
      { brightness := 10, temperature := 10 } =
      ⟨[BrightnessCommand (QImage.uniform 1 1 ⟨100, 100, 100, 255⟩) 10,
        ColorTemperatureCommand (QImage.uniform 1 1 ⟨100, 100, 100, 255⟩) 10]⟩ := by
    norm_num [createCompoundAdjustmentCommand, CompoundAdjustmentCommand.addChild]
  have h2 : generatePreview qPow (QImage.uniform 1 1 ⟨100, 100, 100, 255⟩)
      { brightness := 10, temperature := 10 } =
      adjustColorTemperature (adjustBrightness (QImage.uniform 1 1 ⟨100, 100, 100, 255⟩) 10) 10 := by
    norm_num [generatePreview, applyAdjustments, QImage.isNull, QImage.uniform]
  rw [h1, h2]
  constructor <;> decide

/-- Undo and redo actions on a stack holding `[c1, c3]` keep its commands and only call
`c1` and `c3`. -/
theorem CommandManager.run_recording (c1 c3 : Nat) (later : List Call)
    (m : CommandManager Nat) (log0 extra : List (Nat × Call))
    (hm : m.m_undoStack.commands = [c1, c3])
    (hextra : ∀ e ∈ extra, e.1 = c1 ∨ e.1 = c3) :
    (CommandManager.run recordingCommands later (m, log0 ++ extra)).1.m_undoStack.commands
        = [c1, c3] ∧
    ∃ extra', (CommandManager.run recordingCommands later (m, log0 ++ extra)).2 = log0 ++ extra' ∧
      ∀ e ∈ extra', e.1 = c1 ∨ e.1 = c3 := by
  induction later generalizing m extra with
  | nil => exact ⟨hm, extra, rfl, hextra⟩
  | cons call rest ih =>
    obtain ⟨⟨cmds, idx⟩, n⟩ := m
    simp only at hm
    subst hm
    cases call with
    | redo =>
      show (CommandManager.run recordingCommands rest
          (CommandManager.redo recordingCommands ⟨⟨[c1, c3], idx⟩, n⟩ (log0 ++ extra))).1.m_undoStack.commands
            = [c1, c3] ∧ ∃ extra',
          (CommandManager.run recordingCommands rest
            (CommandManager.redo recordingCommands ⟨⟨[c1, c3], idx⟩, n⟩ (log0 ++ extra))).2
              = log0 ++ extra' ∧ ∀ e ∈ extra', e.1 = c1 ∨ e.1 = c3
      match idx with
      | 0 =>
        have h : CommandManager.redo recordingCommands ⟨⟨[c1, c3], 0⟩, n⟩ (log0 ++ extra) =
            (⟨⟨[c1, c3], 1⟩, n⟩, log0 ++ (extra ++ [(c1, Call.redo)])) := by
          simp [CommandManager.redo, QUndoStack.redo, recordingCommands]
        rw [h]
        apply ih _ _ rfl
        intro e he
        rcases List.mem_append.1 he with he | he
        · exact hextra e he
        · rw [List.mem_singleton.1 he]; exact Or.inl rfl
      | 1 =>
        have h : CommandManager.redo recordingCommands ⟨⟨[c1, c3], 1⟩, n⟩ (log0 ++ extra) =
            (⟨⟨[c1, c3], 2⟩, n⟩, log0 ++ (extra ++ [(c3, Call.redo)])) := by
          simp [CommandManager.redo, QUndoStack.redo, recordingCommands]
        rw [h]
        apply ih _ _ rfl
        intro e he
        rcases List.mem_append.1 he with he | he
        · exact hextra e he
        · rw [List.mem_singleton.1 he]; exact Or.inr rfl
      | k + 2 =>
        have h : CommandManager.redo recordingCommands ⟨⟨[c1, c3], k + 2⟩, n⟩ (log0 ++ extra) =
            (⟨⟨[c1, c3], k + 2⟩, n⟩, log0 ++ extra) := by
          simp [CommandManager.redo, QUndoStack.redo]
        rw [h]
        exact ih _ _ rfl hextra
    | undo =>
      show (CommandManager.run recordingCommands rest
          (CommandManager.undo recordingCommands ⟨⟨[c1, c3], idx⟩, n⟩ (log0 ++ extra))).1.m_undoStack.commands
            = [c1, c3] ∧ ∃ extra',
          (CommandManager.run recordingCommands rest
            (CommandManager.undo recordingCommands ⟨⟨[c1, c3], idx⟩, n⟩ (log0 ++ extra))).2
              = log0 ++ extra' ∧ ∀ e ∈ extra', e.1 = c1 ∨ e.1 = c3
      match idx with
      | 0 =>
        have h : CommandManager.undo recordingCommands ⟨⟨[c1, c3], 0⟩, n⟩ (log0 ++ extra) =
            (⟨⟨[c1, c3], 0⟩, n⟩, log0 ++ extra) := by
          simp [CommandManager.undo, QUndoStack.undo]
        rw [h]
        exact ih _ _ rfl hextra
      | 1 =>
        have h : CommandManager.undo recordingCommands ⟨⟨[c1, c3], 1⟩, n⟩ (log0 ++ extra) =
            (⟨⟨[c1, c3], 0⟩, n⟩, log0 ++ (extra ++ [(c1, Call.undo)])) := by
          simp [CommandManager.undo, QUndoStack.undo, recordingCommands]
        rw [h]
        apply ih _ _ rfl
        intro e he
        rcases List.mem_append.1 he with he | he
        · exact hextra e he
        · rw [List.mem_singleton.1 he]; exact Or.inl rfl
      | 2 =>
        have h : CommandManager.undo recordingCommands ⟨⟨[c1, c3], 2⟩, n⟩ (log0 ++ extra) =
            (⟨⟨[c1, c3], 1⟩, n⟩, log0 ++ (extra ++ [(c3, Call.undo)])) := by
          simp [CommandManager.undo, QUndoStack.undo, recordingCommands]
        rw [h]
        apply ih _ _ rfl
        intro e he
        rcases List.mem_append.1 he with he | he
        · exact hextra e he
        · rw [List.mem_singleton.1 he]; exact Or.inr rfl
      | k + 3 =>
        have h : CommandManager.undo recordingCommands ⟨⟨[c1, c3], k + 3⟩, n⟩ (log0 ++ extra) =
            (⟨⟨[c1, c3], k + 3⟩, n⟩, log0 ++ extra) := by
          simp [CommandManager.undo, QUndoStack.undo]
        rw [h]
        exact ih _ _ rfl hextra

/-- Claim C5. From an empty stack, after `executeCommand(c1); executeCommand(c2); undo();
executeCommand(c3)` the stack holds exactly `[c1, c3]` with index 2, `canUndo()` is true and
`canRedo()` is false; the calls made so far are `c1.redo, c2.redo, c2.undo, c3.redo`, and
whatever undo and redo actions follow, the stack still holds `[c1, c3]` and every further
call is made on `c1` or on `c3`, never on `c2`. -/
theorem CommandManager.redo_branch_discarded (c1 c2 c3 : Nat) (later : List Call) :
    let s1 := CommandManager.executeCommand recordingCommands CommandManager.new (some c1) []
    let s2 := CommandManager.executeCommand recordingCommands s1.1 (some c2) s1.2
    let s3 := CommandManager.undo recordingCommands s2.1 s2.2
    let s4 := CommandManager.executeCommand recordingCommands s3.1 (some c3) s3.2
    let fin := CommandManager.run recordingCommands later s4
    s4.1.m_undoStack.commands = [c1, c3] ∧ s4.1.m_undoStack.index = 2 ∧
    s4.1.canUndo = true ∧ s4.1.canRedo = false ∧
    s4.2 = [(c1, Call.redo), (c2, Call.redo), (c2, Call.undo), (c3, Call.redo)] ∧
    fin.1.m_undoStack.commands = [c1, c3] ∧
    ∃ extra, fin.2 = s4.2 ++ extra ∧ ∀ e ∈ extra, e.1 = c1 ∨ e.1 = c3 := by
  intro s1 s2 s3 s4 fin
  have h4 : s4 = (⟨⟨[c1, c3], 2⟩, 3⟩,
      [(c1, Call.redo), (c2, Call.redo), (c2, Call.undo), (c3, Call.redo)]) := rfl
  have hrun := CommandManager.run_recording c1 c3 later s4.1 s4.2 [] (by rw [h4])
    (by intro e he; simp at he)
  rw [List.append_nil] at hrun
  refine ⟨by rw [h4], by rw [h4], by rw [h4]; rfl, by rw [h4]; rfl, by rw [h4], hrun.1, hrun.2⟩

/-! ## Pixel loops of the transformation library -/

theorem toChannel_val (c : Channel) : toChannel (c.val : Int) = c := by
  apply Fin.ext
  simp only [toChannel, Int.toNat_ofNat]
  exact Nat.mod_eq_of_lt c.isLt

theorem toChannel_of_bounds (v : Int) (h0 : 0 ≤ v) (h1 : v ≤ 255) :
    ((toChannel v).val : Int) = v := by
  simp only [toChannel]
  omega

theorem qBound_int (lo v hi : Int) :
    qBound lo v hi = if hi ≤ v then (if lo ≤ hi then hi else lo) else (if lo ≤ v then v else lo) := by
  unfold qBound
  split_ifs <;> omega

theorem qBound_channel (v : Int) : 0 ≤ qBound 0 v 255 ∧ qBound 0 v 255 ≤ 255 := by
  rw [qBound_int]
  split_ifs <;> omega

theorem QColor.channel_bounds (c : QColor) :
    0 ≤ c.red ∧ c.red ≤ 255 ∧ 0 ≤ c.green ∧ c.green ≤ 255 ∧ 0 ≤ c.blue ∧ c.blue ≤ 255 ∧
    0 ≤ c.alpha ∧ c.alpha ≤ 255 := by
  have h1 := c.r.isLt
  have h2 := c.g.isLt
  have h3 := c.b.isLt
  have h4 := c.a.isLt
  simp only [QColor.red, QColor.green, QColor.blue, QColor.alpha]
  omega

theorem QImage.valid_of_bounds (r : QImage) (x y : Int) (hx0 : 0 ≤ x) (hx1 : x < r.width)
    (hy0 : 0 ≤ y) (hy1 : y < r.height) : r.valid x y = true := by
  simp [QImage.valid, hx0, hx1, hy0, hy1]

theorem QImage.setPixelColor_valid (r : QImage) (x y : Int) (c : QColor)
    (hv : r.valid x y = true) :
    (r.setPixelColor x y c).width = r.width ∧ (r.setPixelColor x y c).height = r.height ∧
    ∀ x' y', (r.setPixelColor x y c).data x' y' = if x' = x ∧ y' = y then c else r.data x' y' := by
  unfold QImage.setPixelColor
  rw [if_pos hv]
  exact ⟨rfl, rfl, fun _ _ => rfl⟩

/-- A loop body `result.setPixelColor(x, y, G(x, y, result.pixelColor(x, y)))` over the whole
raster rewrites every pixel with `G` of its original colour. -/
theorem forPixels_whole (G : Int → Int → QColor → QColor) (step : Int → Int → QImage → QImage)
    (img : QImage)
    (hstep : ∀ (x y : Int) (r : QImage), r.valid x y = true →
      step x y r = r.setPixelColor x y (G x y (r.data x y))) :
    (forPixels 0 img.width 0 img.height step img).width = img.width ∧
    (forPixels 0 img.width 0 img.height step img).height = img.height ∧
    ∀ x y : Int, (forPixels 0 img.width 0 img.height step img).data x y =
      if 0 ≤ x ∧ x < img.width ∧ 0 ≤ y ∧ y < img.height then G x y (img.data x y)
      else img.data x y := by
  apply forPixels_spec G step 0 img.width 0 img.height img
  intro x y r hx0 hx1 hy0 hy1 hw hh
  have hv : r.valid x y = true :=
    QImage.valid_of_bounds r x y hx0 (by rw [hw]; exact hx1) hy0 (by rw [hh]; exact hy1)
  rw [hstep x y r hv]
  exact QImage.setPixelColor_valid r x y _ hv

theorem cdiv_two_of_neg (t : Int) (ht : t < 0) : cdiv t 2 = -(|t| / 2) := by
  have h : t = -(-t) := by omega
  unfold cdiv
  rw [h, Int.neg_tdiv, Int.tdiv_eq_ediv (by omega) (by omega), abs_neg, abs_of_nonneg (by omega)]

/-- The result of `adjustColorTemperature` pixel by pixel. -/
theorem adjustColorTemperature_data (image : QImage) (temperature : Int) :
    (adjustColorTemperature image temperature).width = image.width ∧
    (adjustColorTemperature image temperature).height = image.height ∧
    ∀ x y : Int, (adjustColorTemperature image temperature).data x y =
      if 0 ≤ x ∧ x < image.width ∧ 0 ≤ y ∧ y < image.height then
        adjustColorTemperatureHelper (image.data x y) (qBound (-100) temperature 100)
      else image.data x y := by
  unfold adjustColorTemperature
  by_cases hn : image.isNull = true
  · rw [if_pos hn]
    refine ⟨rfl, rfl, fun x y => ?_⟩
    rw [if_neg]
    simp only [QImage.isNull, Bool.or_eq_true, beq_iff_eq] at hn
    omega
  · rw [if_neg hn]
    exact forPixels_whole
      (fun _ _ c => adjustColorTemperatureHelper c (qBound (-100) temperature 100)) _ image
      (fun x y r _ => rfl)

/-- Claim C10, as amended. For every raster and every temperature `t` with
`-100 <= t < 0`, `adjustColorTemperature` keeps the dimensions and at every pixel decreases
red by `|t|` and green by `|t| / 2` (each clamped to 0..255) and leaves blue and alpha
unchanged. -/
theorem adjustColorTemperature_cool (image : QImage) (t : Int) (h1 : -100 ≤ t) (h2 : t < 0) :
    (adjustColorTemperature image t).width = image.width ∧
    (adjustColorTemperature image t).height = image.height ∧
    ∀ x y : Int, 0 ≤ x → x < image.width → 0 ≤ y → y < image.height →
      ((adjustColorTemperature image t).data x y).red
        = qBound 0 ((image.data x y).red - |t|) 255 ∧
      ((adjustColorTemperature image t).data x y).green
        = qBound 0 ((image.data x y).green - |t| / 2) 255 ∧
      ((adjustColorTemperature image t).data x y).b = (image.data x y).b ∧
      ((adjustColorTemperature image t).data x y).a = (image.data x y).a := by
  obtain ⟨hw, hh, hd⟩ := adjustColorTemperature_data image t
  refine ⟨hw, hh, ?_⟩
  intro x y hx0 hx1 hy0 hy1
  rw [hd x y, if_pos ⟨hx0, hx1, hy0, hy1⟩]
  have hq : qBound (-100) t 100 = t := by
    rw [qBound_int]; split_ifs <;> omega
  rw [hq]
  have habs : |t| = -t := abs_of_neg h2
  unfold adjustColorTemperatureHelper
  rw [if_neg (by omega), if_pos h2, cdiv_two_of_neg t h2]
  simp only [QColor.rgba, QColor.red, QColor.green]
  refine ⟨?_, ?_, ?_, ?_⟩
  · rw [toChannel_of_bounds _ (qBound_channel _).1 (qBound_channel _).2, habs]
    congr 1
    omega
  · rw [toChannel_of_bounds _ (qBound_channel _).1 (qBound_channel _).2]
    congr 1
  · exact toChannel_val _
  · exact toChannel_val _

/-- Witness of the amended claim C10: a 1x1 raster of colour (100,100,100,255) at
temperature -10. -/
theorem adjustColorTemperature_cool_witness :
    (-100 : Int) ≤ -10 ∧ (-10 : Int) < 0 ∧
    ((adjustColorTemperature (QImage.uniform 1 1 ⟨100, 100, 100, 255⟩) (-10)).data 0 0).red
      = qBound 0 (((QImage.uniform 1 1 ⟨100, 100, 100, 255⟩).data 0 0).red - |(-10 : Int)|) 255 :=
  ⟨by decide, by decide,
    ((adjustColorTemperature_cool (QImage.uniform 1 1 ⟨100, 100, 100, 255⟩) (-10)
      (by decide) (by decide)).2.2 0 0 (by decide) (by decide) (by decide) (by decide)).1⟩

/-- Claim C10, refuted as stated: it is not the case that for every pixel and every
temperature `t` with `-100 <= t < 0` the red channel grows by `|t|` and the green channel by
`|t| / 2`; the colour (100,100,100,255) at `t = -10` becomes (90,95,100,255). -/
theorem cool_temperature_does_not_increase_red :
    ¬ (∀ (image : QImage) (t : Int), -100 ≤ t → t < 0 →
        ∀ x y : Int, 0 ≤ x → x < image.width → 0 ≤ y → y < image.height →
          ((adjustColorTemperature image t).data x y).red
            = qBound 0 ((image.data x y).red + |t|) 255 ∧
          ((adjustColorTemperature image t).data x y).green
            = qBound 0 ((image.data x y).green + |t| / 2) 255 ∧
          ((adjustColorTemperature image t).data x y).b = (image.data x y).b ∧
          ((adjustColorTemperature image t).data x y).a = (image.data x y).a) := by
  intro h
  have h' := (h (QImage.uniform 1 1 ⟨100, 100, 100, 255⟩) (-10) (by decide) (by decide)
    0 0 (by decide) (by decide) (by decide) (by decide)).1
  have hcode : ((adjustColorTemperature (QImage.uniform 1 1 ⟨100, 100, 100, 255⟩) (-10)).data
      0 0) = ⟨90, 95, 100, 255⟩ := by decide
  rw [hcode] at h'
  revert h'
  decide

theorem forLoop_three {σ : Type} (body : Int → σ → σ) (s : σ) :
    forLoop (-1) (1 + 1) body s = body 1 (body 0 (body (-1) s)) := rfl

theorem QImage.ext_data (a b : QImage) (hw : a.width = b.width) (hh : a.height = b.height)
    (hd : ∀ x y, a.data x y = b.data x y) : a = b := by
  obtain ⟨aw, ah, ad⟩ := a
  obtain ⟨bw, bh, bd⟩ := b
  simp only at hw hh hd
  subst hw hh
  have : ad = bd := funext fun x => funext fun y => hd x y
  subst this
  rfl

/-- The colour that `applySharpen` writes at an interior position, from the source raster. -/
theorem applySharpen_window (source : QImage) (x y : Int) :
    forLoop (-1) (1 + 1) (fun ky rgb =>
        forLoop (-1) (1 + 1) (fun kx (rgb : Int × Int × Int) =>
          let color := source.pixelColor (x + kx) (y + ky)
          (rgb.1 + color.red * entry3 sharpenKernel (ky + 1) (kx + 1),
           rgb.2.1 + color.green * entry3 sharpenKernel (ky + 1) (kx + 1),
           rgb.2.2 + color.blue * entry3 sharpenKernel (ky + 1) (kx + 1))) rgb) (0, 0, 0)
    = (5 * (source.data x y).red - (source.data (x - 1) y).red - (source.data (x + 1) y).red
          - (source.data x (y - 1)).red - (source.data x (y + 1)).red,
       5 * (source.data x y).green - (source.data (x - 1) y).green
          - (source.data (x + 1) y).green - (source.data x (y - 1)).green
          - (source.data x (y + 1)).green,
       5 * (source.data x y).blue - (source.data (x - 1) y).blue - (source.data (x + 1) y).blue
          - (source.data x (y - 1)).blue - (source.data x (y + 1)).blue) := by
  have k00 : entry3 sharpenKernel (-1 + 1) (-1 + 1) = 0 := by decide
  have k01 : entry3 sharpenKernel (-1 + 1) (0 + 1) = -1 := by decide
  have k02 : entry3 sharpenKernel (-1 + 1) (1 + 1) = 0 := by decide
  have k10 : entry3 sharpenKernel (0 + 1) (-1 + 1) = -1 := by decide
  have k11 : entry3 sharpenKernel (0 + 1) (0 + 1) = 5 := by decide
  have k12 : entry3 sharpenKernel (0 + 1) (1 + 1) = -1 := by decide
  have k20 : entry3 sharpenKernel (1 + 1) (-1 + 1) = 0 := by decide
  have k21 : entry3 sharpenKernel (1 + 1) (0 + 1) = -1 := by decide
  have k22 : entry3 sharpenKernel (1 + 1) (1 + 1) = 0 := by decide
  have e1 : x + -1 = x - 1 := by omega
  have e2 : y + -1 = y - 1 := by omega
  simp only [forLoop_three, QImage.pixelColor, k00, k01, k02, k10, k11, k12, k20, k21, k22]
  simp only [e1, e2, add_zero, mul_zero, zero_add]
  refine Prod.ext ?_ (Prod.ext ?_ ?_) <;> simp only [] <;> omega

/-- Claim C9. `applySharpen` keeps the dimensions; it leaves every border pixel (and every
position outside the interior) as in the input, and sets each interior pixel's red, green
and blue to `clamp(5 c(x,y) - c(x-1,y) - c(x+1,y) - c(x,y-1) - c(x,y+1), 0, 255)` read from
the input raster, with the input alpha; alpha is unchanged everywhere, and a raster of one
colour, of any size, is returned unchanged. -/
theorem applySharpen_spec (image : QImage) :
    (applySharpen image).width = image.width ∧
    (applySharpen image).height = image.height ∧
    (∀ x y : Int, (applySharpen image).data x y =
      if 1 ≤ x ∧ x < (image.width : Int) - 1 ∧ 1 ≤ y ∧ y < (image.height : Int) - 1 then
        QColor.rgba
          (qBound 0 (5 * (image.data x y).red - (image.data (x - 1) y).red
            - (image.data (x + 1) y).red - (image.data x (y - 1)).red
            - (image.data x (y + 1)).red) 255)
          (qBound 0 (5 * (image.data x y).green - (image.data (x - 1) y).green
            - (image.data (x + 1) y).green - (image.data x (y - 1)).green
            - (image.data x (y + 1)).green) 255)
          (qBound 0 (5 * (image.data x y).blue - (image.data (x - 1) y).blue
            - (image.data (x + 1) y).blue - (image.data x (y - 1)).blue
            - (image.data x (y + 1)).blue) 255)
          (image.data x y).alpha
      else image.data x y) ∧
    (∀ x y : Int, ((applySharpen image).data x y).a = (image.data x y).a) ∧
    (∀ (w h : Nat) (c : QColor), applySharpen (QImage.uniform w h c) = QImage.uniform w h c) := by
  have main : ∀ img : QImage, (applySharpen img).width = img.width ∧
      (applySharpen img).height = img.height ∧
      (∀ x y : Int, (applySharpen img).data x y =
        if 1 ≤ x ∧ x < (img.width : Int) - 1 ∧ 1 ≤ y ∧ y < (img.height : Int) - 1 then
          QColor.rgba
            (qBound 0 (5 * (img.data x y).red - (img.data (x - 1) y).red
              - (img.data (x + 1) y).red - (img.data x (y - 1)).red
              - (img.data x (y + 1)).red) 255)
            (qBound 0 (5 * (img.data x y).green - (img.data (x - 1) y).green
              - (img.data (x + 1) y).green - (img.data x (y - 1)).green
              - (img.data x (y + 1)).green) 255)
            (qBound 0 (5 * (img.data x y).blue - (img.data (x - 1) y).blue
              - (img.data (x + 1) y).blue - (img.data x (y - 1)).blue
              - (img.data x (y + 1)).blue) 255)
            (img.data x y).alpha
        else img.data x y) := by
    intro img
    unfold applySharpen
    by_cases hn : img.isNull = true
    · rw [if_pos hn]
      refine ⟨rfl, rfl, fun x y => ?_⟩
      rw [if_neg]
      simp only [QImage.isNull, Bool.or_eq_true, beq_iff_eq] at hn
      omega
    · rw [if_neg hn]
      simp only [applySharpen_window]
      apply forPixels_spec (fun x y _ => QColor.rgba
            (qBound 0 (5 * (img.data x y).red - (img.data (x - 1) y).red
              - (img.data (x + 1) y).red - (img.data x (y - 1)).red
              - (img.data x (y + 1)).red) 255)
            (qBound 0 (5 * (img.data x y).green - (img.data (x - 1) y).green
              - (img.data (x + 1) y).green - (img.data x (y - 1)).green
              - (img.data x (y + 1)).green) 255)
            (qBound 0 (5 * (img.data x y).blue - (img.data (x - 1) y).blue
              - (img.data (x + 1) y).blue - (img.data x (y - 1)).blue
              - (img.data x (y + 1)).blue) 255)
            (img.data x y).alpha)
      intro x y r hx0 hx1 hy0 hy1 hw hh
      have hv : r.valid x y = true :=
        QImage.valid_of_bounds r x y (by omega) (by rw [hw]; omega) (by omega) (by rw [hh]; omega)
      exact QImage.setPixelColor_valid r x y _ hv
  obtain ⟨hw, hh, hd⟩ := main image
  refine ⟨hw, hh, hd, ?_, ?_⟩
  · intro x y
    rw [hd x y]
    split_ifs
    · exact toChannel_val _
    · rfl
  · intro w h c
    obtain ⟨uw, uh, ud⟩ := main (QImage.uniform w h c)
    apply QImage.ext_data _ _ uw uh
    intro x y
    rw [ud x y]
    split_ifs
    · simp only [QImage.uniform]
      have hb := c.channel_bounds
      have e : ∀ v : Int, 0 ≤ v → v ≤ 255 → qBound 0 (5 * v - v - v - v - v) 255 = v := by
        intro v h0 h1
        rw [qBound_int]; split_ifs <;> omega
      rw [e _ hb.1 hb.2.1, e _ hb.2.2.1 hb.2.2.2.1, e _ hb.2.2.2.2.1 hb.2.2.2.2.2.1]
      simp only [QColor.rgba, QColor.red, QColor.green, QColor.blue, QColor.alpha, toChannel_val]
    · rfl

theorem QImage.setPixelColor_self (r : QImage) (x y : Int) :
    r.setPixelColor x y (r.data x y) = r := by
  unfold QImage.setPixelColor
  split_ifs
  · refine QImage.ext_data _ r rfl rfl ?_
    intro x' y'
    show (if x' = x ∧ y' = y then r.data x y else r.data x' y') = r.data x' y'
    split_ifs with h
    · rw [h.1, h.2]
    · rfl
  · rfl

theorem forLoop_id {σ : Type} (lo hi : Int) (body : Int → σ → σ) (s : σ)
    (h : ∀ i, body i s = s) : forLoop lo hi body s = s := by
  have := forLoop_invariant (fun _ acc => acc = s) lo hi body s rfl
    (by intro i acc _ hacc; rw [hacc]; exact h _)
  exact this

/-- A pixel loop whose body never changes the raster returns the raster it started from. -/
theorem forPixels_id (x0 x1 y0 y1 : Int) (step : Int → Int → QImage → QImage) (img : QImage)
    (h : ∀ x y, step x y img = img) : forPixels x0 x1 y0 y1 step img = img := by
  unfold forPixels
  apply forLoop_id
  intro y
  apply forLoop_id
  intro x
  exact h x y

theorem QColor.rgba_self (c : QColor) : QColor.rgba c.red c.green c.blue c.alpha = c := by
  simp only [QColor.rgba, QColor.red, QColor.green, QColor.blue, QColor.alpha, toChannel_val]

theorem qBound_of_channel (v : Int) (h0 : 0 ≤ v) (h1 : v ≤ 255) : qBound 0 v 255 = v := by
  rw [qBound_int]; split_ifs <;> omega

theorem castInt_intCast (n : Int) : castInt (n : ℚ) = n := by
  unfold castInt
  split_ifs
  · exact Int.floor_intCast n
  · exact Int.ceil_intCast n

/-- A loop body that rebuilds the colour it reads from its own `int` channels, bounded to
0..255, leaves the raster as it is. -/
theorem setPixelColor_rebuilt (r : QImage) (x y : Int) :
    r.setPixelColor x y (QColor.rgba (qBound 0 (r.data x y).red 255)
      (qBound 0 (r.data x y).green 255) (qBound 0 (r.data x y).blue 255) (r.data x y).alpha) = r := by
  have hb := (r.data x y).channel_bounds
  rw [qBound_of_channel _ hb.1 hb.2.1, qBound_of_channel _ hb.2.2.1 hb.2.2.2.1,
    qBound_of_channel _ hb.2.2.2.2.1 hb.2.2.2.2.2.1, QColor.rgba_self]
  exact QImage.setPixelColor_self r x y

theorem adjustBrightness_zero (R : QImage) : adjustBrightness R 0 = R := by
  unfold adjustBrightness
  split_ifs
  · rfl
  · apply forPixels_id
    intro x y
    have hq : qBound (-100 : Int) 0 100 = 0 := by decide
    simp only [hq, add_zero, QImage.pixelColor]
    exact setPixelColor_rebuilt R x y

theorem adjustContrast_zero (R : QImage) : adjustContrast R 0 = R := by
  unfold adjustContrast
  split_ifs
  · rfl
  · apply forPixels_id
    intro x y
    have hq : qBound (-100 : Int) 0 100 = 0 := by decide
    have hf : ddiv (dmul 259 (((0 : Int) + 255 : Int) : ℚ)) (dmul 255 ((259 - (0 : Int) : Int) : ℚ))
        = 1 := by decide!
    have hc : ∀ v : Int, 0 ≤ v → v ≤ 255 →
        castInt (dadd (dmul 1 ((v - 128 : Int) : ℚ)) 128) = v := by
      intro v h0 h1
      rw [one_dmul, (castInt_toDouble_channel (v - 128) (by omega) (by omega)).1]
      have e : ((v - 128 : Int) : ℚ) + 128 = ((v : Int) : ℚ) := by push_cast; ring
      unfold dadd
      rw [e]
      exact (castInt_toDouble_channel v (by omega) h1).2
    have hb := (R.data x y).channel_bounds
    simp only [hq, hf, QImage.pixelColor]
    rw [hc _ hb.1 hb.2.1, hc _ hb.2.2.1 hb.2.2.2.1, hc _ hb.2.2.2.2.1 hb.2.2.2.2.2.1]
    exact setPixelColor_rebuilt R x y

theorem adjustColorTemperature_zero (R : QImage) : adjustColorTemperature R 0 = R := by
  unfold adjustColorTemperature
  split_ifs
  · rfl
  · apply forPixels_id
    intro x y
    have hq : qBound (-100 : Int) 0 100 = 0 := by decide
    have hh : ∀ c : QColor, adjustColorTemperatureHelper c 0 = c := fun _ => rfl
    simp only [hq, hh, QImage.pixelColor]
    exact QImage.setPixelColor_self R x y

theorem adjustGamma_one (qPow : ℚ → ℚ → ℚ) (hpow : ∀ x : ℚ, qPow x 1 = x) (R : QImage) :
    adjustGamma qPow R 1 = R := by
  unfold adjustGamma
  split_ifs
  · rfl
  · apply forPixels_id
    intro x y
    have hq : qBound (toDouble (1 / 10)) 1 10 = 1 := by decide!
    have hone : ddiv 1 1 = 1 := by decide!
    have hfin : ∀ c : Channel,
        castInt (dmul 255 (ddiv (((c.val : Nat) : Int) : ℚ) 255)) = ((c.val : Nat) : Int) := by
      decide!
    simp only [hq, hone, hpow, QImage.pixelColor]
    have hr := hfin (R.data x y).r
    have hg := hfin (R.data x y).g
    have hb := hfin (R.data x y).b
    simp only [QColor.red, QColor.green, QColor.blue] at hr hg hb ⊢
    rw [hr, hg, hb]
    exact setPixelColor_rebuilt R x y

theorem adjustExposure_zero (qPow : ℚ → ℚ → ℚ) (hpow : qPow 2 0 = 1) (R : QImage) :
    adjustExposure qPow R 0 = R := by
  unfold adjustExposure
  split_ifs
  · rfl
  · apply forPixels_id
    intro x y
    have hq : qBound (-100 : Int) 0 100 = 0 := by decide
    have hf : qPow 2 (ddiv ((0 : Int) : ℚ) 50) = 1 := by
      rw [Int.cast_zero, zero_ddiv, hpow]
    have hc : ∀ v : Int, 0 ≤ v → v ≤ 255 → castInt (dmul (v : ℚ) 1) = v := by
      intro v h0 h1
      rw [dmul_one]
      exact (castInt_toDouble_channel v (by omega) h1).2
    have hb := (R.data x y).channel_bounds
    simp only [hq, hf, QImage.pixelColor]
    rw [hc _ hb.1 hb.2.1, hc _ hb.2.2.1 hb.2.2.2.1, hc _ hb.2.2.2.2.1 hb.2.2.2.2.2.1]
    exact setPixelColor_rebuilt R x y

theorem adjustShadows_zero (R : QImage) : adjustShadows R 0 = R := by
  unfold adjustShadows
  split_ifs
  · rfl
  · apply forPixels_id
    intro x y
    have hq : qBound (-100 : Int) 0 100 = 0 := by decide
    have hc : ∀ (v : Int) (l : ℚ), 0 ≤ v → v ≤ 255 →
        castInt (dmul (v : ℚ) (dadd 1 (dmul (ddiv ((0 : Int) : ℚ) 100) (dsub 1 (dmul l 2))))) = v := by
      intro v l h0 h1
      have e : dadd 1 (dmul (ddiv ((0 : Int) : ℚ) 100) (dsub 1 (dmul l 2))) = 1 := by
        rw [Int.cast_zero, zero_ddiv, zero_dmul]
        unfold dadd
        rw [add_zero, toDouble_one]
      rw [e, dmul_one]
      exact (castInt_toDouble_channel v (by omega) h1).2
    have hb := (R.data x y).channel_bounds
    simp only [hq, QImage.pixelColor]
    split_ifs
    · rw [hc _ _ hb.1 hb.2.1, hc _ _ hb.2.2.1 hb.2.2.2.1, hc _ _ hb.2.2.2.2.1 hb.2.2.2.2.2.1]
      exact setPixelColor_rebuilt R x y
    · rfl

theorem adjustHighlights_zero (R : QImage) : adjustHighlights R 0 = R := by
  unfold adjustHighlights
  split_ifs
  · rfl
  · apply forPixels_id
    intro x y
    have hq : qBound (-100 : Int) 0 100 = 0 := by decide
    have hc : ∀ (v : Int) (l : ℚ), 0 ≤ v → v ≤ 255 →
        castInt (dmul (v : ℚ) (dsub 1 (dmul (ddiv ((0 : Int) : ℚ) 100) (dsub (dmul l 2) 1)))) = v := by
      intro v l h0 h1
      have e : dsub 1 (dmul (ddiv ((0 : Int) : ℚ) 100) (dsub (dmul l 2) 1)) = 1 := by
        rw [Int.cast_zero, zero_ddiv, zero_dmul]
        unfold dsub
        rw [sub_zero, toDouble_one]
      rw [e, dmul_one]
      exact (castInt_toDouble_channel v (by omega) h1).2
    have hb := (R.data x y).channel_bounds
    simp only [hq, QImage.pixelColor]
    split_ifs
    · rw [hc _ _ hb.1 hb.2.1, hc _ _ hb.2.2.1 hb.2.2.2.1, hc _ _ hb.2.2.2.2.1 hb.2.2.2.2.2.1]
      exact setPixelColor_rebuilt R x y
    · rfl

theorem div257_channel (v : Int) (h0 : 0 ≤ v) (h1 : v ≤ 255) : div257 (v * 257) = v := by
  unfold div257
  omega

theorem qRound_intCast (n : Int) (h : 0 ≤ n) : qRound (n : ℚ) = n := by
  unfold qRound
  have h' : (0 : ℚ) ≤ (n : ℚ) := by exact_mod_cast h
  rw [if_pos h']
  unfold castInt
  rw [if_pos (by linarith)]
  rw [Int.floor_eq_iff]
  constructor <;> linarith

/-- The HSV form of a gray colour: achromatic, saturation 0, value the gray level. -/
theorem QColor.toHsv_gray (c : QColor) (h1 : c.r = c.g) (h2 : c.g = c.b) :
    c.toHsv = ⟨65535, 0, c.red * 257, c.alpha * 257⟩ := by
  have hg : c.green = c.red := by simp only [QColor.green, QColor.red, h1]
  have hb : c.blue = c.red := by simp only [QColor.blue, QColor.red, h1, h2]
  have hbd := c.channel_bounds
  unfold QColor.toHsv
  simp only [hg, hb, max_self, min_self, sub_self, if_true]
  have e : ((c.red * 257 : Int) : ℚ) / 65535 * 65535 = ((c.red * 257 : Int) : ℚ) := by
    field_simp
  rw [e, qRound_intCast _ (by omega)]

/-- What `adjustSaturation` and `adjustHue` write for an achromatic HSV colour of value `v`
and alpha `a`: the gray colour `(v, v, v, a)`. -/
theorem QHsv.toRgb_achromatic (h16 v a : Int) (hv0 : 0 ≤ v) (hv1 : v ≤ 255) (ha0 : 0 ≤ a)
    (ha1 : a ≤ 255) :
    (⟨h16, 0, v * 257, a * 257⟩ : QHsv).toRgb = QColor.rgba v v v a := by
  unfold QHsv.toRgb
  simp only [true_or, if_true, div257_channel v hv0 hv1, div257_channel a ha0 ha1]

theorem adjustSaturation_zero_gray (R : QImage) :
    (adjustSaturation R 0).width = R.width ∧ (adjustSaturation R 0).height = R.height ∧
    ∀ x y : Int, (R.data x y).r = (R.data x y).g → (R.data x y).g = (R.data x y).b →
      (adjustSaturation R 0).data x y = R.data x y := by
  unfold adjustSaturation
  split_ifs
  · exact ⟨rfl, rfl, fun _ _ _ _ => rfl⟩
  · obtain ⟨hw, hh, hd⟩ := forPixels_whole
      (fun _ _ c =>
        match QHsv.setHsv c.toHsv.hue
          (qBound 0 (castInt (dmul (c.toHsv.saturation : ℚ)
            (dadd 1 (ddiv ((qBound (-100) 0 100 : Int) : ℚ) 100)))) 255)
          c.toHsv.value c.toHsv.alpha with
        | some hsv => hsv.toRgb
        | none => c)
      (fun x y result =>
        result.setPixelHsv x y (QHsv.setHsv (result.pixelColor x y).toHsv.hue
          (qBound 0 (castInt (dmul ((result.pixelColor x y).toHsv.saturation : ℚ)
            (dadd 1 (ddiv ((qBound (-100) 0 100 : Int) : ℚ) 100)))) 255)
          (result.pixelColor x y).toHsv.value (result.pixelColor x y).toHsv.alpha)) R
      (by
        intro x y r _
        simp only [QImage.pixelColor, QImage.setPixelHsv]
        split
        · rfl
        · exact (QImage.setPixelColor_self r x y).symm)
    refine ⟨hw, hh, ?_⟩
    intro x y h1 h2
    rw [hd x y]
    split_ifs
    · have hbd := (R.data x y).channel_bounds
      rw [QColor.toHsv_gray _ h1 h2]
      have hs : QHsv.saturation ⟨65535, 0, (R.data x y).red * 257, (R.data x y).alpha * 257⟩ = 0 := rfl
      have hv : QHsv.value ⟨65535, 0, (R.data x y).red * 257, (R.data x y).alpha * 257⟩
          = (R.data x y).red := by
        simp only [QHsv.value]; omega
      have ha : QHsv.alpha ⟨65535, 0, (R.data x y).red * 257, (R.data x y).alpha * 257⟩
          = (R.data x y).alpha := by
        simp only [QHsv.alpha]; omega
      have hh' : QHsv.hue ⟨65535, 0, (R.data x y).red * 257, (R.data x y).alpha * 257⟩ = -1 := rfl
      rw [hs, hv, ha, hh']
      have hq : qBound (0 : Int) (castInt (dmul ((0 : Int) : ℚ)
          (dadd 1 (ddiv ((qBound (-100) 0 100 : Int) : ℚ) 100)))) 255 = 0 := by
        rw [Int.cast_zero, zero_dmul]
        have : castInt (0 : ℚ) = 0 := by exact_mod_cast castInt_intCast 0
        rw [this]; decide
      rw [hq]
      have hset : QHsv.setHsv (-1) 0 (R.data x y).red (R.data x y).alpha
          = some ⟨65535, 0 * 257, (R.data x y).red * 257, (R.data x y).alpha * 257⟩ := by
        unfold QHsv.setHsv
        rw [if_neg (by omega)]
        rfl
      rw [hset]
      simp only [zero_mul]
      rw [QHsv.toRgb_achromatic _ _ _ hbd.1 hbd.2.1 hbd.2.2.2.2.2.2.1 hbd.2.2.2.2.2.2.2]
      have hg : (R.data x y).green = (R.data x y).red := by simp only [QColor.green, QColor.red, h1]
      have hb : (R.data x y).blue = (R.data x y).red := by
        simp only [QColor.blue, QColor.red, h1, h2]
      conv_rhs => rw [← QColor.rgba_self (R.data x y), hg, hb]
    · rfl

theorem adjustHue_zero_gray (R : QImage) :
    (adjustHue R 0).width = R.width ∧ (adjustHue R 0).height = R.height ∧
    ∀ x y : Int, (R.data x y).r = (R.data x y).g → (R.data x y).g = (R.data x y).b →
      (adjustHue R 0).data x y = R.data x y := by
  unfold adjustHue
  split_ifs
  · exact ⟨rfl, rfl, fun _ _ _ _ => rfl⟩
  · obtain ⟨hw, hh, hd⟩ := forPixels_whole
      (fun _ _ c =>
        match QHsv.setHsv
          (if cmod (c.toHsv.hue + qBound (-180) 0 180) 360 < 0
            then cmod (c.toHsv.hue + qBound (-180) 0 180) 360 + 360
            else cmod (c.toHsv.hue + qBound (-180) 0 180) 360)
          c.toHsv.saturation c.toHsv.value c.toHsv.alpha with
        | some hsv => hsv.toRgb
        | none => c)
      (fun x y result =>
        result.setPixelHsv x y (QHsv.setHsv
          (if cmod ((result.pixelColor x y).toHsv.hue + qBound (-180) 0 180) 360 < 0
            then cmod ((result.pixelColor x y).toHsv.hue + qBound (-180) 0 180) 360 + 360
            else cmod ((result.pixelColor x y).toHsv.hue + qBound (-180) 0 180) 360)
          (result.pixelColor x y).toHsv.saturation
          (result.pixelColor x y).toHsv.value (result.pixelColor x y).toHsv.alpha)) R
      (by
        intro x y r _
        simp only [QImage.pixelColor, QImage.setPixelHsv]
        split
        · rfl
        · exact (QImage.setPixelColor_self r x y).symm)
    refine ⟨hw, hh, ?_⟩
    intro x y h1 h2
    rw [hd x y]
    by_cases hin : 0 ≤ x ∧ x < (R.width : Int) ∧ 0 ≤ y ∧ y < (R.height : Int)
    · rw [if_pos hin]
      have hbd := (R.data x y).channel_bounds
      rw [QColor.toHsv_gray _ h1 h2]
      have hs : QHsv.saturation ⟨65535, 0, (R.data x y).red * 257, (R.data x y).alpha * 257⟩ = 0 := rfl
      have hv : QHsv.value ⟨65535, 0, (R.data x y).red * 257, (R.data x y).alpha * 257⟩
          = (R.data x y).red := by
        simp only [QHsv.value]; omega
      have ha : QHsv.alpha ⟨65535, 0, (R.data x y).red * 257, (R.data x y).alpha * 257⟩
          = (R.data x y).alpha := by
        simp only [QHsv.alpha]; omega
      have hh' : QHsv.hue ⟨65535, 0, (R.data x y).red * 257, (R.data x y).alpha * 257⟩ = -1 := rfl
      rw [hs, hv, ha, hh']
      have hq : (if cmod (-1 + qBound (-180) 0 180) 360 < 0
            then cmod (-1 + qBound (-180) 0 180) 360 + 360
            else cmod (-1 + qBound (-180) 0 180) 360) = 359 := by decide
      rw [hq]
      have hset : QHsv.setHsv 359 0 (R.data x y).red (R.data x y).alpha
          = some ⟨35900, 0 * 257, (R.data x y).red * 257, (R.data x y).alpha * 257⟩ := by
        unfold QHsv.setHsv
        rw [if_neg (by omega)]
        rfl
      rw [hset]
      simp only [zero_mul]
      rw [QHsv.toRgb_achromatic _ _ _ hbd.1 hbd.2.1 hbd.2.2.2.2.2.2.1 hbd.2.2.2.2.2.2.2]
      have hg : (R.data x y).green = (R.data x y).red := by simp only [QColor.green, QColor.red, h1]
      have hb : (R.data x y).blue = (R.data x y).red := by
        simp only [QColor.blue, QColor.red, h1, h2]
      conv_rhs => rw [← QColor.rgba_self (R.data x y), hg, hb]
    · rw [if_neg hin]

/-- The part of claim C6 that holds. With a power function that returns `x` at exponent 1
and 1 for `2` at exponent 0, each of `adjustBrightness(R,0)`, `adjustContrast(R,0)`,
`adjustGamma(R,1.0)`, `adjustColorTemperature(R,0)`, `adjustExposure(R,0)`,
`adjustShadows(R,0)` and `adjustHighlights(R,0)` returns `R` itself; `adjustSaturation(R,0)`
and `adjustHue(R,0)` return a raster of the dimensions of `R` in which every gray pixel
(red = green = blue) of `R` is unchanged. -/
theorem adjust_identity (qPow : ℚ → ℚ → ℚ) (R : QImage)
    (hpow1 : ∀ x : ℚ, qPow x 1 = x) (hpow0 : qPow 2 0 = 1) :
    adjustBrightness R 0 = R ∧ adjustContrast R 0 = R ∧ adjustGamma qPow R 1 = R ∧
    adjustColorTemperature R 0 = R ∧ adjustExposure qPow R 0 = R ∧
    adjustShadows R 0 = R ∧ adjustHighlights R 0 = R ∧
    ((adjustSaturation R 0).width = R.width ∧ (adjustSaturation R 0).height = R.height ∧
      ∀ x y : Int, (R.data x y).r = (R.data x y).g → (R.data x y).g = (R.data x y).b →
        (adjustSaturation R 0).data x y = R.data x y) ∧
    ((adjustHue R 0).width = R.width ∧ (adjustHue R 0).height = R.height ∧
      ∀ x y : Int, (R.data x y).r = (R.data x y).g → (R.data x y).g = (R.data x y).b →
        (adjustHue R 0).data x y = R.data x y) :=
  ⟨adjustBrightness_zero R, adjustContrast_zero R, adjustGamma_one qPow hpow1 R,
    adjustColorTemperature_zero R, adjustExposure_zero qPow hpow0 R, adjustShadows_zero R,
    adjustHighlights_zero R, adjustSaturation_zero_gray R, adjustHue_zero_gray R⟩

/-- An instance of the identities: a 2x2 raster of colour (255,1,0,255) and a power function
exact at the exponents 0 and 1. -/
theorem adjust_identity_witness :
    (∀ x : ℚ, powExample x 1 = x) ∧ powExample 2 0 = 1 ∧
    adjustBrightness (QImage.uniform 2 2 ⟨255, 1, 0, 255⟩) 0 = QImage.uniform 2 2 ⟨255, 1, 0, 255⟩ ∧
    adjustGamma powExample (QImage.uniform 2 2 ⟨255, 1, 0, 255⟩) 1
      = QImage.uniform 2 2 ⟨255, 1, 0, 255⟩ :=
  ⟨fun _ => by simp [powExample], by simp [powExample],
    (adjust_identity powExample (QImage.uniform 2 2 ⟨255, 1, 0, 255⟩)
      (fun _ => by simp [powExample]) (by simp [powExample])).1,
    (adjust_identity powExample (QImage.uniform 2 2 ⟨255, 1, 0, 255⟩)
      (fun _ => by simp [powExample]) (by simp [powExample])).2.2.1⟩

/-- Claim C6, at the failing input. On the 1x1 raster of colour (255,1,0,255) both
`adjustSaturation(R,0)` and `adjustHue(R,0)` return the colour (255,0,0,255), so neither
result is pixel-identical to `R`; the commands that the saturation and hue dialogs execute
with their default value 0, `SaturationCommand` and `HueCommand`, write that colour into
the target, whereas the compound command built from the identity parameters has no child
and leaves the target as it is. -/
theorem adjustSaturation_adjustHue_zero_not_identity :
    (adjustSaturation (QImage.uniform 1 1 ⟨255, 1, 0, 255⟩) 0).data 0 0 = ⟨255, 0, 0, 255⟩ ∧
    (adjustHue (QImage.uniform 1 1 ⟨255, 1, 0, 255⟩) 0).data 0 0 = ⟨255, 0, 0, 255⟩ ∧
    ¬ (adjustSaturation (QImage.uniform 1 1 ⟨255, 1, 0, 255⟩) 0).same
        (QImage.uniform 1 1 ⟨255, 1, 0, 255⟩) ∧
    ¬ (adjustHue (QImage.uniform 1 1 ⟨255, 1, 0, 255⟩) 0).same
        (QImage.uniform 1 1 ⟨255, 1, 0, 255⟩) ∧
    (((SaturationCommand (QImage.uniform 1 1 ⟨255, 1, 0, 255⟩) 0).redo
        (QImage.uniform 1 1 ⟨255, 1, 0, 255⟩)).2.data 0 0 = ⟨255, 0, 0, 255⟩) ∧
    (((HueCommand (QImage.uniform 1 1 ⟨255, 1, 0, 255⟩) 0).redo
        (QImage.uniform 1 1 ⟨255, 1, 0, 255⟩)).2.data 0 0 = ⟨255, 0, 0, 255⟩) ∧
    (createCompoundAdjustmentCommand powExample (QImage.uniform 1 1 ⟨255, 1, 0, 255⟩)
        {}).children = [] := by
  refine ⟨by decide!, by decide!, by decide!, by decide!, by decide!, by decide!, ?_⟩
  have hg : ¬ |(1 : ℚ) - 1| > 1 / 100 := by norm_num
  simp only [createCompoundAdjustmentCommand, ne_eq, not_true_eq_false, if_false, hg]

/-- Claim C7, at the failing input. On the 2x1 raster with gray levels 0 and 90 and radius
1, `applyGaussianBlur` (and `applyBlur`) returns the gray levels 30 and 70: the horizontal
pass averages the second pixel over the already averaged first pixel (30, 90, 90). The
blur of the specification, computed from the input raster, gives 30 and 60. -/
theorem applyGaussianBlur_reads_written_pixels :
    (applyGaussianBlur (QImage.ofRows 2 1 [[⟨0, 0, 0, 255⟩, ⟨90, 90, 90, 255⟩]] ⟨0, 0, 0, 0⟩)
      1).toRows = [[⟨30, 30, 30, 255⟩, ⟨70, 70, 70, 255⟩]] ∧
    (applyBlur (QImage.ofRows 2 1 [[⟨0, 0, 0, 255⟩, ⟨90, 90, 90, 255⟩]] ⟨0, 0, 0, 0⟩)
      1).toRows = [[⟨30, 30, 30, 255⟩, ⟨70, 70, 70, 255⟩]] ∧
    (gaussianBlurSpec (QImage.ofRows 2 1 [[⟨0, 0, 0, 255⟩, ⟨90, 90, 90, 255⟩]] ⟨0, 0, 0, 0⟩)
      1).toRows = [[⟨30, 30, 30, 255⟩, ⟨60, 60, 60, 255⟩]] := by
  decide

/-- Claim C8, at the failing input. On the 4x3 raster of the one colour (100,100,100,255)
`applyEdgeDetection` sets the interior pixel (1,1) to 0 and then the interior pixel (2,1) to
50, because the Sobel window of (2,1) reads the 0 just written at (1,1). The edge detection
of the specification, computed on the grayscale input, sets both to 0. -/
theorem applyEdgeDetection_reads_written_pixels :
    (applyEdgeDetection (QImage.uniform 4 3 ⟨100, 100, 100, 255⟩)).toRows =
      [[⟨100, 100, 100, 255⟩, ⟨100, 100, 100, 255⟩, ⟨100, 100, 100, 255⟩, ⟨100, 100, 100, 255⟩],
       [⟨100, 100, 100, 255⟩, ⟨0, 0, 0, 255⟩, ⟨50, 50, 50, 255⟩, ⟨100, 100, 100, 255⟩],
       [⟨100, 100, 100, 255⟩, ⟨100, 100, 100, 255⟩, ⟨100, 100, 100, 255⟩, ⟨100, 100, 100, 255⟩]] ∧
    (edgeDetectionSpec (QImage.uniform 4 3 ⟨100, 100, 100, 255⟩)).toRows =
      [[⟨100, 100, 100, 255⟩, ⟨100, 100, 100, 255⟩, ⟨100, 100, 100, 255⟩, ⟨100, 100, 100, 255⟩],
       [⟨100, 100, 100, 255⟩, ⟨0, 0, 0, 255⟩, ⟨0, 0, 0, 255⟩, ⟨100, 100, 100, 255⟩],
       [⟨100, 100, 100, 255⟩, ⟨100, 100, 100, 255⟩, ⟨100, 100, 100, 255⟩, ⟨100, 100, 100, 255⟩]] := by
  decide!

/-! ## Colour temperature, warm branch -/

/-- Claim C11. For every raster and every temperature `t > 0`, with `t'` the temperature
bounded to 100, `adjustColorTemperature` keeps the dimensions and turns every pixel
`(r, g, b, a)` into `(r, clamp(g - t'/2, 0, 255), clamp(b - t', 0, 255), a)`, `t'/2` being
the integer division: red and alpha are unchanged and green and blue never increase. -/
theorem adjustColorTemperature_warm (image : QImage) (t : Int) (ht : 0 < t) :
    (adjustColorTemperature image t).width = image.width ∧
    (adjustColorTemperature image t).height = image.height ∧
    ∀ x y : Int, 0 ≤ x → x < image.width → 0 ≤ y → y < image.height →
      (adjustColorTemperature image t).data x y =
        QColor.rgba (image.data x y).red
          (qBound 0 ((image.data x y).green - min t 100 / 2) 255)
          (qBound 0 ((image.data x y).blue - min t 100) 255) (image.data x y).alpha ∧
      ((adjustColorTemperature image t).data x y).r = (image.data x y).r ∧
      ((adjustColorTemperature image t).data x y).a = (image.data x y).a ∧
      ((adjustColorTemperature image t).data x y).green ≤ (image.data x y).green ∧
      ((adjustColorTemperature image t).data x y).blue ≤ (image.data x y).blue := by
  obtain ⟨hw, hh, hd⟩ := adjustColorTemperature_data image t
  refine ⟨hw, hh, ?_⟩
  intro x y hx0 hx1 hy0 hy1
  rw [hd x y, if_pos ⟨hx0, hx1, hy0, hy1⟩]
  have hq : qBound (-100) t 100 = min t 100 := by
    rw [qBound_int]; split_ifs <;> omega
  rw [hq]
  have hpos : 0 < min t 100 := by omega
  have hdiv : cdiv (min t 100) 2 = min t 100 / 2 := by
    unfold cdiv
    exact Int.tdiv_eq_ediv (by omega) (by omega)
  have hhelper : adjustColorTemperatureHelper (image.data x y) (min t 100) =
      QColor.rgba (image.data x y).red
        (qBound 0 ((image.data x y).green - min t 100 / 2) 255)
        (qBound 0 ((image.data x y).blue - min t 100) 255) (image.data x y).alpha := by
    unfold adjustColorTemperatureHelper
    rw [if_pos (by omega), hdiv]
  rw [hhelper]
  have hb := (image.data x y).channel_bounds
  refine ⟨rfl, ?_, ?_, ?_, ?_⟩
  · exact toChannel_val _
  · exact toChannel_val _
  · simp only [QColor.rgba, QColor.green]
    rw [toChannel_of_bounds _ (qBound_channel _).1 (qBound_channel _).2, qBound_int]
    simp only [QColor.green] at hb
    split_ifs <;> omega
  · simp only [QColor.rgba, QColor.blue]
    rw [toChannel_of_bounds _ (qBound_channel _).1 (qBound_channel _).2, qBound_int]
    simp only [QColor.blue] at hb
    split_ifs <;> omega

/-- Witness of claim C11: a 1x1 raster of colour (100,100,100,255) at temperature 150, which
is bounded to 100: the pixel becomes (100,50,0,255). -/
theorem adjustColorTemperature_warm_witness :
    (0 : Int) < 150 ∧
    (adjustColorTemperature (QImage.uniform 1 1 ⟨100, 100, 100, 255⟩) 150).data 0 0 =
      QColor.rgba 100 (qBound 0 (100 - min (150 : Int) 100 / 2) 255)
        (qBound 0 (100 - min (150 : Int) 100) 255) 255 :=
  ⟨by decide,
    ((adjustColorTemperature_warm (QImage.uniform 1 1 ⟨100, 100, 100, 255⟩) 150
      (by decide)).2.2 0 0 (by decide) (by decide) (by decide) (by decide)).1⟩

/-! ## The enhancement rules -/

/-- Claim C12, as amended. For every `ImageStats s`, the suggested brightness is
`clamp(trunc((115 - s.averageBrightness) * 0.6), -100, 100)` when
`s.averageBrightness < 100`, `clamp(trunc((140 - s.averageBrightness) * 0.6), -100, 100)`
when `s.averageBrightness > 155`, and 0 otherwise, where the difference and the product are
`double` operations, each rounded to the nearest `double`, 0.6 is the `double` nearest to
6/10, and `trunc` is the truncation towards zero of `static_cast<int>`; it always lies in
-100..100. The rounding matters: at `averageBrightness = 1.6666666666666667`, which
`analyzeImage` computes for the 3x1 raster of the grays 0, 0 and 5, the `double` product is
exactly 68 and the brightness 68, where the product in exact arithmetic is below 68 and
truncates to 67. -/
theorem suggestEnhancements_brightness (s : ImageStats) :
    (suggestEnhancements s).brightness =
      (if s.averageBrightness < 100 then
        qBound (-100) (castInt (dmul (dsub 115 s.averageBrightness) (toDouble (6 / 10)))) 100
      else if s.averageBrightness > 155 then
        qBound (-100) (castInt (dmul (dsub 140 s.averageBrightness) (toDouble (6 / 10)))) 100
      else 0) ∧
    (-100 ≤ (suggestEnhancements s).brightness ∧ (suggestEnhancements s).brightness ≤ 100) ∧
    (toDouble (5 / 3) = 7505999378950827 / 4503599627370496 ∧
      dmul (dsub 115 (toDouble (5 / 3))) (toDouble (6 / 10)) = 68 ∧
      (suggestEnhancements ⟨toDouble (5 / 3), 50, 1 / 2, 0, 0⟩).brightness = 68 ∧
      castInt ((115 - toDouble (5 / 3)) * (6 / 10)) = 67 ∧
      (analyzeImage dsqrt (QImage.ofRows 3 1
        [[⟨0, 0, 0, 255⟩, ⟨0, 0, 0, 255⟩, ⟨5, 5, 5, 255⟩]] ⟨0, 0, 0, 0⟩)).averageBrightness
        = toDouble (5 / 3) ∧
      (suggestEnhancements (analyzeImage dsqrt (QImage.ofRows 3 1
        [[⟨0, 0, 0, 255⟩, ⟨0, 0, 0, 255⟩, ⟨5, 5, 5, 255⟩]] ⟨0, 0, 0, 0⟩))).brightness = 68) := by
  have h : (suggestEnhancements s).brightness =
      (if s.averageBrightness < 100 then
        qBound (-100) (castInt (dmul (dsub 115 s.averageBrightness) (toDouble (6 / 10)))) 100
      else if s.averageBrightness > 155 then
        qBound (-100) (castInt (dmul (dsub 140 s.averageBrightness) (toDouble (6 / 10)))) 100
      else 0) := rfl
  refine ⟨h, ?_, by decide!, by decide!, by decide!, by decide!, by decide!, by decide!⟩
  rw [h]
  split_ifs
  · rw [qBound_int]; split_ifs <;> omega
  · rw [qBound_int]; split_ifs <;> omega
  · omega

/-- Claim C12, refuted as stated: the suggested brightness is not the rounded value. At
`averageBrightness = 99` the code gives `trunc(9.6) = 9`, the claim `round(9.6) = 10`,
whether the product `(115 - 99) * 0.6` is taken exactly or in `double`. -/
theorem brightness_rule_truncates_not_rounds :
    (suggestEnhancements ⟨99, 50, 1 / 2, 0, 0⟩).brightness = 9 ∧
    qBound (-100) (round ((115 - (99 : ℚ)) * (6 / 10))) 100 = 10 ∧
    qBound (-100) (round (dmul (dsub 115 99) (toDouble (6 / 10)))) 100 = 10 ∧
    ¬ (∀ s : ImageStats, (suggestEnhancements s).brightness =
        if s.averageBrightness < 100 then
          qBound (-100) (round ((115 - s.averageBrightness) * (6 / 10))) 100
        else if s.averageBrightness > 155 then
          qBound (-100) (round ((140 - s.averageBrightness) * (6 / 10))) 100
        else 0) ∧
    ¬ (∀ s : ImageStats, (suggestEnhancements s).brightness =
        if s.averageBrightness < 100 then
          qBound (-100) (round (dmul (dsub 115 s.averageBrightness) (toDouble (6 / 10)))) 100
        else if s.averageBrightness > 155 then
          qBound (-100) (round (dmul (dsub 140 s.averageBrightness) (toDouble (6 / 10)))) 100
        else 0) := by
  have h1 : (suggestEnhancements ⟨99, 50, 1 / 2, 0, 0⟩).brightness = 9 := by decide!
  have h2 : qBound (-100) (round ((115 - (99 : ℚ)) * (6 / 10))) 100 = 10 := by decide!
  have h2d : qBound (-100) (round (dmul (dsub 115 99) (toDouble (6 / 10)))) 100 = 10 := by
    decide!
  refine ⟨h1, h2, h2d, ?_, ?_⟩
  · intro h
    have h3 := h ⟨99, 50, 1 / 2, 0, 0⟩
    rw [h1] at h3
    simp only [] at h3
    rw [if_pos (by norm_num), h2] at h3
    exact absurd h3 (by decide)
  · intro h
    have h3 := h ⟨99, 50, 1 / 2, 0, 0⟩
    rw [h1] at h3
    simp only [] at h3
    rw [if_pos (by norm_num), h2d] at h3
    exact absurd h3 (by decide)

/-- Claim C14. For every `ImageStats s`, with `b` the suggested brightness: the suggested
shadows are `clamp(20 + b/2, 0, 50)` if `s.darkPixels > 40` and 0 otherwise, the suggested
highlights are `clamp(-15 + b/2, -50, 0)` if `s.brightPixels > 30` and 0 otherwise (`b/2`
the C++ integer division, truncating towards zero), and hue, gamma, temperature and exposure
are left at identity (0, 1.0, 0, 0); the shadows lie in 0..50 and the highlights in -50..0. -/
theorem suggestEnhancements_shadows_highlights (s : ImageStats) :
    (suggestEnhancements s).shadows =
      (if s.darkPixels > 40 then qBound 0 (20 + cdiv (suggestEnhancements s).brightness 2) 50
        else 0) ∧
    (suggestEnhancements s).highlights =
      (if s.brightPixels > 30 then qBound (-50) (-15 + cdiv (suggestEnhancements s).brightness 2) 0
        else 0) ∧
    (suggestEnhancements s).hue = 0 ∧ (suggestEnhancements s).gamma = 1 ∧
    (suggestEnhancements s).temperature = 0 ∧ (suggestEnhancements s).exposure = 0 ∧
    (0 ≤ (suggestEnhancements s).shadows ∧ (suggestEnhancements s).shadows ≤ 50) ∧
    (-50 ≤ (suggestEnhancements s).highlights ∧ (suggestEnhancements s).highlights ≤ 0) := by
  have hs : (suggestEnhancements s).shadows =
      (if s.darkPixels > 40 then qBound 0 (20 + cdiv (suggestEnhancements s).brightness 2) 50
        else 0) := rfl
  have hh : (suggestEnhancements s).highlights =
      (if s.brightPixels > 30 then qBound (-50) (-15 + cdiv (suggestEnhancements s).brightness 2) 0
        else 0) := rfl
  refine ⟨hs, hh, rfl, rfl, rfl, rfl, ?_, ?_⟩
  · rw [hs]
    split_ifs
    · rw [qBound_int]; split_ifs <;> omega
    · omega
  · rw [hh]
    split_ifs
    · rw [qBound_int]; split_ifs <;> omega
    · omega

/-! ## Image statistics -/

theorem forLoop_const {σ : Type} (lo hi : Int) (f : σ → σ) (s : σ) :
    forLoop lo hi (fun _ acc => f acc) s = f^[(hi - lo).toNat] s :=
  forLoop_invariant (fun n acc => acc = f^[n] s) lo hi (fun _ acc => f acc) s rfl
    (by intro i acc _ hacc; rw [hacc, Function.iterate_succ_apply'])

/-- The accumulators of `analyzeImage` after visiting `n` pixels of one colour. -/
theorem AnalyzeAcc.visit_iterate (c : QColor) (n : Nat) :
    (fun acc : AnalyzeAcc => acc.visit c)^[n] ⟨0, 0, 0, 0, []⟩ =
      ⟨(fun t => dadd t (brightnessOf c))^[n] 0, (fun t => dadd t c.toHsv.saturationF)^[n] 0,
        if brightnessOf c < 64 then n else 0, if brightnessOf c > 192 then n else 0,
        List.replicate n (brightnessOf c)⟩ := by
  induction n with
  | zero => simp
  | succ k ih =>
    rw [Function.iterate_succ_apply', ih]
    simp only [AnalyzeAcc.visit, AnalyzeAcc.mk.injEq]
    refine ⟨by rw [Function.iterate_succ_apply'], by rw [Function.iterate_succ_apply'], ?_, ?_,
      ?_⟩
    · split_ifs <;> simp
    · split_ifs <;> simp
    · rw [List.replicate_succ']

/-- The pixel loop of `analyzeImage` on a raster of one colour. -/
theorem analyzeImage_loop_uniform (w h : Nat) (c : QColor) :
    forLoop 0 (QImage.uniform w h c).height (fun y acc =>
      forLoop 0 (QImage.uniform w h c).width (fun x (acc : AnalyzeAcc) =>
        acc.visit ((QImage.uniform w h c).pixelColor x y)) acc) (⟨0, 0, 0, 0, []⟩ : AnalyzeAcc) =
      ⟨(fun t => dadd t (brightnessOf c))^[w * h] 0,
        (fun t => dadd t c.toHsv.saturationF)^[w * h] 0,
        if brightnessOf c < 64 then ((w * h : Nat) : Int) else 0,
        if brightnessOf c > 192 then ((w * h : Nat) : Int) else 0,
        List.replicate (w * h) (brightnessOf c)⟩ := by
  have hinner : ∀ (y : Int) (acc : AnalyzeAcc),
      forLoop 0 (QImage.uniform w h c).width (fun x (acc : AnalyzeAcc) =>
        acc.visit ((QImage.uniform w h c).pixelColor x y)) acc
      = (fun acc : AnalyzeAcc => acc.visit c)^[w] acc := by
    intro y acc
    have := forLoop_const 0 ((QImage.uniform w h c).width : Int) (fun acc : AnalyzeAcc => acc.visit c) acc
    simpa [QImage.uniform, QImage.pixelColor] using this
  simp only [hinner]
  rw [forLoop_const 0 _ ((fun acc : AnalyzeAcc => acc.visit c)^[w])]
  have hh : (((QImage.uniform w h c).height : Int) - 0).toNat = h := by
    simp [QImage.uniform]
  rw [hh, ← Function.iterate_mul, AnalyzeAcc.visit_iterate]

/-- The statistics that `analyzeImage` returns for a non-null raster of one colour, before
any arithmetic on them is carried out. -/
theorem analyzeImage_uniform (qSqrt : ℚ → ℚ) (w h : Nat) (c : QColor) (hw : 0 < w) (hh : 0 < h) :
    (analyzeImage qSqrt (QImage.uniform w h c)).averageBrightness =
      ddiv ((fun t => dadd t (brightnessOf c))^[w * h] 0)
        ((wrapInt32 ((w : Int) * (h : Int)) : Int) : ℚ) ∧
    (analyzeImage qSqrt (QImage.uniform w h c)).darkPixels =
      cdiv (wrapInt32 ((if brightnessOf c < 64 then ((w * h : Nat) : Int) else 0) * 100))
        (wrapInt32 ((w : Int) * (h : Int))) ∧
    (analyzeImage qSqrt (QImage.uniform w h c)).brightPixels =
      cdiv (wrapInt32 ((if brightnessOf c > 192 then ((w * h : Nat) : Int) else 0) * 100))
        (wrapInt32 ((w : Int) * (h : Int))) := by
  have hnull : (QImage.uniform w h c).isNull = false := by
    simp [QImage.isNull, QImage.uniform]
    omega
  unfold analyzeImage
  rw [hnull]
  simp only [Bool.false_eq_true, if_false, analyzeImage_loop_uniform]
  exact ⟨rfl, rfl, rfl⟩

theorem wrapInt32_of_small (v : Int) (h0 : -2147483648 ≤ v) (h1 : v < 2147483648) :
    wrapInt32 v = v := by
  unfold wrapInt32
  omega

theorem brightnessOf_black (a : Channel) : brightnessOf ⟨0, 0, 0, a⟩ = 0 := by
  have h0 : ((0 : Channel).val : Int) = 0 := rfl
  simp only [brightnessOf, QColor.red, QColor.green, QColor.blue, h0, Int.cast_zero, dmul_zero,
    dadd, add_zero, toDouble_zero]

/-- Adding the `double` 0 any number of times to the `double` 0 gives 0. -/
theorem dadd_zero_iterate (n : Nat) : (fun t => dadd t 0)^[n] 0 = 0 := by
  apply Function.iterate_fixed
  unfold dadd
  rw [add_zero, toDouble_zero]

theorem suggestEnhancements_of_dark (s : ImageStats) (havg : s.averageBrightness = 0) :
    (suggestEnhancements s).brightness = 69 ∧
    (suggestEnhancements s).shadows = if s.darkPixels > 40 then 50 else 0 := by
  have hb : (suggestEnhancements s).brightness = 69 := by
    show (if s.averageBrightness < 100 then
        qBound (-100) (castInt (dmul (dsub 115 s.averageBrightness) (toDouble (6 / 10)))) 100
      else if s.averageBrightness > 155 then
        qBound (-100) (castInt (dmul (dsub 140 s.averageBrightness) (toDouble (6 / 10)))) 100
      else 0) = 69
    rw [havg, if_pos (by norm_num)]
    decide!
  refine ⟨hb, ?_⟩
  show (if s.darkPixels > 40 then qBound 0 (20 + cdiv (suggestEnhancements s).brightness 2) 50
      else 0) = _
  rw [hb]
  split_ifs
  · decide
  · rfl

/-- For an all-black raster small enough that `100 * width * height` fits a 32-bit `int`
(at most 21,474,836 pixels), `analyzeImage` returns `averageBrightness = 0`,
`darkPixels = 100` and `brightPixels = 0`, and `suggestEnhancements` then returns
`brightness = 69` and `shadows = 50`. -/
theorem analyzeImage_black_small (qSqrt : ℚ → ℚ) (w h : Nat) (a : Channel) (hw : 0 < w)
    (hh : 0 < h) (hsmall : 100 * (w * h) < 2147483648) :
    (analyzeImage qSqrt (QImage.uniform w h ⟨0, 0, 0, a⟩)).averageBrightness = 0 ∧
    (analyzeImage qSqrt (QImage.uniform w h ⟨0, 0, 0, a⟩)).darkPixels = 100 ∧
    (analyzeImage qSqrt (QImage.uniform w h ⟨0, 0, 0, a⟩)).brightPixels = 0 ∧
    (suggestEnhancements (analyzeImage qSqrt (QImage.uniform w h ⟨0, 0, 0, a⟩))).brightness = 69 ∧
    (suggestEnhancements (analyzeImage qSqrt (QImage.uniform w h ⟨0, 0, 0, a⟩))).shadows = 50 := by
  obtain ⟨h1, h2, h3⟩ := analyzeImage_uniform qSqrt w h ⟨0, 0, 0, a⟩ hw hh
  rw [brightnessOf_black] at h1 h2 h3
  have hN : 0 < w * h := Nat.mul_pos hw hh
  have hNi : ((w * h : Nat) : Int) = (w : Int) * (h : Int) := by push_cast; ring
  have e1 : (analyzeImage qSqrt (QImage.uniform w h ⟨0, 0, 0, a⟩)).averageBrightness = 0 := by
    rw [h1, dadd_zero_iterate, zero_ddiv]
  have e2 : (analyzeImage qSqrt (QImage.uniform w h ⟨0, 0, 0, a⟩)).darkPixels = 100 := by
    rw [h2, if_pos (by norm_num), hNi,
      wrapInt32_of_small ((w : Int) * (h : Int) * 100) (by rw [← hNi]; omega) (by rw [← hNi]; omega),
      wrapInt32_of_small ((w : Int) * (h : Int)) (by rw [← hNi]; omega) (by rw [← hNi]; omega)]
    unfold cdiv
    rw [Int.tdiv_eq_ediv (by rw [← hNi]; omega) (by rw [← hNi]; omega)]
    exact Int.mul_ediv_cancel_left 100 (by rw [← hNi]; omega)
  have e3 : (analyzeImage qSqrt (QImage.uniform w h ⟨0, 0, 0, a⟩)).brightPixels = 0 := by
    rw [h3, if_neg (by norm_num)]
    simp [cdiv, wrapInt32]
  obtain ⟨s1, s2⟩ := suggestEnhancements_of_dark _ e1
  refine ⟨e1, e2, e3, s1, ?_⟩
  rw [s2, e2]
  rfl

/-- Claim C13, at the failing input. On the all-black 5000x5000 raster the `int` product
`darkCount * 100 = 2,500,000,000` wraps to -1,794,967,296, so `analyzeImage` returns
`darkPixels = -71` instead of 100 (with `averageBrightness = 0` and `brightPixels = 0` as
claimed), and `suggestEnhancements` then returns `brightness = 69` but `shadows = 0` instead
of 50. -/
theorem analyzeImage_black_overflow (qSqrt : ℚ → ℚ) :
    (analyzeImage qSqrt (QImage.uniform 5000 5000 ⟨0, 0, 0, 255⟩)).averageBrightness = 0 ∧
    (analyzeImage qSqrt (QImage.uniform 5000 5000 ⟨0, 0, 0, 255⟩)).darkPixels = -71 ∧
    (analyzeImage qSqrt (QImage.uniform 5000 5000 ⟨0, 0, 0, 255⟩)).brightPixels = 0 ∧
    (suggestEnhancements
      (analyzeImage qSqrt (QImage.uniform 5000 5000 ⟨0, 0, 0, 255⟩))).brightness = 69 ∧
    (suggestEnhancements
      (analyzeImage qSqrt (QImage.uniform 5000 5000 ⟨0, 0, 0, 255⟩))).shadows = 0 := by
  obtain ⟨h1, h2, h3⟩ := analyzeImage_uniform qSqrt 5000 5000 ⟨0, 0, 0, 255⟩ (by decide) (by decide)
  rw [brightnessOf_black] at h1 h2 h3
  have e1 : (analyzeImage qSqrt (QImage.uniform 5000 5000 ⟨0, 0, 0, 255⟩)).averageBrightness
      = 0 := by
    rw [h1, dadd_zero_iterate, zero_ddiv]
  have e2 : (analyzeImage qSqrt (QImage.uniform 5000 5000 ⟨0, 0, 0, 255⟩)).darkPixels = -71 := by
    rw [h2, if_pos (by norm_num)]
    decide
  have e3 : (analyzeImage qSqrt (QImage.uniform 5000 5000 ⟨0, 0, 0, 255⟩)).brightPixels = 0 := by
    rw [h3, if_neg (by norm_num)]
    decide
  obtain ⟨s1, s2⟩ := suggestEnhancements_of_dark _ e1
  refine ⟨e1, e2, e3, s1, ?_⟩
  rw [s2, e2]
  rfl

/-- Claim C15, at the failing input. On the all-white 6000x4000 raster (24,000,000 pixels,
all of them bright) the `int` product `brightCount * 100 = 2,400,000,000` wraps to
-1,894,967,296, so `analyzeImage` returns `brightPixels = -78`, outside 0..100, where
`floor(100 * B / N)` is 100; `darkPixels` is 0. -/
theorem analyzeImage_white_overflow (qSqrt : ℚ → ℚ) :
    (analyzeImage qSqrt (QImage.uniform 6000 4000 ⟨255, 255, 255, 255⟩)).brightPixels = -78 ∧
    (analyzeImage qSqrt (QImage.uniform 6000 4000 ⟨255, 255, 255, 255⟩)).darkPixels = 0 ∧
    (100 * 24000000 / 24000000 : Int) = 100 := by
  obtain ⟨_, h2, h3⟩ := analyzeImage_uniform qSqrt 6000 4000 ⟨255, 255, 255, 255⟩
    (by decide) (by decide)
  have hb : brightnessOf ⟨255, 255, 255, 255⟩ = 255 := by decide!
  rw [hb] at h2 h3
  refine ⟨?_, ?_, by decide⟩
  · rw [h3, if_pos (by norm_num)]
    decide
  · rw [h2, if_neg (by norm_num)]
    decide

/-! ## Histogram -/

/-- A weighted channel of the brightness sum: the `double` product of a weight in 0..1 and a
channel value is non-negative and at most the sixteenth above the exact bound `K`. -/
theorem dmul_weight_bounds (k r : ℚ) (a : Int) (hk0 : 0 ≤ k) (hr0 : 0 ≤ r) (hr : r ≤ 255)
    (ha : k * 255 ≤ (a : ℚ) / 16) (ha1 : (a : ℚ) ≤ 4096) :
    0 ≤ dmul k r ∧ dmul k r ≤ (a : ℚ) / 16 := by
  have p16 : pow2 (-4) = 1 / 16 := by decide!
  have p49 : pow2 (-4 + 53) = 562949953421312 := by decide!
  have hkr : k * r ≤ k * 255 := mul_le_mul_of_nonneg_left hr hk0
  have h0 : 0 ≤ k * r := mul_nonneg hk0 hr0
  refine ⟨toDouble_nonneg _ h0, ?_⟩
  have := toDouble_le_of_dyadic (k * r) a (-4) (by decide)
    (by rw [p49, abs_lt]; constructor <;> linarith) (by rw [p16]; linarith)
  rw [p16] at this
  unfold dmul
  linarith

/-- The sum of two bounded non-negative `double` values plus rounding stays under the same
sixteenth-grid bound. -/
theorem dadd_grid_bounds (u v : ℚ) (a b : Int) (hu0 : 0 ≤ u) (hv0 : 0 ≤ v)
    (hu : u ≤ (a : ℚ) / 16) (hv : v ≤ (b : ℚ) / 16) (hab : (a : ℚ) + b ≤ 4096) :
    0 ≤ dadd u v ∧ dadd u v ≤ ((a + b : Int) : ℚ) / 16 := by
  have p16 : pow2 (-4) = 1 / 16 := by decide!
  have p49 : pow2 (-4 + 53) = 562949953421312 := by decide!
  have h0 : 0 ≤ u + v := add_nonneg hu0 hv0
  refine ⟨toDouble_nonneg _ h0, ?_⟩
  have := toDouble_le_of_dyadic (u + v) (a + b) (-4) (by decide)
    (by rw [p49, abs_lt]; constructor <;> linarith)
    (by rw [p16]; push_cast; linarith)
  rw [p16] at this
  unfold dadd
  linarith

/-- The brightness of a colour, computed in `double`, lies in 0..255.0625. -/
theorem brightnessOf_bounds (c : QColor) : 0 ≤ brightnessOf c ∧ brightnessOf c < 256 := by
  have hb := c.channel_bounds
  have hr0 : (0 : ℚ) ≤ (c.red : ℚ) := by exact_mod_cast hb.1
  have hg0 : (0 : ℚ) ≤ (c.green : ℚ) := by exact_mod_cast hb.2.2.1
  have hb0 : (0 : ℚ) ≤ (c.blue : ℚ) := by exact_mod_cast hb.2.2.2.2.1
  have hr : (c.red : ℚ) ≤ 255 := by exact_mod_cast hb.2.1
  have hg : (c.green : ℚ) ≤ 255 := by exact_mod_cast hb.2.2.2.1
  have hbl : (c.blue : ℚ) ≤ 255 := by exact_mod_cast hb.2.2.2.2.2.1
  have m1 := dmul_weight_bounds (toDouble (299 / 1000)) c.red 1220 (by decide!) hr0 hr
    (by decide!) (by norm_num)
  have m2 := dmul_weight_bounds (toDouble (587 / 1000)) c.green 2395 (by decide!) hg0 hg
    (by decide!) (by norm_num)
  have m3 := dmul_weight_bounds (toDouble (114 / 1000)) c.blue 466 (by decide!) hb0 hbl
    (by decide!) (by norm_num)
  have s1 := dadd_grid_bounds _ _ 1220 2395 m1.1 m2.1 m1.2 m2.2 (by norm_num)
  have s2 := dadd_grid_bounds _ _ (1220 + 2395) 466 s1.1 m3.1 s1.2 m3.2 (by norm_num)
  unfold brightnessOf
  refine ⟨s2.1, lt_of_le_of_lt s2.2 (by norm_num)⟩

/-- The integer brightness of a colour, the bucket index of the histogram, lies in 0..255. -/
theorem castInt_brightnessOf_bounds (c : QColor) :
    0 ≤ castInt (brightnessOf c) ∧ castInt (brightnessOf c) ≤ 255 := by
  obtain ⟨h0, h1⟩ := brightnessOf_bounds c
  unfold castInt
  rw [if_pos h0]
  constructor
  · exact Int.floor_nonneg.2 h0
  · have : ⌊brightnessOf c⌋ < 256 := Int.floor_lt.2 (by exact_mod_cast h1)
    omega

/-- Incrementing one valid bucket keeps 256 non-negative counts and adds one to their sum. -/
theorem histogram_increment (hist : List Int) (i : Nat) (hi : i < 256)
    (hlen : hist.length = 256) (hnn : ∀ c ∈ hist, 0 ≤ c) :
    (hist.set i (hist.getD i 0 + 1)).length = 256 ∧
    (∀ c ∈ hist.set i (hist.getD i 0 + 1), 0 ≤ c) ∧
    (hist.set i (hist.getD i 0 + 1)).sum = hist.sum + 1 := by
  have hil : i < hist.length := by omega
  refine ⟨by rw [List.length_set]; exact hlen, ?_, ?_⟩
  · intro c hc
    rcases List.mem_or_eq_of_mem_set hc with h | h
    · exact hnn c h
    · rw [h, List.getD_eq_getElem _ _ hil]
      have := hnn hist[i] (List.getElem_mem hil)
      omega
  · rw [List.sum_set', dif_pos hil, List.getD_eq_getElem _ _ hil]
    omega

/-- Incrementing bucket `i` adds one to the count read at `i` and leaves the others. -/
theorem histogram_increment_getD (hist : List Int) (i k : Nat) (hi : i < hist.length) :
    (hist.set i (hist.getD i 0 + 1)).getD k 0 = hist.getD k 0 + if i = k then 1 else 0 := by
  by_cases hik : i = k
  · subst hik
    rw [if_pos rfl, List.getD_eq_getElem _ _ (by rw [List.length_set]; exact hi),
      List.getElem_set_self]
  · rw [if_neg hik, add_zero, List.getD_eq_getElem?_getD, List.getElem?_set_ne hik,
      List.getD_eq_getElem?_getD]

/-- The buckets of `calculateHistogram`: bucket `k` counts the pixels whose integer
brightness is `k`. -/
theorem histogram_bucket_count (image : QImage) (k : Nat) :
    (calculateHistogram image).getD k 0 =
      (countPixels image (fun c => decide (castInt (brightnessOf c) = (k : Int))) : Nat) := by
  unfold calculateHistogram countPixels
  by_cases hn : image.isNull = true
  · rw [if_pos hn]
    simp only [QImage.isNull, Bool.or_eq_true, beq_iff_eq] at hn
    have h0 : (List.replicate 256 (0 : Int)).getD k 0 = 0 := by
      rw [List.getD_eq_getElem?_getD, List.getElem?_replicate]
      split_ifs <;> rfl
    rw [h0]
    rcases hn with h | h <;> rw [h] <;> simp
  · rw [if_neg hn]
    have outer := forLoop_invariant
      (fun (j : Nat) (hist : List Int) => hist.length = 256 ∧
        hist.getD k 0 = ((((List.range j).map fun (y : Nat) =>
          ((List.range image.width).filter fun (x : Nat) =>
            decide (castInt (brightnessOf (image.data x y)) = (k : Int))).length).sum : Nat)
              : Int))
      0 image.height (fun y histogram =>
        forLoop 0 image.width (fun x (histogram : List Int) =>
          let color := image.pixelColor x y
          let brightness := castInt (brightnessOf color)
          histogram.set brightness.toNat (histogram.getD brightness.toNat 0 + 1)) histogram)
      (List.replicate 256 0)
      (by
        refine ⟨List.length_replicate _ _, ?_⟩
        rw [List.getD_eq_getElem?_getD, List.getElem?_replicate]
        split_ifs <;> rfl)
      (by
        intro j hist _ ⟨hlen, hcount⟩
        have inner := forLoop_invariant
          (fun (i : Nat) (hist' : List Int) => hist'.length = 256 ∧
            hist'.getD k 0 = hist.getD k 0 + ((((List.range i).filter fun (x : Nat) =>
              decide (castInt (brightnessOf (image.data x j)) = (k : Int))).length : Nat) : Int))
          0 image.width (fun x (histogram : List Int) =>
            let color := image.pixelColor x (0 + (j : Int))
            let brightness := castInt (brightnessOf color)
            histogram.set brightness.toNat (histogram.getD brightness.toNat 0 + 1)) hist
          ⟨hlen, by simp⟩
          (by
            intro i hist' _ ⟨hlen', hcount'⟩
            have hb := castInt_brightnessOf_bounds (image.data i j)
            refine ⟨by simp only [QImage.pixelColor, zero_add, List.length_set]; exact hlen', ?_⟩
            simp only [QImage.pixelColor, zero_add]
            rw [histogram_increment_getD _ _ _ (by omega), hcount', List.range_succ,
              List.filter_append, List.length_append]
            by_cases hc : castInt (brightnessOf (image.data i j)) = (k : Int)
            · have : (castInt (brightnessOf (image.data i j))).toNat = k := by omega
              rw [if_pos this]
              simp [hc]
              ring
            · have : ¬ (castInt (brightnessOf (image.data i j))).toNat = k := by omega
              rw [if_neg this]
              simp [hc])
        obtain ⟨i1, i2⟩ := inner
        have hwn : ((image.width : Int) - 0).toNat = image.width := by omega
        rw [hwn] at i2
        refine ⟨i1, ?_⟩
        rw [i2, hcount, List.range_succ, List.map_append, List.sum_append]
        simp)
    have hhn : ((image.height : Int) - 0).toNat = image.height := by omega
    rw [hhn] at outer
    exact outer.2

/-- The histogram has 256 non-negative counts whose sum is the number of pixels. -/
theorem histogram_total_count (image : QImage) :
    (calculateHistogram image).length = 256 ∧
    (∀ c ∈ calculateHistogram image, 0 ≤ c) ∧
    (calculateHistogram image).sum = ((image.width * image.height : Nat) : Int) := by
  unfold calculateHistogram
  by_cases hn : image.isNull = true
  · rw [if_pos hn]
    refine ⟨List.length_replicate _ _, ?_, ?_⟩
    · intro c hc
      rw [List.eq_of_mem_replicate hc]
    · simp only [QImage.isNull, Bool.or_eq_true, beq_iff_eq] at hn
      rw [List.sum_replicate, smul_zero]
      rcases hn with h | h <;> rw [h] <;> simp
  · rw [if_neg hn]
    have outer := forLoop_invariant
      (fun (j : Nat) (hist : List Int) => hist.length = 256 ∧ (∀ c ∈ hist, 0 ≤ c) ∧
        hist.sum = ((j * image.width : Nat) : Int))
      0 image.height (fun y histogram =>
        forLoop 0 image.width (fun x (histogram : List Int) =>
          let color := image.pixelColor x y
          let brightness := castInt (brightnessOf color)
          histogram.set brightness.toNat (histogram.getD brightness.toNat 0 + 1)) histogram)
      (List.replicate 256 0)
      (by
        refine ⟨List.length_replicate _ _, ?_, ?_⟩
        · intro c hc
          rw [List.eq_of_mem_replicate hc]
        · rw [List.sum_replicate, smul_zero, Nat.zero_mul]
          rfl)
      (by
        intro j hist _ ⟨hlen, hnn, hsum⟩
        have inner := forLoop_invariant
          (fun (i : Nat) (hist' : List Int) => hist'.length = 256 ∧ (∀ c ∈ hist', 0 ≤ c) ∧
            hist'.sum = ((j * image.width + i : Nat) : Int))
          0 image.width (fun x (histogram : List Int) =>
            let color := image.pixelColor x (0 + (j : Int))
            let brightness := castInt (brightnessOf color)
            histogram.set brightness.toNat (histogram.getD brightness.toNat 0 + 1)) hist
          ⟨hlen, hnn, by simpa using hsum⟩
          (by
            intro i hist' _ ⟨hlen', hnn', hsum'⟩
            have hb := castInt_brightnessOf_bounds (image.pixelColor (0 + (i : Int)) (0 + (j : Int)))
            obtain ⟨s1, s2, s3⟩ := histogram_increment hist'
              (castInt (brightnessOf (image.pixelColor (0 + (i : Int)) (0 + (j : Int))))).toNat
              (by omega) hlen' hnn'
            refine ⟨s1, s2, ?_⟩
            rw [s3, hsum']
            push_cast
            ring)
        obtain ⟨i1, i2, i3⟩ := inner
        refine ⟨i1, i2, ?_⟩
        rw [i3]
        have : ((image.width : Int) - 0).toNat = image.width := by omega
        rw [this]
        push_cast
        ring)
    obtain ⟨o1, o2, o3⟩ := outer
    refine ⟨o1, o2, ?_⟩
    rw [o3]
    have : ((image.height : Int) - 0).toNat = image.height := by omega
    rw [this, Nat.mul_comm]

/-- Claim C16, as amended. For every raster, `calculateHistogram` returns 256 non-negative
counts whose sum is `width * height`, and bucket `k` holds the number of pixels whose integer
brightness is `k`, so every pixel is counted in exactly one bucket. The integer brightness of
a colour is the truncation of the `double` value of `0.299 * R + 0.587 * G + 0.114 * B`,
every product and sum rounded to the nearest `double`; it is the floor of that `double`
value and lies in 0..255, so the bucket index is never out of range. -/
theorem calculateHistogram_sum (image : QImage) :
    (calculateHistogram image).length = 256 ∧
    (∀ c ∈ calculateHistogram image, 0 ≤ c) ∧
    (calculateHistogram image).sum = ((image.width * image.height : Nat) : Int) ∧
    (∀ color : QColor, 0 ≤ castInt (brightnessOf color) ∧ castInt (brightnessOf color) ≤ 255 ∧
      castInt (brightnessOf color) = ⌊brightnessOf color⌋) ∧
    (∀ k : Nat, (calculateHistogram image).getD k 0 =
      (countPixels image (fun c => decide (castInt (brightnessOf c) = (k : Int))) : Nat)) := by
  obtain ⟨h1, h2, h3⟩ := histogram_total_count image
  refine ⟨h1, h2, h3, ?_, histogram_bucket_count image⟩
  intro color
  have h := castInt_brightnessOf_bounds color
  refine ⟨h.1, h.2, ?_⟩
  unfold castInt
  rw [if_pos (brightnessOf_bounds color).1]

/-- Claim C16, refuted as stated: the bucket index is not the floor of the exact sum
`0.299 R + 0.587 G + 0.114 B`. For the gray (128,128,128) the exact sum is 128, the `double`
sum is 128 - 2^-46 (printed 127.99999999999999), and the only pixel of the 1x1 raster of
that colour is counted in bucket 127, not 128. -/
theorem calculateHistogram_gray_128 :
    ⌊(299 / 1000 * 128 + 587 / 1000 * 128 + 114 / 1000 * 128 : ℚ)⌋ = 128 ∧
    brightnessOf ⟨128, 128, 128, 255⟩ = 128 - 1 / 2 ^ 46 ∧
    castInt (brightnessOf ⟨128, 128, 128, 255⟩) = 127 ∧
    (calculateHistogram (QImage.uniform 1 1 ⟨128, 128, 128, 255⟩)).getD 127 0 = 1 ∧
    (calculateHistogram (QImage.uniform 1 1 ⟨128, 128, 128, 255⟩)).getD 128 0 = 0 := by
  decide!

/-! ## Brightness, shadows and highlights pixel by pixel -/

theorem QImage.no_pixel_of_isNull (image : QImage) (hn : image.isNull = true) (x y : Int) :
    ¬ (0 ≤ x ∧ x < (image.width : Int) ∧ 0 ≤ y ∧ y < (image.height : Int)) := by
  simp only [QImage.isNull, Bool.or_eq_true, beq_iff_eq] at hn
  omega

/-- Claim C17. For every raster `R` and integer `b`, `adjustBrightness(R, b)` has the
dimensions of `R` and each pixel's red, green and blue equal
`clamp(c + clamp(b, -100, 100), 0, 255)` with alpha unchanged; a 2x2 raster of
(128,128,128) with `b = 50` becomes all (178,178,178), and undoing the `BrightnessCommand`
restores the raster, here (128,128,128). -/
theorem adjustBrightness_spec (R : QImage) (b : Int) :
    (adjustBrightness R b).width = R.width ∧
    (adjustBrightness R b).height = R.height ∧
    (∀ x y : Int, (adjustBrightness R b).data x y =
      if 0 ≤ x ∧ x < (R.width : Int) ∧ 0 ≤ y ∧ y < (R.height : Int) then
        QColor.rgba (qBound 0 ((R.data x y).red + qBound (-100) b 100) 255)
          (qBound 0 ((R.data x y).green + qBound (-100) b 100) 255)
          (qBound 0 ((R.data x y).blue + qBound (-100) b 100) 255) (R.data x y).alpha
      else R.data x y) ∧
    (∀ x y : Int, 0 ≤ x → x < (R.width : Int) → 0 ≤ y → y < (R.height : Int) →
      ((adjustBrightness R b).data x y).red
        = qBound 0 ((R.data x y).red + qBound (-100) b 100) 255 ∧
      ((adjustBrightness R b).data x y).green
        = qBound 0 ((R.data x y).green + qBound (-100) b 100) 255 ∧
      ((adjustBrightness R b).data x y).blue
        = qBound 0 ((R.data x y).blue + qBound (-100) b 100) 255 ∧
      ((adjustBrightness R b).data x y).a = (R.data x y).a) ∧
    (adjustBrightness (QImage.uniform 2 2 ⟨128, 128, 128, 255⟩) 50).toRows =
      [[⟨178, 178, 178, 255⟩, ⟨178, 178, 178, 255⟩],
       [⟨178, 178, 178, 255⟩, ⟨178, 178, 178, 255⟩]] ∧
    ((BrightnessCommand R b).redo R).2 = adjustBrightness R b ∧
    ((BrightnessCommand R b).redo R).1.undo ((BrightnessCommand R b).redo R).2 = R ∧
    (((BrightnessCommand (QImage.uniform 2 2 ⟨128, 128, 128, 255⟩) 50).redo
        (QImage.uniform 2 2 ⟨128, 128, 128, 255⟩)).1.undo
      ((BrightnessCommand (QImage.uniform 2 2 ⟨128, 128, 128, 255⟩) 50).redo
        (QImage.uniform 2 2 ⟨128, 128, 128, 255⟩)).2).toRows =
      [[⟨128, 128, 128, 255⟩, ⟨128, 128, 128, 255⟩],
       [⟨128, 128, 128, 255⟩, ⟨128, 128, 128, 255⟩]] := by
  have main : (adjustBrightness R b).width = R.width ∧
      (adjustBrightness R b).height = R.height ∧
      (∀ x y : Int, (adjustBrightness R b).data x y =
        if 0 ≤ x ∧ x < (R.width : Int) ∧ 0 ≤ y ∧ y < (R.height : Int) then
          QColor.rgba (qBound 0 ((R.data x y).red + qBound (-100) b 100) 255)
            (qBound 0 ((R.data x y).green + qBound (-100) b 100) 255)
            (qBound 0 ((R.data x y).blue + qBound (-100) b 100) 255) (R.data x y).alpha
        else R.data x y) := by
    unfold adjustBrightness
    by_cases hn : R.isNull = true
    · rw [if_pos hn]
      exact ⟨rfl, rfl, fun x y => by rw [if_neg (R.no_pixel_of_isNull hn x y)]⟩
    · rw [if_neg hn]
      exact forPixels_whole
        (fun _ _ c => QColor.rgba (qBound 0 (c.red + qBound (-100) b 100) 255)
          (qBound 0 (c.green + qBound (-100) b 100) 255)
          (qBound 0 (c.blue + qBound (-100) b 100) 255) c.alpha) _ R
        (fun x y r _ => rfl)
  obtain ⟨hw, hh, hd⟩ := main
  refine ⟨hw, hh, hd, ?_, by decide, rfl, rfl, by decide⟩
  intro x y hx0 hx1 hy0 hy1
  rw [hd x y, if_pos ⟨hx0, hx1, hy0, hy1⟩]
  simp only [QColor.rgba]
  refine ⟨?_, ?_, ?_, toChannel_val _⟩
  · exact toChannel_of_bounds _ (qBound_channel _).1 (qBound_channel _).2
  · exact toChannel_of_bounds _ (qBound_channel _).1 (qBound_channel _).2
  · exact toChannel_of_bounds _ (qBound_channel _).1 (qBound_channel _).2

/-- The result of `adjustShadows` pixel by pixel. -/
theorem adjustShadows_data (image : QImage) (v : Int) :
    (adjustShadows image v).width = image.width ∧
    (adjustShadows image v).height = image.height ∧
    ∀ x y : Int, (adjustShadows image v).data x y =
      if 0 ≤ x ∧ x < (image.width : Int) ∧ 0 ≤ y ∧ y < (image.height : Int) then
        (if luminance (image.data x y) < 1 / 2 then
          QColor.rgba
            (qBound 0 (castInt (dmul ((image.data x y).red : ℚ)
            (dadd 1 (dmul (ddiv ((qBound (-100) v 100 : Int) : ℚ) 100) (dsub 1 (dmul (luminance (image.data x y)) 2)))))) 255)
            (qBound 0 (castInt (dmul ((image.data x y).green : ℚ)
            (dadd 1 (dmul (ddiv ((qBound (-100) v 100 : Int) : ℚ) 100) (dsub 1 (dmul (luminance (image.data x y)) 2)))))) 255)
            (qBound 0 (castInt (dmul ((image.data x y).blue : ℚ)
            (dadd 1 (dmul (ddiv ((qBound (-100) v 100 : Int) : ℚ) 100) (dsub 1 (dmul (luminance (image.data x y)) 2)))))) 255)
            (image.data x y).alpha
        else image.data x y)
      else image.data x y := by
  unfold adjustShadows
  by_cases hn : image.isNull = true
  · rw [if_pos hn]
    refine ⟨rfl, rfl, fun x y => ?_⟩
    rw [if_neg (image.no_pixel_of_isNull hn x y)]
  · rw [if_neg hn]
    exact forPixels_whole
      (fun _ _ c =>
        if luminance c < 1 / 2 then
          QColor.rgba
            (qBound 0 (castInt (dmul (c.red : ℚ)
              (dadd 1 (dmul (ddiv ((qBound (-100) v 100 : Int) : ℚ) 100) (dsub 1 (dmul (luminance c) 2)))))) 255)
            (qBound 0 (castInt (dmul (c.green : ℚ)
              (dadd 1 (dmul (ddiv ((qBound (-100) v 100 : Int) : ℚ) 100) (dsub 1 (dmul (luminance c) 2)))))) 255)
            (qBound 0 (castInt (dmul (c.blue : ℚ)
              (dadd 1 (dmul (ddiv ((qBound (-100) v 100 : Int) : ℚ) 100) (dsub 1 (dmul (luminance c) 2)))))) 255)
            c.alpha
        else c) _ image
      (by
        intro x y r _
        simp only [QImage.pixelColor]
        split_ifs
        · rfl
        · exact (QImage.setPixelColor_self r x y).symm)

/-- The result of `adjustHighlights` pixel by pixel. -/
theorem adjustHighlights_data (image : QImage) (v : Int) :
    (adjustHighlights image v).width = image.width ∧
    (adjustHighlights image v).height = image.height ∧
    ∀ x y : Int, (adjustHighlights image v).data x y =
      if 0 ≤ x ∧ x < (image.width : Int) ∧ 0 ≤ y ∧ y < (image.height : Int) then
        (if luminance (image.data x y) > 1 / 2 then
          QColor.rgba
            (qBound 0 (castInt (dmul ((image.data x y).red : ℚ)
            (dsub 1 (dmul (ddiv ((qBound (-100) v 100 : Int) : ℚ) 100) (dsub (dmul (luminance (image.data x y)) 2) 1))))) 255)
            (qBound 0 (castInt (dmul ((image.data x y).green : ℚ)
            (dsub 1 (dmul (ddiv ((qBound (-100) v 100 : Int) : ℚ) 100) (dsub (dmul (luminance (image.data x y)) 2) 1))))) 255)
            (qBound 0 (castInt (dmul ((image.data x y).blue : ℚ)
            (dsub 1 (dmul (ddiv ((qBound (-100) v 100 : Int) : ℚ) 100) (dsub (dmul (luminance (image.data x y)) 2) 1))))) 255)
            (image.data x y).alpha
        else image.data x y)
      else image.data x y := by
  unfold adjustHighlights
  by_cases hn : image.isNull = true
  · rw [if_pos hn]
    refine ⟨rfl, rfl, fun x y => ?_⟩
    rw [if_neg (image.no_pixel_of_isNull hn x y)]
  · rw [if_neg hn]
    exact forPixels_whole
      (fun _ _ c =>
        if luminance c > 1 / 2 then
          QColor.rgba
            (qBound 0 (castInt (dmul (c.red : ℚ)
              (dsub 1 (dmul (ddiv ((qBound (-100) v 100 : Int) : ℚ) 100) (dsub (dmul (luminance c) 2) 1))))) 255)
            (qBound 0 (castInt (dmul (c.green : ℚ)
              (dsub 1 (dmul (ddiv ((qBound (-100) v 100 : Int) : ℚ) 100) (dsub (dmul (luminance c) 2) 1))))) 255)
            (qBound 0 (castInt (dmul (c.blue : ℚ)
              (dsub 1 (dmul (ddiv ((qBound (-100) v 100 : Int) : ℚ) 100) (dsub (dmul (luminance c) 2) 1))))) 255)
            c.alpha
        else c) _ image
      (by
        intro x y r _
        simp only [QImage.pixelColor]
        split_ifs
        · rfl
        · exact (QImage.setPixelColor_self r x y).symm)

/-- Claim C18, as amended. The luminance of a pixel is the `double` value of
`(0.299 * R + 0.587 * G + 0.114 * B) / 255.0`, every product, sum and the quotient rounded
to the nearest `double`. For every raster and every value `v`, with the `double`
`f = clamp(v, -100, 100) / 100.0`: `adjustShadows` rewrites exactly the pixels of luminance
below 0.5, multiplying each colour channel by the `double` `1 + f * (1 - luminance * 2)`,
and `adjustHighlights` exactly the pixels of luminance above 0.5, multiplying by the
`double` `1 - f * (luminance * 2 - 1)`, every operation rounded, the product truncated and
clamped to 0..255 and alpha kept. Hence `adjustShadows` leaves unchanged every pixel of
luminance at least 0.5, `adjustHighlights` every pixel of luminance at most 0.5, and a pixel
whose computed luminance is exactly 0.5 is changed by neither. -/
theorem adjustShadows_adjustHighlights_frame (image : QImage) (v : Int) :
    ((adjustShadows image v).width = image.width ∧
      (adjustShadows image v).height = image.height ∧
      (adjustHighlights image v).width = image.width ∧
      (adjustHighlights image v).height = image.height) ∧
    (∀ x y : Int, (adjustShadows image v).data x y =
      if (0 ≤ x ∧ x < (image.width : Int) ∧ 0 ≤ y ∧ y < (image.height : Int)) ∧
          luminance (image.data x y) < 1 / 2 then
        QColor.rgba
          (qBound 0 (castInt (dmul ((image.data x y).red : ℚ)
            (dadd 1 (dmul (ddiv ((qBound (-100) v 100 : Int) : ℚ) 100) (dsub 1 (dmul (luminance (image.data x y)) 2)))))) 255)
          (qBound 0 (castInt (dmul ((image.data x y).green : ℚ)
            (dadd 1 (dmul (ddiv ((qBound (-100) v 100 : Int) : ℚ) 100) (dsub 1 (dmul (luminance (image.data x y)) 2)))))) 255)
          (qBound 0 (castInt (dmul ((image.data x y).blue : ℚ)
            (dadd 1 (dmul (ddiv ((qBound (-100) v 100 : Int) : ℚ) 100) (dsub 1 (dmul (luminance (image.data x y)) 2)))))) 255)
          (image.data x y).alpha
      else image.data x y) ∧
    (∀ x y : Int, (adjustHighlights image v).data x y =
      if (0 ≤ x ∧ x < (image.width : Int) ∧ 0 ≤ y ∧ y < (image.height : Int)) ∧
          luminance (image.data x y) > 1 / 2 then
        QColor.rgba
          (qBound 0 (castInt (dmul ((image.data x y).red : ℚ)
            (dsub 1 (dmul (ddiv ((qBound (-100) v 100 : Int) : ℚ) 100) (dsub (dmul (luminance (image.data x y)) 2) 1))))) 255)
          (qBound 0 (castInt (dmul ((image.data x y).green : ℚ)
            (dsub 1 (dmul (ddiv ((qBound (-100) v 100 : Int) : ℚ) 100) (dsub (dmul (luminance (image.data x y)) 2) 1))))) 255)
          (qBound 0 (castInt (dmul ((image.data x y).blue : ℚ)
            (dsub 1 (dmul (ddiv ((qBound (-100) v 100 : Int) : ℚ) 100) (dsub (dmul (luminance (image.data x y)) 2) 1))))) 255)
          (image.data x y).alpha
      else image.data x y) ∧
    (∀ x y : Int, 1 / 2 ≤ luminance (image.data x y) →
      (adjustShadows image v).data x y = image.data x y) ∧
    (∀ x y : Int, luminance (image.data x y) ≤ 1 / 2 →
      (adjustHighlights image v).data x y = image.data x y) ∧
    (∀ x y : Int, luminance (image.data x y) = 1 / 2 →
      (adjustShadows image v).data x y = image.data x y ∧
      (adjustHighlights image v).data x y = image.data x y) ∧
    (∀ x y : Int, ((adjustShadows image v).data x y).a = (image.data x y).a ∧
      ((adjustHighlights image v).data x y).a = (image.data x y).a) := by
  obtain ⟨sw, sh, sd⟩ := adjustShadows_data image v
  obtain ⟨hw, hh, hd⟩ := adjustHighlights_data image v
  have hs : ∀ x y : Int, 1 / 2 ≤ luminance (image.data x y) →
      (adjustShadows image v).data x y = image.data x y := by
    intro x y hl
    rw [sd x y, if_neg (not_lt.2 hl)]
    split_ifs <;> rfl
  have hg : ∀ x y : Int, luminance (image.data x y) ≤ 1 / 2 →
      (adjustHighlights image v).data x y = image.data x y := by
    intro x y hl
    rw [hd x y, if_neg (not_lt.2 hl)]
    split_ifs <;> rfl
  refine ⟨⟨sw, sh, hw, hh⟩, ?_, ?_, hs, hg, fun x y hl => ⟨hs x y hl.ge, hg x y hl.le⟩, ?_⟩
  · intro x y
    rw [sd x y]
    by_cases hin : 0 ≤ x ∧ x < (image.width : Int) ∧ 0 ≤ y ∧ y < (image.height : Int)
    · by_cases hl : luminance (image.data x y) < 1 / 2
      · rw [if_pos hin, if_pos hl, if_pos ⟨hin, hl⟩]
      · rw [if_pos hin, if_neg hl, if_neg (fun h => hl h.2)]
    · rw [if_neg hin, if_neg (fun h => hin h.1)]
  · intro x y
    rw [hd x y]
    by_cases hin : 0 ≤ x ∧ x < (image.width : Int) ∧ 0 ≤ y ∧ y < (image.height : Int)
    · by_cases hl : luminance (image.data x y) > 1 / 2
      · rw [if_pos hin, if_pos hl, if_pos ⟨hin, hl⟩]
      · rw [if_pos hin, if_neg hl, if_neg (fun h => hl h.2)]
    · rw [if_neg hin, if_neg (fun h => hin h.1)]
  · intro x y
    constructor
    · rw [sd x y]
      split_ifs
      · exact toChannel_val _
      · rfl
      · rfl
    · rw [hd x y]
      split_ifs
      · exact toChannel_val _
      · rfl
      · rfl

/-- Claim C18, refuted as stated: the luminance that decides is the rounded one, and the
factors are rounded. For the colour (0,204,68) the exact value of
`(0.299 R + 0.587 G + 0.114 B) / 255` is 1/2, the `double` computed is 1/2 - 2^-54
(printed 0.49999999999999994), and `adjustShadows` at -100 changes the pixel to (0,203,67).
For white at highlights 80 the exact factor `1 - 0.8 * (2 * 1 - 1)` is 1/5 and the
truncated exact product is 51, but the `double` factor is 0.19999999999999996 and
`adjustHighlights` stores 50. -/
theorem adjustShadows_changes_exact_half :
    ((299 : ℚ) / 1000 * 0 + 587 / 1000 * 204 + 114 / 1000 * 68) / 255 = 1 / 2 ∧
    luminance ⟨0, 204, 68, 255⟩ = 1 / 2 - 1 / 2 ^ 54 ∧
    (adjustShadows (QImage.uniform 1 1 ⟨0, 204, 68, 255⟩) (-100)).data 0 0
      = ⟨0, 203, 67, 255⟩ ∧
    luminance ⟨255, 255, 255, 255⟩ = 1 ∧
    castInt ((255 : ℚ) * (1 - 80 / 100 * (1 * 2 - 1))) = 51 ∧
    dsub 1 (dmul (ddiv 80 100) (dsub (dmul 1 2) 1)) = 900719925474099 / 4503599627370496 ∧
    (adjustHighlights (QImage.uniform 1 1 ⟨255, 255, 255, 255⟩) 80).data 0 0
      = ⟨50, 50, 50, 255⟩ := by
  decide!

/-! ## Vignette -/

theorem qBound_unit (v : ℚ) : 0 ≤ qBound 0 v 1 ∧ qBound 0 v 1 ≤ 1 := by
  unfold qBound
  exact ⟨le_max_left _ _, max_le (by norm_num) (min_le_left _ _)⟩

/-- Scaling a channel by a factor in 0..1 in `double` and truncating stays between 0 and the
channel. -/
theorem castInt_scaled_bounds (c : Int) (f : ℚ) (hc : 0 ≤ c) (hc1 : c ≤ 255) (hf0 : 0 ≤ f)
    (hf1 : f ≤ 1) : 0 ≤ castInt (dmul (c : ℚ) f) ∧ castInt (dmul (c : ℚ) f) ≤ c := by
  have hcq : (0 : ℚ) ≤ (c : ℚ) := by exact_mod_cast hc
  have hcq1 : (c : ℚ) ≤ 255 := by exact_mod_cast hc1
  have h0 : (0 : ℚ) ≤ (c : ℚ) * f := mul_nonneg hcq hf0
  have h1 : (c : ℚ) * f ≤ (c : ℚ) := by nlinarith
  have p0 : pow2 0 = 1 := by decide!
  have p53 : pow2 (0 + 53) = 9007199254740992 := by decide!
  have d0 : 0 ≤ dmul (c : ℚ) f := toDouble_nonneg _ h0
  have d1 : dmul (c : ℚ) f ≤ (c : ℚ) := by
    have := toDouble_le_of_dyadic ((c : ℚ) * f) c 0 (by decide)
      (by rw [p53, abs_lt]; constructor <;> linarith) (by rw [p0, mul_one]; exact h1)
    rw [p0, mul_one] at this
    exact this
  unfold castInt
  rw [if_pos d0]
  exact ⟨Int.floor_nonneg.2 d0, Int.floor_le_iff.2 (by linarith)⟩

/-- The result of `applyVignette` pixel by pixel. -/
theorem applyVignette_data (qSqrt : ℚ → ℚ) (image : QImage) :
    (applyVignette qSqrt image).width = image.width ∧
    (applyVignette qSqrt image).height = image.height ∧
    ∀ x y : Int, (applyVignette qSqrt image).data x y =
      if 0 ≤ x ∧ x < (image.width : Int) ∧ 0 ≤ y ∧ y < (image.height : Int) then
        QColor.rgba
          (castInt (dmul ((image.data x y).red : ℚ) (qBound 0 (dsub 1 (ddiv
            (qSqrt (dadd
              (dmul ((x - cdiv image.width 2 : Int) : ℚ) ((x - cdiv image.width 2 : Int) : ℚ))
              (dmul ((y - cdiv image.height 2 : Int) : ℚ) ((y - cdiv image.height 2 : Int) : ℚ))))
            (ddiv ((min image.width image.height : Nat) : ℚ) 2))) 1)))
          (castInt (dmul ((image.data x y).green : ℚ) (qBound 0 (dsub 1 (ddiv
            (qSqrt (dadd
              (dmul ((x - cdiv image.width 2 : Int) : ℚ) ((x - cdiv image.width 2 : Int) : ℚ))
              (dmul ((y - cdiv image.height 2 : Int) : ℚ) ((y - cdiv image.height 2 : Int) : ℚ))))
            (ddiv ((min image.width image.height : Nat) : ℚ) 2))) 1)))
          (castInt (dmul ((image.data x y).blue : ℚ) (qBound 0 (dsub 1 (ddiv
            (qSqrt (dadd
              (dmul ((x - cdiv image.width 2 : Int) : ℚ) ((x - cdiv image.width 2 : Int) : ℚ))
              (dmul ((y - cdiv image.height 2 : Int) : ℚ) ((y - cdiv image.height 2 : Int) : ℚ))))
            (ddiv ((min image.width image.height : Nat) : ℚ) 2))) 1)))
          (image.data x y).alpha
      else image.data x y := by
  unfold applyVignette
  by_cases hn : image.isNull = true
  · rw [if_pos hn]
    refine ⟨rfl, rfl, fun x y => ?_⟩
    rw [if_neg (image.no_pixel_of_isNull hn x y)]
  · rw [if_neg hn]
    exact forPixels_whole
      (fun x y c => QColor.rgba
          (castInt (dmul (c.red : ℚ) (qBound 0 (dsub 1 (ddiv
            (qSqrt (dadd
              (dmul ((x - cdiv image.width 2 : Int) : ℚ) ((x - cdiv image.width 2 : Int) : ℚ))
              (dmul ((y - cdiv image.height 2 : Int) : ℚ) ((y - cdiv image.height 2 : Int) : ℚ))))
            (ddiv ((min image.width image.height : Nat) : ℚ) 2))) 1)))
          (castInt (dmul (c.green : ℚ) (qBound 0 (dsub 1 (ddiv
            (qSqrt (dadd
              (dmul ((x - cdiv image.width 2 : Int) : ℚ) ((x - cdiv image.width 2 : Int) : ℚ))
              (dmul ((y - cdiv image.height 2 : Int) : ℚ) ((y - cdiv image.height 2 : Int) : ℚ))))
            (ddiv ((min image.width image.height : Nat) : ℚ) 2))) 1)))
          (castInt (dmul (c.blue : ℚ) (qBound 0 (dsub 1 (ddiv
            (qSqrt (dadd
              (dmul ((x - cdiv image.width 2 : Int) : ℚ) ((x - cdiv image.width 2 : Int) : ℚ))
              (dmul ((y - cdiv image.height 2 : Int) : ℚ) ((y - cdiv image.height 2 : Int) : ℚ))))
            (ddiv ((min image.width image.height : Nat) : ℚ) 2))) 1)))
          c.alpha) _ image
      (fun x y r _ => rfl)

/-- In a raster narrower and lower than `2 ^ 26` the squared distance of a pixel from the
centre is computed without rounding. -/
theorem vignette_squared_distance (w h : Nat) (x y : Int) (hw : w < 2 ^ 26) (hh : h < 2 ^ 26)
    (hx0 : 0 ≤ x) (hx1 : x < (w : Int)) (hy0 : 0 ≤ y) (hy1 : y < (h : Int)) :
    dadd (dmul ((x - cdiv w 2 : Int) : ℚ) ((x - cdiv w 2 : Int) : ℚ))
        (dmul ((y - cdiv h 2 : Int) : ℚ) ((y - cdiv h 2 : Int) : ℚ))
      = (((x - cdiv w 2) * (x - cdiv w 2) + (y - cdiv h 2) * (y - cdiv h 2) : Int) : ℚ) ∧
    (x - cdiv w 2) * (x - cdiv w 2) + (y - cdiv h 2) * (y - cdiv h 2) < 2 ^ 53 := by
  have cw : cdiv w 2 = (w : Int) / 2 := by
    unfold cdiv
    exact Int.tdiv_eq_ediv (by omega) (by omega)
  have ch : cdiv h 2 = (h : Int) / 2 := by
    unfold cdiv
    exact Int.tdiv_eq_ediv (by omega) (by omega)
  have hw2 : (w : Int) < 2 ^ 26 := by exact_mod_cast hw
  have hh2 : (h : Int) < 2 ^ 26 := by exact_mod_cast hh
  norm_num at hw2 hh2
  have ha1 : -67108864 < x - cdiv w 2 := by rw [cw]; omega
  have ha2 : x - cdiv w 2 < 67108864 := by rw [cw]; omega
  have hb1 : -67108864 < y - cdiv h 2 := by rw [ch]; omega
  have hb2 : y - cdiv h 2 < 67108864 := by rw [ch]; omega
  generalize x - cdiv w 2 = a at ha1 ha2
  generalize y - cdiv h 2 = b at hb1 hb2
  have haa : a * a < 4503599627370496 := by nlinarith
  have hbb : b * b < 4503599627370496 := by nlinarith
  have haa0 : 0 ≤ a * a := mul_self_nonneg a
  have hbb0 : 0 ≤ b * b := mul_self_nonneg b
  have e1 : dmul (a : ℚ) (a : ℚ) = ((a * a : Int) : ℚ) := by
    unfold dmul
    rw [← Int.cast_mul]
    exact toDouble_intCast _ (by rw [abs_lt]; constructor <;> norm_num <;> omega)
  have e2 : dmul (b : ℚ) (b : ℚ) = ((b * b : Int) : ℚ) := by
    unfold dmul
    rw [← Int.cast_mul]
    exact toDouble_intCast _ (by rw [abs_lt]; constructor <;> norm_num <;> omega)
  refine ⟨?_, by norm_num; omega⟩
  rw [e1, e2]
  unfold dadd
  rw [← Int.cast_add]
  exact toDouble_intCast _ (by rw [abs_lt]; constructor <;> norm_num <;> omega)

/-- In a raster narrower and lower than `2 ^ 26`, a pixel whose exact squared distance from
the centre is at least the square of half the shorter side gets the vignette factor 0. -/
theorem vignette_factor_zero (image : QImage) (x y : Int)
    (hw : image.width < 2 ^ 26) (hh : image.height < 2 ^ 26)
    (hx0 : 0 ≤ x) (hx1 : x < (image.width : Int)) (hy0 : 0 ≤ y) (hy1 : y < (image.height : Int))
    (hfar : ((min image.width image.height : Nat) : ℚ) / 2
        * (((min image.width image.height : Nat) : ℚ) / 2)
      ≤ ((x - cdiv image.width 2 : Int) : ℚ) * ((x - cdiv image.width 2 : Int) : ℚ)
        + ((y - cdiv image.height 2 : Int) : ℚ) * ((y - cdiv image.height 2 : Int) : ℚ)) :
    (qBound 0 (dsub 1 (ddiv
            (dsqrt (dadd
              (dmul ((x - cdiv image.width 2 : Int) : ℚ) ((x - cdiv image.width 2 : Int) : ℚ))
              (dmul ((y - cdiv image.height 2 : Int) : ℚ) ((y - cdiv image.height 2 : Int) : ℚ))))
            (ddiv ((min image.width image.height : Nat) : ℚ) 2))) 1) = 0 := by
  obtain ⟨hsq, hlt⟩ := vignette_squared_distance image.width image.height x y hw hh hx0 hx1 hy0 hy1
  rw [hsq]
  have hm1 : 1 ≤ min image.width image.height := by
    simp only [Nat.le_min]
    omega
  have hm2 : min image.width image.height < 2 ^ 26 := lt_of_le_of_lt (Nat.min_le_left _ _) hw
  generalize min image.width image.height = m at hfar hm1 hm2
  have hmq1 : (1 : ℚ) ≤ (m : ℚ) := by exact_mod_cast hm1
  have hmq2 : (m : ℚ) < 67108864 := by exact_mod_cast hm2
  have hcast : (((x - cdiv image.width 2) * (x - cdiv image.width 2)
      + (y - cdiv image.height 2) * (y - cdiv image.height 2) : Int) : ℚ)
      = ((x - cdiv image.width 2 : Int) : ℚ) * ((x - cdiv image.width 2 : Int) : ℚ)
        + ((y - cdiv image.height 2 : Int) : ℚ) * ((y - cdiv image.height 2 : Int) : ℚ) := by
    push_cast
    ring
  rw [← hcast] at hfar
  generalize (x - cdiv image.width 2) * (x - cdiv image.width 2)
      + (y - cdiv image.height 2) * (y - cdiv image.height 2) = n at hfar hlt
  have hnq : (n : ℚ) < 9007199254740992 := by exact_mod_cast hlt
  have hpos : (0 : ℚ) < (n : ℚ) := by nlinarith
  have pm1 : pow2 (-1) = 1 / 2 := by decide!
  have p52 : pow2 (-1 + 53) = 4503599627370496 := by decide!
  have p104 : pow2 (2 * -1 + 106) = 20282409603651670423947251286016 := by decide!
  have p54 : pow2 (2 * ((27 : Nat) : Int)) = 18014398509481984 := by decide!
  have p27 : pow2 ((27 : Nat) : Int) = 134217728 := by decide!
  have p0 : pow2 0 = 1 := by decide!
  have p53 : pow2 (0 + 53) = 9007199254740992 := by decide!
  have hrad : ddiv (m : ℚ) 2 = (m : ℚ) / 2 := by
    have := toDouble_of_dyadic (m : Int) (-1) (by decide)
      (by rw [pm1, p52, abs_lt]; push_cast; constructor <;> linarith)
    rw [pm1] at this
    push_cast at this
    unfold ddiv
    rw [show (m : ℚ) / 2 = (m : ℚ) * (1 / 2) by ring]
    exact this
  rw [hrad]
  have hge : (m : ℚ) / 2 ≤ dsqrt (n : ℚ) := by
    have := dsqrt_ge_of_dyadic (n : ℚ) m (-1) (by decide) hpos (by rw [p104]; linarith)
      (by rw [pm1]; linarith)
    rw [pm1] at this
    linarith
  have hle : dsqrt (n : ℚ) ≤ 134217729 := by
    have := dsqrt_le (n : ℚ) 27 (by decide) hpos (by rw [p54]; linarith)
    rw [p27] at this
    linarith
  have hq1 : 1 ≤ dsqrt (n : ℚ) / ((m : ℚ) / 2) := by
    rw [le_div_iff₀ (by linarith)]
    linarith
  have hq2 : dsqrt (n : ℚ) / ((m : ℚ) / 2) ≤ 268435458 := by
    rw [div_le_iff₀ (by linarith)]
    nlinarith
  have hd : 1 ≤ ddiv (dsqrt (n : ℚ)) ((m : ℚ) / 2) := by
    have := toDouble_ge_of_dyadic (dsqrt (n : ℚ) / ((m : ℚ) / 2)) 1 0 (by decide)
      (by rw [p53, abs_lt]; constructor <;> linarith) (by rw [p0]; norm_num; exact hq1)
    rw [p0] at this
    norm_num at this
    exact this
  have hs : dsub 1 (ddiv (dsqrt (n : ℚ)) ((m : ℚ) / 2)) ≤ 0 :=
    toDouble_nonpos _ (by linarith)
  unfold qBound
  rw [max_eq_left]
  exact le_trans (min_le_right _ _) hs
/-- Claim C19, as amended. For every raster `applyVignette` keeps the dimensions and the
alpha of every pixel and replaces each pixel's red, green and blue by
`trunc(channel * f)` with `f = clamp(1 - d / radius, 0, 1)`, where `radius = min(w, h) / 2`
(not truncated), `d = sqrt(dx * dx + dy * dy)` for the offsets `dx`, `dy` of the pixel from
`(floor(w/2), floor(h/2))`, and every product, sum, difference, quotient and the square root
is a `double` operation rounded to the nearest `double`. Every output channel is at most the
input channel, the centre pixel is unchanged, and in a raster narrower and lower than `2^26`
every pixel whose exact distance from the centre is at least the radius becomes black. The
factor is the rounded one, not the exact one: the truncated product can be one less than
the truncation of the exact `channel * (1 - d / radius)`. -/
theorem applyVignette_spec (image : QImage) :
    (applyVignette dsqrt image).width = image.width ∧
    (applyVignette dsqrt image).height = image.height ∧
    (∀ x y : Int, (applyVignette dsqrt image).data x y =
      if 0 ≤ x ∧ x < (image.width : Int) ∧ 0 ≤ y ∧ y < (image.height : Int) then
        QColor.rgba
          (castInt (dmul ((image.data x y).red : ℚ) (qBound 0 (dsub 1 (ddiv
            (dsqrt (dadd
              (dmul ((x - cdiv image.width 2 : Int) : ℚ) ((x - cdiv image.width 2 : Int) : ℚ))
              (dmul ((y - cdiv image.height 2 : Int) : ℚ) ((y - cdiv image.height 2 : Int) : ℚ))))
            (ddiv ((min image.width image.height : Nat) : ℚ) 2))) 1)))
          (castInt (dmul ((image.data x y).green : ℚ) (qBound 0 (dsub 1 (ddiv
            (dsqrt (dadd
              (dmul ((x - cdiv image.width 2 : Int) : ℚ) ((x - cdiv image.width 2 : Int) : ℚ))
              (dmul ((y - cdiv image.height 2 : Int) : ℚ) ((y - cdiv image.height 2 : Int) : ℚ))))
            (ddiv ((min image.width image.height : Nat) : ℚ) 2))) 1)))
          (castInt (dmul ((image.data x y).blue : ℚ) (qBound 0 (dsub 1 (ddiv
            (dsqrt (dadd
              (dmul ((x - cdiv image.width 2 : Int) : ℚ) ((x - cdiv image.width 2 : Int) : ℚ))
              (dmul ((y - cdiv image.height 2 : Int) : ℚ) ((y - cdiv image.height 2 : Int) : ℚ))))
            (ddiv ((min image.width image.height : Nat) : ℚ) 2))) 1)))
          (image.data x y).alpha
      else image.data x y) ∧
    (∀ x y : Int,
      ((applyVignette dsqrt image).data x y).red ≤ (image.data x y).red ∧
      ((applyVignette dsqrt image).data x y).green ≤ (image.data x y).green ∧
      ((applyVignette dsqrt image).data x y).blue ≤ (image.data x y).blue ∧
      ((applyVignette dsqrt image).data x y).a = (image.data x y).a) ∧
    (applyVignette dsqrt image).data (cdiv image.width 2) (cdiv image.height 2)
      = image.data (cdiv image.width 2) (cdiv image.height 2) ∧
    (image.width < 2 ^ 26 → image.height < 2 ^ 26 →
      ∀ x y : Int, 0 ≤ x → x < (image.width : Int) → 0 ≤ y → y < (image.height : Int) →
      ((min image.width image.height : Nat) : ℚ) / 2
          * (((min image.width image.height : Nat) : ℚ) / 2)
        ≤ ((x - cdiv image.width 2 : Int) : ℚ) * ((x - cdiv image.width 2 : Int) : ℚ)
          + ((y - cdiv image.height 2 : Int) : ℚ) * ((y - cdiv image.height 2 : Int) : ℚ) →
      (applyVignette dsqrt image).data x y = ⟨0, 0, 0, (image.data x y).a⟩) := by
  obtain ⟨hw, hh, hd⟩ := applyVignette_data dsqrt image
  refine ⟨hw, hh, hd, ?_, ?_, ?_⟩
  · intro x y
    rw [hd x y]
    split_ifs
    · have hb := (image.data x y).channel_bounds
      have hf := qBound_unit (dsub 1 (ddiv
            (dsqrt (dadd
              (dmul ((x - cdiv image.width 2 : Int) : ℚ) ((x - cdiv image.width 2 : Int) : ℚ))
              (dmul ((y - cdiv image.height 2 : Int) : ℚ) ((y - cdiv image.height 2 : Int) : ℚ))))
            (ddiv ((min image.width image.height : Nat) : ℚ) 2)))
      have h1 := castInt_scaled_bounds _ _ hb.1 hb.2.1 hf.1 hf.2
      have h2 := castInt_scaled_bounds _ _ hb.2.2.1 hb.2.2.2.1 hf.1 hf.2
      have h3 := castInt_scaled_bounds _ _ hb.2.2.2.2.1 hb.2.2.2.2.2.1 hf.1 hf.2
      simp only [QColor.rgba]
      refine ⟨?_, ?_, ?_, toChannel_val _⟩
      · show (((toChannel _).val : Int)) ≤ _
        rw [toChannel_of_bounds _ h1.1 (by omega)]
        exact h1.2
      · show (((toChannel _).val : Int)) ≤ _
        rw [toChannel_of_bounds _ h2.1 (by omega)]
        exact h2.2
      · show (((toChannel _).val : Int)) ≤ _
        rw [toChannel_of_bounds _ h3.1 (by omega)]
        exact h3.2
    · exact ⟨le_refl _, le_refl _, le_refl _, rfl⟩
  · rw [hd]
    split_ifs
    · have hb := (image.data (cdiv image.width 2) (cdiv image.height 2)).channel_bounds
      have hone : (qBound 0 (dsub 1 (ddiv
            (dsqrt (dadd
              (dmul ((cdiv image.width 2 - cdiv image.width 2 : Int) : ℚ)
                ((cdiv image.width 2 - cdiv image.width 2 : Int) : ℚ))
              (dmul ((cdiv image.height 2 - cdiv image.height 2 : Int) : ℚ)
                ((cdiv image.height 2 - cdiv image.height 2 : Int) : ℚ))))
            (ddiv ((min image.width image.height : Nat) : ℚ) 2))) 1 : ℚ) = 1 := by
        have hz : dadd 0 0 = 0 := by decide!
        have ho : dsub 1 0 = 1 := by decide!
        simp only [sub_self, Int.cast_zero, zero_dmul, hz, dsqrt_zero, zero_ddiv, ho]
        unfold qBound
        norm_num
      rw [hone]
      simp only [dmul_one, (castInt_toDouble_channel _ (by omega : -255 ≤ _) hb.2.1).2,
        (castInt_toDouble_channel _ (by omega : -255 ≤ _) hb.2.2.2.1).2,
        (castInt_toDouble_channel _ (by omega : -255 ≤ _) hb.2.2.2.2.2.1).2]
      exact QColor.rgba_self _
    · rfl
  · intro hw26 hh26 x y hx0 hx1 hy0 hy1 hfar
    rw [hd x y, if_pos ⟨hx0, hx1, hy0, hy1⟩,
      vignette_factor_zero image x y hw26 hh26 hx0 hx1 hy0 hy1 hfar]
    simp only [dmul_zero]
    have hc0 : castInt (0 : ℚ) = 0 := by exact_mod_cast castInt_intCast 0
    rw [hc0]
    simp only [QColor.rgba, QColor.alpha, toChannel_val]
    rfl

/-- Witness of claim C19: in the 5x5 raster of colour (100,100,100,255) the corner pixel
(0,0) lies at squared distance 8 from the centre (2,2), beyond the radius 2.5, and becomes
black. -/
theorem applyVignette_spec_witness :
    (applyVignette dsqrt (QImage.uniform 5 5 ⟨100, 100, 100, 255⟩)).data 0 0
      = ⟨0, 0, 0, 255⟩ :=
  (applyVignette_spec (QImage.uniform 5 5 ⟨100, 100, 100, 255⟩)).2.2.2.2.2
    (by decide) (by decide) 0 0 (by decide) (by decide) (by decide) (by decide) (by decide!)

/-- Claim C19, refuted as stated: the channel is not multiplied by the exact factor
`1 - d / radius`. In the 5x5 raster of colour (100,100,100,255) the pixel (4,2) lies at
distance exactly 2 from the centre (2,2) and the radius is 2.5: the exact factor is 1/5 and
the truncated exact product `100 * 1/5` is 20, but the `double` quotient `2 / 2.5` is
above 4/5, the `double` factor is 0.19999999999999996, and `applyVignette` stores 19. -/
theorem applyVignette_factor_below_exact :
    (applyVignette dsqrt (QImage.uniform 5 5 ⟨100, 100, 100, 255⟩)).data 4 2
      = ⟨19, 19, 19, 255⟩ ∧
    dsqrt (dadd (dmul 2 2) (dmul 0 0)) = 2 ∧
    ddiv 5 2 = 5 / 2 ∧
    castInt ((100 : ℚ) * qBound 0 (1 - 2 / (5 / 2)) 1) = 20 ∧
    qBound 0 (dsub 1 (ddiv 2 (ddiv 5 2))) 1 = 900719925474099 / 4503599627370496 ∧
    castInt (dmul 100 (qBound 0 (dsub 1 (ddiv 2 (ddiv 5 2))) 1)) = 19 := by
  decide!

/-! ## Resize and crop requests without area -/

theorem QImage.not_same_null (R : QImage) (hR : R.isNull = false) : ¬ QImage.null.same R := by
  intro h
  have hw : (0 : Nat) = R.width := h.1
  simp only [QImage.isNull, Bool.or_eq_false_iff, beq_eq_false_iff_ne] at hR
  exact hR.1 hw.symm

/-- Claim C20, as amended. For every non-null raster `R` and every request whose target
width or height is zero: `resize` returns the null raster and executing the `ResizeCommand`
replaces the target by the null raster; `crop` returns `R` unchanged when width and height
are both zero and the null raster when only one of them is, and executing the `CropCommand`
writes that result into the target. The null raster is not pixel-identical to `R`, and in
every case `undo()` restores `R`. -/
theorem resize_crop_zero_area (smoothScale : QImage → Int → Int → QImage) (R : QImage)
    (x y width height : Int) (hR : R.isNull = false) (hz : width = 0 ∨ height = 0) :
    resize smoothScale R width height = QImage.null ∧
    ((ResizeCommand smoothScale R width height).redo R).2 = QImage.null ∧
    ((ResizeCommand smoothScale R width height).redo R).1.undo
      ((ResizeCommand smoothScale R width height).redo R).2 = R ∧
    crop R x y width height = (if width = 0 ∧ height = 0 then R else QImage.null) ∧
    ((CropCommand R x y width height).redo R).2
      = (if width = 0 ∧ height = 0 then R else QImage.null) ∧
    ((CropCommand R x y width height).redo R).1.undo
      ((CropCommand R x y width height).redo R).2 = R ∧
    ¬ QImage.null.same R := by
  have hresize : resize smoothScale R width height = QImage.null := by
    unfold resize QImage.scaled
    rw [hR]
    simp only [Bool.false_eq_true, if_false]
    rw [if_pos (by omega)]
  have hcrop : crop R x y width height = (if width = 0 ∧ height = 0 then R else QImage.null) := by
    unfold crop QImage.copy
    rw [hR]
    simp only [Bool.false_eq_true, if_false]
    split_ifs with h1 h2
    · rfl
    · rfl
    · omega
  exact ⟨hresize, hresize, rfl, hcrop, hcrop, rfl, R.not_same_null hR⟩

/-- Witness of the amended claim C20: the 2x2 raster of colour (10,20,30,255) resized to
width 0 and height 5 becomes the null raster. -/
theorem resize_crop_zero_area_witness :
    (QImage.uniform 2 2 ⟨10, 20, 30, 255⟩).isNull = false ∧ ((0 : Int) = 0 ∨ (5 : Int) = 0) ∧
    resize (fun image _ _ => image) (QImage.uniform 2 2 ⟨10, 20, 30, 255⟩) 0 5 = QImage.null :=
  ⟨by decide, by decide,
    (resize_crop_zero_area (fun image _ _ => image) (QImage.uniform 2 2 ⟨10, 20, 30, 255⟩)
      0 0 0 5 (by decide) (by decide)).1⟩

/-- Claim C20, refuted as stated: a resize or crop request with a zero width or height is
not always a no-op. On the 2x2 raster of colour (10,20,30,255), the `ResizeCommand` to 0x5
and the `CropCommand` of the 0x5 rectangle at (0,0) both leave a raster of width 0 in the
target. -/
theorem resize_crop_zero_not_noop :
    (¬ ∀ (smoothScale : QImage → Int → Int → QImage) (R : QImage) (width height : Int),
        R.isNull = false → (width = 0 ∨ height = 0) →
        ((ResizeCommand smoothScale R width height).redo R).2.same R) ∧
    (¬ ∀ (R : QImage) (x y width height : Int),
        R.isNull = false → (width = 0 ∨ height = 0) →
        ((CropCommand R x y width height).redo R).2.same R) ∧
    ((ResizeCommand (fun image _ _ => image) (QImage.uniform 2 2 ⟨10, 20, 30, 255⟩) 0 5).redo
      (QImage.uniform 2 2 ⟨10, 20, 30, 255⟩)).2.width = 0 ∧
    ((CropCommand (QImage.uniform 2 2 ⟨10, 20, 30, 255⟩) 0 0 0 5).redo
      (QImage.uniform 2 2 ⟨10, 20, 30, 255⟩)).2.width = 0 := by
  refine ⟨?_, ?_, by decide, by decide⟩
  · intro h
    have h1 := h (fun image _ _ => image) (QImage.uniform 2 2 ⟨10, 20, 30, 255⟩) 0 5
      (by decide) (by decide)
    revert h1
    decide
  · intro h
    have h1 := h (QImage.uniform 2 2 ⟨10, 20, 30, 255⟩) 0 0 0 5 (by decide) (by decide)
    revert h1
    decide

/-! ## Dark and bright percentages of an arbitrary raster -/

/-- The counters of `analyzeImage` after its pixel loop: the numbers of pixels of brightness
below 64 and above 192. -/
theorem analyzeImage_loop_counts (image : QImage) :
    (forLoop 0 image.height (fun y acc =>
      forLoop 0 image.width (fun x (acc : AnalyzeAcc) =>
        acc.visit (image.pixelColor x y)) acc) (⟨0, 0, 0, 0, []⟩ : AnalyzeAcc)).darkCount
      = (countPixels image (fun c => decide (brightnessOf c < 64)) : Nat) ∧
    (forLoop 0 image.height (fun y acc =>
      forLoop 0 image.width (fun x (acc : AnalyzeAcc) =>
        acc.visit (image.pixelColor x y)) acc) (⟨0, 0, 0, 0, []⟩ : AnalyzeAcc)).brightCount
      = (countPixels image (fun c => decide (brightnessOf c > 192)) : Nat) := by
  have outer := forLoop_invariant
    (fun (j : Nat) (acc : AnalyzeAcc) =>
      acc.darkCount = (((List.range j).map fun (y : Nat) =>
        ((List.range image.width).filter fun (x : Nat) =>
          decide (brightnessOf (image.data x y) < 64)).length).sum : Nat) ∧
      acc.brightCount = (((List.range j).map fun (y : Nat) =>
        ((List.range image.width).filter fun (x : Nat) =>
          decide (brightnessOf (image.data x y) > 192)).length).sum : Nat))
    0 image.height (fun y acc =>
      forLoop 0 image.width (fun x (acc : AnalyzeAcc) =>
        acc.visit (image.pixelColor x y)) acc) (⟨0, 0, 0, 0, []⟩ : AnalyzeAcc)
    ⟨rfl, rfl⟩
    (by
      intro j acc _ ⟨hd, hb⟩
      have inner := forLoop_invariant
        (fun (i : Nat) (acc' : AnalyzeAcc) =>
          acc'.darkCount = acc.darkCount + (((List.range i).filter fun (x : Nat) =>
            decide (brightnessOf (image.data x j) < 64)).length : Nat) ∧
          acc'.brightCount = acc.brightCount + (((List.range i).filter fun (x : Nat) =>
            decide (brightnessOf (image.data x j) > 192)).length : Nat))
        0 image.width (fun x (acc : AnalyzeAcc) =>
          acc.visit (image.pixelColor x (0 + (j : Int)))) acc
        ⟨by simp, by simp⟩
        (by
          intro i acc' _ ⟨hd', hb'⟩
          simp only [AnalyzeAcc.visit, QImage.pixelColor, zero_add, List.range_succ,
            List.filter_append, List.length_append, List.filter_cons, List.filter_nil]
          constructor
          · rw [hd']
            by_cases hc : brightnessOf (image.data i j) < 64
            · simp [hc]; ring
            · simp [hc]
          · rw [hb']
            by_cases hc : brightnessOf (image.data i j) > 192
            · simp [hc]; ring
            · simp [hc])
      obtain ⟨i1, i2⟩ := inner
      have hwn : ((image.width : Int) - 0).toNat = image.width := by omega
      rw [hwn] at i1 i2
      simp only [List.range_succ, List.map_append, List.sum_append, List.map_cons, List.map_nil,
        List.sum_cons, List.sum_nil, add_zero]
      refine ⟨?_, ?_⟩
      · rw [i1, hd]; push_cast; ring
      · rw [i2, hb]; push_cast; ring)
  have hhn : ((image.height : Int) - 0).toNat = image.height := by omega
  rw [hhn] at outer
  exact outer

theorem List.length_filter_add_le {α : Type} (l : List α) (p q : α → Bool)
    (hpq : ∀ a, ¬ (p a = true ∧ q a = true)) :
    (l.filter p).length + (l.filter q).length ≤ l.length := by
  induction l with
  | nil => simp
  | cons a rest ih =>
    simp only [List.filter_cons, List.length_cons]
    by_cases hp : p a = true
    · by_cases hq : q a = true
      · exact absurd ⟨hp, hq⟩ (hpq a)
      · simp [hp, hq]; omega
    · by_cases hq : q a = true
      · simp [hp, hq]; omega
      · simp [hp, hq]; omega

theorem List.sum_map_add_le (l : List Nat) (f g : Nat → Nat) (w : Nat)
    (h : ∀ y, f y + g y ≤ w) : (l.map f).sum + (l.map g).sum ≤ l.length * w := by
  induction l with
  | nil => simp
  | cons a rest ih =>
    simp only [List.map_cons, List.sum_cons, List.length_cons]
    have := h a
    nlinarith

/-- Dark and bright pixels are different pixels: together they are at most all pixels. -/
theorem countPixels_dark_bright_le (image : QImage) :
    countPixels image (fun c => decide (brightnessOf c < 64)) +
      countPixels image (fun c => decide (brightnessOf c > 192)) ≤ image.width * image.height := by
  unfold countPixels
  have h := List.sum_map_add_le (List.range image.height)
    (fun (y : Nat) => ((List.range image.width).filter fun (x : Nat) =>
      decide (brightnessOf (image.data x y) < 64)).length)
    (fun (y : Nat) => ((List.range image.width).filter fun (x : Nat) =>
      decide (brightnessOf (image.data x y) > 192)).length)
    image.width
    (by
      intro y
      have := List.length_filter_add_le (List.range image.width)
        (fun (x : Nat) => decide (brightnessOf (image.data x y) < 64))
        (fun (x : Nat) => decide (brightnessOf (image.data x y) > 192))
        (by
          intro x ⟨h1, h2⟩
          simp only [decide_eq_true_eq] at h1 h2
          linarith)
      simpa using this)
  rw [List.length_range, Nat.mul_comm] at h
  exact h

/-- When `100 * width * height` fits a 32-bit `int` (at most 21,474,836 pixels), the
percentages of `analyzeImage` on a non-null raster are `floor(100 D / N)` and
`floor(100 B / N)` for the numbers `D`, `B` of pixels of brightness below 64 and above 192
and `N = width * height`; both are at most 100 and so is their sum. -/
theorem analyzeImage_percentages_small (qSqrt : ℚ → ℚ) (image : QImage)
    (hn : image.isNull = false) (hsmall : 100 * (image.width * image.height) < 2147483648) :
    (analyzeImage qSqrt image).darkPixels =
      ((100 * countPixels image (fun c => decide (brightnessOf c < 64))
        / (image.width * image.height) : Nat) : Int) ∧
    (analyzeImage qSqrt image).brightPixels =
      ((100 * countPixels image (fun c => decide (brightnessOf c > 192))
        / (image.width * image.height) : Nat) : Int) ∧
    0 ≤ (analyzeImage qSqrt image).darkPixels ∧ 0 ≤ (analyzeImage qSqrt image).brightPixels ∧
    (analyzeImage qSqrt image).darkPixels + (analyzeImage qSqrt image).brightPixels ≤ 100 := by
  obtain ⟨hD, hB⟩ := analyzeImage_loop_counts image
  have hle := countPixels_dark_bright_le image
  generalize hDdef : countPixels image (fun c => decide (brightnessOf c < 64)) = D at hD hle ⊢
  generalize hBdef : countPixels image (fun c => decide (brightnessOf c > 192)) = B at hB hle ⊢
  generalize hNdef : image.width * image.height = N at hle hsmall ⊢
  have hNi : (image.width : Int) * (image.height : Int) = (N : Int) := by
    rw [← hNdef]; push_cast; ring
  have hdark : (analyzeImage qSqrt image).darkPixels = ((100 * D / N : Nat) : Int) := by
    unfold analyzeImage
    rw [hn]
    simp only [Bool.false_eq_true, if_false]
    rw [hD, hNi, wrapInt32_of_small ((D : Int) * 100) (by omega) (by omega),
      wrapInt32_of_small (N : Int) (by omega) (by omega)]
    unfold cdiv
    rw [Int.tdiv_eq_ediv (by omega) (by omega), Int.ofNat_ediv]
    push_cast
    ring_nf
  have hbright : (analyzeImage qSqrt image).brightPixels = ((100 * B / N : Nat) : Int) := by
    unfold analyzeImage
    rw [hn]
    simp only [Bool.false_eq_true, if_false]
    rw [hB, hNi, wrapInt32_of_small ((B : Int) * 100) (by omega) (by omega),
      wrapInt32_of_small (N : Int) (by omega) (by omega)]
    unfold cdiv
    rw [Int.tdiv_eq_ediv (by omega) (by omega), Int.ofNat_ediv]
    push_cast
    ring_nf
  refine ⟨hdark, hbright, by rw [hdark]; exact Int.natCast_nonneg _,
    by rw [hbright]; exact Int.natCast_nonneg _, ?_⟩
  rw [hdark, hbright]
  have h1 : 100 * D / N + 100 * B / N ≤ (100 * D + 100 * B) / N := Nat.add_div_le_add_div _ _ _
  have h2 : (100 * D + 100 * B) / N ≤ 100 := by
    apply Nat.div_le_of_le_mul
    nlinarith
  omega

/-! ## Identity skipping, comparison and the null command -/

/-- Claim C21: the compound factory creates exactly the commands of the fields that are not
at identity (an integer field different from 0, gamma further than 0.01 from 1), one each and
in the order brightness, contrast, saturation, hue, gamma, temperature, exposure, shadows,
highlights; their number is the number of such fields, and there is no child exactly when
`hasAnyAdjustments()` is false. -/
theorem createCompoundAdjustmentCommand_one_child_per_field (qPow : ℚ → ℚ → ℚ)
    (target : QImage) (p : AdjustmentParameters) :
    (createCompoundAdjustmentCommand qPow target p).children = expectedChildren qPow target p ∧
    ((createCompoundAdjustmentCommand qPow target p).children.length
      = (if p.brightness ≠ 0 then 1 else 0) + (if p.contrast ≠ 0 then 1 else 0)
        + (if p.saturation ≠ 0 then 1 else 0) + (if p.hue ≠ 0 then 1 else 0)
        + (if |p.gamma - 1| > 1 / 100 then 1 else 0) + (if p.temperature ≠ 0 then 1 else 0)
        + (if p.exposure ≠ 0 then 1 else 0) + (if p.shadows ≠ 0 then 1 else 0)
        + (if p.highlights ≠ 0 then 1 else 0)) ∧
    ((createCompoundAdjustmentCommand qPow target p).children = [] ↔
      p.hasAnyAdjustments = false) := by
  have key : (createCompoundAdjustmentCommand qPow target p).children
      = expectedChildren qPow target p := by
    have step : ∀ (compound : CompoundAdjustmentCommand) (c : Prop) [Decidable c]
        (x : ImageCommand),
        (if c then compound.addChild x else compound).children
          = compound.children ++ (if c then [x] else []) := by
      intro compound c _ x
      by_cases h : c <;> simp [h, CompoundAdjustmentCommand.addChild]
    unfold createCompoundAdjustmentCommand expectedChildren
    dsimp only
    simp only [step, List.nil_append]
  refine ⟨key, ?_, ?_⟩
  · rw [key]
    have hlen : ∀ (c : Prop) [Decidable c] (x : ImageCommand),
        (if c then [x] else []).length = if c then 1 else 0 := by
      intro c _ x
      by_cases h : c <;> simp [h]
    unfold expectedChildren
    simp only [List.length_append, hlen]
  · rw [key]
    have hnil : ∀ (c : Prop) [Decidable c] (x : ImageCommand),
        ((if c then [x] else []) = [] ↔ ¬ c) := by
      intro c _ x
      by_cases h : c <;> simp [h]
    unfold expectedChildren AdjustmentParameters.hasAnyAdjustments
    simp only [List.append_eq_nil, hnil, Bool.or_eq_false_iff, bne_eq_false_iff_eq,
      decide_eq_false_iff_not, ne_eq, not_not, and_assoc]

/-- Claim C22, amended: `hasAnyAdjustments()` is true exactly when an integer field is not 0
or gamma is further than 0.01 from 1.0; whenever it is true some field deviates from its
identity value, gamma from exactly 1.0. -/
theorem AdjustmentParameters.hasAnyAdjustments_iff (p : AdjustmentParameters) :
    (p.hasAnyAdjustments = true ↔
      (p.brightness ≠ 0 ∨ p.contrast ≠ 0 ∨ p.saturation ≠ 0 ∨ p.hue ≠ 0 ∨
        |p.gamma - 1| > 1 / 100 ∨ p.temperature ≠ 0 ∨ p.exposure ≠ 0 ∨ p.shadows ≠ 0 ∨
        p.highlights ≠ 0)) ∧
    (p.hasAnyAdjustments = true → p.deviatesFromIdentity = true) := by
  have hiff : p.hasAnyAdjustments = true ↔
      (p.brightness ≠ 0 ∨ p.contrast ≠ 0 ∨ p.saturation ≠ 0 ∨ p.hue ≠ 0 ∨
        |p.gamma - 1| > 1 / 100 ∨ p.temperature ≠ 0 ∨ p.exposure ≠ 0 ∨ p.shadows ≠ 0 ∨
        p.highlights ≠ 0) := by
    unfold AdjustmentParameters.hasAnyAdjustments
    simp only [Bool.or_eq_true, bne_iff_ne, decide_eq_true_eq, or_assoc]
  refine ⟨hiff, fun h => ?_⟩
  have hgamma : |p.gamma - 1| > 1 / 100 → p.gamma ≠ 1 := by
    intro hg heq
    rw [heq] at hg
    norm_num at hg
  unfold AdjustmentParameters.deviatesFromIdentity
  simp only [Bool.or_eq_true, bne_iff_ne, or_assoc]
  rcases hiff.mp h with h | h | h | h | h | h | h | h | h
  · exact Or.inl h
  · exact Or.inr (Or.inl h)
  · exact Or.inr (Or.inr (Or.inl h))
  · exact Or.inr (Or.inr (Or.inr (Or.inl h)))
  · exact Or.inr (Or.inr (Or.inr (Or.inr (Or.inl (hgamma h)))))
  · exact Or.inr (Or.inr (Or.inr (Or.inr (Or.inr (Or.inl h)))))
  · exact Or.inr (Or.inr (Or.inr (Or.inr (Or.inr (Or.inr (Or.inl h))))))
  · exact Or.inr (Or.inr (Or.inr (Or.inr (Or.inr (Or.inr (Or.inr (Or.inl h)))))))
  · exact Or.inr (Or.inr (Or.inr (Or.inr (Or.inr (Or.inr (Or.inr (Or.inr h)))))))

/-- Claim C22, refuted as stated: with gamma 1.005 and every other field at identity a
field deviates from its identity value, yet `hasAnyAdjustments()` is false. -/
theorem gamma_within_tolerance_not_an_adjustment :
    AdjustmentParameters.deviatesFromIdentity { gamma := 201 / 200 } = true ∧
    AdjustmentParameters.hasAnyAdjustments { gamma := 201 / 200 } = false := by
  decide!

/-- Claim C30, refuted as stated: with all integer fields equal, the gammas 1.0 and 1.008
compare equal, 1.008 and 1.016 compare equal, but 1.0 and 1.016 do not: `operator==` is not
transitive. -/
theorem gamma_tolerance_not_transitive :
    AdjustmentParameters.operatorEq { gamma := 1 } { gamma := 126 / 125 } = true ∧
    AdjustmentParameters.operatorEq { gamma := 126 / 125 } { gamma := 127 / 125 } = true ∧
    AdjustmentParameters.operatorEq { gamma := 1 } { gamma := 127 / 125 } = false := by
  decide!

/-- Claim C30, amended: `operator==` is reflexive and symmetric and `operator!=` is its
negation; two parameter values each equal to a third agree on every integer field and their
gammas are less than 0.02 apart; `operator==` is transitive through a middle value whose gamma
coincides with one of the two others. -/
theorem AdjustmentParameters.operatorEq_reflexive_symmetric
    (a b c : AdjustmentParameters) :
    a.operatorEq a = true ∧
    a.operatorEq b = b.operatorEq a ∧
    a.operatorNe b = !(a.operatorEq b) ∧
    (a.operatorEq b = true → b.operatorEq c = true →
      a.brightness = c.brightness ∧ a.contrast = c.contrast ∧ a.saturation = c.saturation ∧
      a.hue = c.hue ∧ |a.gamma - c.gamma| < 2 / 100 ∧ a.temperature = c.temperature ∧
      a.exposure = c.exposure ∧ a.shadows = c.shadows ∧ a.highlights = c.highlights) ∧
    (a.operatorEq b = true → b.operatorEq c = true → (a.gamma = b.gamma ∨ b.gamma = c.gamma) →
      a.operatorEq c = true) := by
  have hchar : ∀ p q : AdjustmentParameters, p.operatorEq q = true ↔
      (p.brightness = q.brightness ∧ p.contrast = q.contrast ∧ p.saturation = q.saturation ∧
        p.hue = q.hue ∧ |p.gamma - q.gamma| < 1 / 100 ∧ p.temperature = q.temperature ∧
        p.exposure = q.exposure ∧ p.shadows = q.shadows ∧ p.highlights = q.highlights) := by
    intro p q
    unfold AdjustmentParameters.operatorEq
    simp only [Bool.and_eq_true, beq_iff_eq, decide_eq_true_eq, and_assoc]
  refine ⟨?_, ?_, rfl, ?_, ?_⟩
  · rw [hchar]
    refine ⟨rfl, rfl, rfl, rfl, ?_, rfl, rfl, rfl, rfl⟩
    norm_num
  · rw [Bool.eq_iff_iff, hchar, hchar, abs_sub_comm]
    constructor <;>
      exact fun ⟨h1, h2, h3, h4, h5, h6, h7, h8, h9⟩ =>
        ⟨h1.symm, h2.symm, h3.symm, h4.symm, h5, h6.symm, h7.symm, h8.symm, h9.symm⟩
  · intro hab hbc
    obtain ⟨h1, h2, h3, h4, h5, h6, h7, h8, h9⟩ := (hchar a b).mp hab
    obtain ⟨k1, k2, k3, k4, k5, k6, k7, k8, k9⟩ := (hchar b c).mp hbc
    refine ⟨h1.trans k1, h2.trans k2, h3.trans k3, h4.trans k4, ?_, h6.trans k6, h7.trans k7,
      h8.trans k8, h9.trans k9⟩
    have htri := abs_sub_le a.gamma b.gamma c.gamma
    linarith
  · intro hab hbc hg
    obtain ⟨h1, h2, h3, h4, h5, h6, h7, h8, h9⟩ := (hchar a b).mp hab
    obtain ⟨k1, k2, k3, k4, k5, k6, k7, k8, k9⟩ := (hchar b c).mp hbc
    rw [hchar]
    refine ⟨h1.trans k1, h2.trans k2, h3.trans k3, h4.trans k4, ?_, h6.trans k6, h7.trans k7,
      h8.trans k8, h9.trans k9⟩
    rcases hg with hg | hg
    · rw [hg]; exact k5
    · rw [← hg]; exact h5

/-- Claim C26: `executeCommand(nullptr)` returns the manager and the document raster as they
were: the commands of the stack, its index, `canUndo()`, `canRedo()` and the raster are
unchanged and `commandExecuted` is not emitted; any other command advances the index and emits
the signal once. -/
theorem CommandManager.executeCommand_null_noop {C W : Type} (v : QUndoCommand C W)
    (m : CommandManager C) (w : W) :
    CommandManager.executeCommand v m none w = (m, w) ∧
    (CommandManager.executeCommand v m none w).1.m_undoStack.commands = m.m_undoStack.commands ∧
    (CommandManager.executeCommand v m none w).1.m_undoStack.index = m.m_undoStack.index ∧
    (CommandManager.executeCommand v m none w).1.canUndo = m.canUndo ∧
    (CommandManager.executeCommand v m none w).1.canRedo = m.canRedo ∧
    (CommandManager.executeCommand v m none w).2 = w ∧
    (CommandManager.executeCommand v m none w).1.commandExecuted = m.commandExecuted ∧
    (∀ cmd : C,
      (CommandManager.executeCommand v m (some cmd) w).1.commandExecuted = m.commandExecuted + 1 ∧
      (CommandManager.executeCommand v m (some cmd) w).1.m_undoStack.index
        = m.m_undoStack.index + 1) :=
  ⟨rfl, rfl, rfl, rfl, rfl, rfl, rfl, fun _ => ⟨rfl, rfl⟩⟩

/-! ## Hue rotation -/

theorem qRound_bounds (q : ℚ) (N : Int) (h0 : 0 ≤ q) (h1 : q ≤ (N : ℚ)) :
    0 ≤ qRound q ∧ qRound q ≤ N := by
  unfold qRound castInt
  rw [if_pos h0, if_pos (by linarith)]
  refine ⟨Int.floor_nonneg.2 (by linarith), ?_⟩
  have hlt : ⌊q + 1 / 2⌋ < N + 1 := by
    rw [Int.floor_lt]
    push_cast
    linarith
  omega

/-- The 16-bit saturation, value and alpha of a converted colour are within 0..65535. -/
theorem QColor.toHsv_bounds (c : QColor) :
    0 ≤ c.toHsv.s16 ∧ c.toHsv.s16 ≤ 65535 ∧ 0 ≤ c.toHsv.v16 ∧ c.toHsv.v16 ≤ 65535 ∧
    0 ≤ c.toHsv.a16 ∧ c.toHsv.a16 ≤ 65535 := by
  have hb := c.channel_bounds
  have unit : ∀ n : Int, 0 ≤ n → n ≤ 255 →
      (0 : ℚ) ≤ ((n * 257 : Int) : ℚ) / 65535 ∧ ((n * 257 : Int) : ℚ) / 65535 ≤ 1 := by
    intro n h0 h1
    have h0q : (0 : ℚ) ≤ (n : ℚ) := by exact_mod_cast h0
    have h1q : (n : ℚ) ≤ 255 := by exact_mod_cast h1
    push_cast
    constructor
    · positivity
    · rw [div_le_one (by norm_num)]
      linarith
  obtain ⟨hr0, hr1⟩ := unit c.red hb.1 hb.2.1
  obtain ⟨hg0, hg1⟩ := unit c.green hb.2.2.1 hb.2.2.2.1
  obtain ⟨hb0, hb1⟩ := unit c.blue hb.2.2.2.2.1 hb.2.2.2.2.2.1
  set r : ℚ := ((c.red * 257 : Int) : ℚ) / 65535 with hr
  set g : ℚ := ((c.green * 257 : Int) : ℚ) / 65535 with hg
  set b : ℚ := ((c.blue * 257 : Int) : ℚ) / 65535 with hbl
  have hmx0 : 0 ≤ max r (max g b) := le_max_of_le_left hr0
  have hmx1 : max r (max g b) ≤ 1 := max_le hr1 (max_le hg1 hb1)
  have hmn0 : 0 ≤ min r (min g b) := le_min hr0 (le_min hg0 hb0)
  have hmnmx : min r (min g b) ≤ max r (max g b) := le_trans (min_le_left _ _) (le_max_left _ _)
  have h65535 : ((65535 : Int) : ℚ) = 65535 := by norm_num
  have hv := qRound_bounds (max r (max g b) * 65535) 65535
    (mul_nonneg hmx0 (by norm_num)) (by rw [h65535]; linarith)
  have ha : 0 ≤ c.alpha * 257 ∧ c.alpha * 257 ≤ 65535 := by omega
  unfold QColor.toHsv
  simp only [← hr, ← hg, ← hbl]
  by_cases hd : max r (max g b) - min r (min g b) = 0
  · rw [if_pos hd]
    exact ⟨le_refl _, by norm_num, hv.1, hv.2, ha.1, ha.2⟩
  · have hdpos : 0 < max r (max g b) - min r (min g b) :=
      lt_of_le_of_ne (by linarith) (Ne.symm hd)
    have hmxpos : 0 < max r (max g b) := by linarith
    have hq0 : 0 ≤ (max r (max g b) - min r (min g b)) / max r (max g b) :=
      div_nonneg hdpos.le hmxpos.le
    have hq1 : (max r (max g b) - min r (min g b)) / max r (max g b) ≤ 1 := by
      rw [div_le_one hmxpos]
      linarith
    have hs := qRound_bounds
      ((max r (max g b) - min r (min g b)) / max r (max g b) * 65535) 65535
      (mul_nonneg hq0 (by norm_num)) (by rw [h65535]; linarith)
    rw [if_neg hd]
    exact ⟨hs.1, hs.2, hv.1, hv.2, ha.1, ha.2⟩

/-- The result of `adjustHue` pixel by pixel. -/
theorem adjustHue_data (image : QImage) (hue : Int) :
    (adjustHue image hue).width = image.width ∧
    (adjustHue image hue).height = image.height ∧
    ∀ x y : Int, (adjustHue image hue).data x y =
      if 0 ≤ x ∧ x < (image.width : Int) ∧ 0 ≤ y ∧ y < (image.height : Int) then
        (match QHsv.setHsv
          (if cmod ((image.data x y).toHsv.hue + qBound (-180) hue 180) 360 < 0
            then cmod ((image.data x y).toHsv.hue + qBound (-180) hue 180) 360 + 360
            else cmod ((image.data x y).toHsv.hue + qBound (-180) hue 180) 360)
          (image.data x y).toHsv.saturation (image.data x y).toHsv.value
          (image.data x y).toHsv.alpha with
        | some hsv => hsv.toRgb
        | none => image.data x y)
      else image.data x y := by
  unfold adjustHue
  by_cases hn : image.isNull = true
  · rw [if_pos hn]
    refine ⟨rfl, rfl, fun x y => ?_⟩
    rw [if_neg (image.no_pixel_of_isNull hn x y)]
  · rw [if_neg hn]
    exact forPixels_whole
      (fun _ _ c =>
        match QHsv.setHsv
          (if cmod (c.toHsv.hue + qBound (-180) hue 180) 360 < 0
            then cmod (c.toHsv.hue + qBound (-180) hue 180) 360 + 360
            else cmod (c.toHsv.hue + qBound (-180) hue 180) 360)
          c.toHsv.saturation c.toHsv.value c.toHsv.alpha with
        | some hsv => hsv.toRgb
        | none => c) _ image
      (by
        intro x y r _
        simp only [QImage.pixelColor, QImage.setPixelHsv]
        split
        · rfl
        · exact (QImage.setPixelColor_self r x y).symm)

/-- The remainder of C++ followed by the correction of a negative result is the remainder
with values in `[0, 360)`. -/
theorem wrapped_hue (h d : Int) :
    (if cmod (h + d) 360 < 0 then cmod (h + d) 360 + 360 else cmod (h + d) 360)
      = (h + d) % 360 := by
  unfold cmod
  have h1 := Int.tmod_add_tdiv (h + d) 360
  have h2 := Int.emod_add_ediv (h + d) 360
  have h3 := Int.emod_nonneg (h + d) (by norm_num : (360 : Int) ≠ 0)
  have h4 := Int.emod_lt_of_pos (h + d) (by norm_num : (0 : Int) < 360)
  have h5 := Int.tmod_lt_of_pos (h + d) (by norm_num : (0 : Int) < 360)
  have h6 : -360 < (h + d).tmod 360 := by
    have hlt := Int.tmod_lt_of_pos (-(h + d)) (by norm_num : (0 : Int) < 360)
    have hn1 := Int.tmod_add_tdiv (-(h + d)) 360
    rw [Int.neg_tdiv] at hn1
    omega
  split_ifs <;> omega

/-- The 16-bit value of a converted colour is its largest channel, the 16-bit alpha its
alpha, both times 257. -/
theorem QColor.toHsv_v16 (c : QColor) :
    c.toHsv.v16 = max c.red (max c.green c.blue) * 257 ∧ c.toHsv.a16 = c.alpha * 257 := by
  have hb := c.channel_bounds
  have mono : Monotone (fun n : Int => ((n * 257 : Int) : ℚ) / 65535) := by
    intro a b hab
    have : (a : ℚ) ≤ (b : ℚ) := by exact_mod_cast hab
    show ((a * 257 : Int) : ℚ) / 65535 ≤ ((b * 257 : Int) : ℚ) / 65535
    push_cast
    linarith
  have hmax : max (((c.red * 257 : Int) : ℚ) / 65535)
      (max (((c.green * 257 : Int) : ℚ) / 65535) (((c.blue * 257 : Int) : ℚ) / 65535))
      = ((max c.red (max c.green c.blue) * 257 : Int) : ℚ) / 65535 := by
    have h1 := mono.map_max (a := c.green) (b := c.blue)
    have h2 := mono.map_max (a := c.red) (b := max c.green c.blue)
    simp only at h1 h2
    rw [h2, h1]
  have hv : qRound (((max c.red (max c.green c.blue) * 257 : Int) : ℚ) / 65535 * 65535)
      = max c.red (max c.green c.blue) * 257 := by
    rw [div_mul_cancel₀ _ (by norm_num : (65535 : ℚ) ≠ 0)]
    exact qRound_intCast _ (by
      have : 0 ≤ max c.red (max c.green c.blue) := le_max_of_le_left hb.1
      omega)
  unfold QColor.toHsv
  simp only [hmax, hv]
  split_ifs <;> exact ⟨rfl, rfl⟩

/-- A component between 0 and the value of an HSV colour is stored as a channel between 0
and the 8-bit value. -/
theorem div257_qRound_le (X : ℚ) (v : Int) (hv0 : 0 ≤ v) (hv1 : v ≤ 255) (h0 : 0 ≤ X)
    (h1 : X ≤ ((v * 257 : Int) : ℚ) / 65535) :
    ((toChannel (div257 (qRound (X * 65535)))).val : Int) ≤ v := by
  have hq := qRound_bounds (X * 65535) (v * 257) (mul_nonneg h0 (by norm_num))
    (by rw [le_div_iff₀ (by norm_num)] at h1; exact h1)
  have hd : 0 ≤ div257 (qRound (X * 65535)) ∧ div257 (qRound (X * 65535)) ≤ v := by
    unfold div257
    omega
  rw [toChannel_of_bounds _ hd.1 (by omega)]
  exact hd.2

/-- The value of an HSV colour is stored as the channel equal to the 8-bit value. -/
theorem div257_qRound_value (v : Int) (hv0 : 0 ≤ v) (hv1 : v ≤ 255) :
    ((toChannel (div257 (qRound (((v * 257 : Int) : ℚ) / 65535 * 65535)))).val : Int) = v := by
  rw [div_mul_cancel₀ _ (by norm_num : (65535 : ℚ) ≠ 0), qRound_intCast _ (by omega),
    div257_channel v hv0 hv1, toChannel_of_bounds _ hv0 hv1]

/-- The 8-bit RGB form of the HSV colour of hue `p` degrees, saturation `s`, value `v` and
alpha `a`: alpha `a`, no channel above `v`, and the channel of the sector of the hue (red
around 0, green around 120, blue around 240) equal to `v`. -/
theorem QHsv.toRgb_sector (p s v a : Int) (hp0 : 0 ≤ p) (hp1 : p < 360) (hs0 : 0 ≤ s)
    (hs1 : s ≤ 255) (hv0 : 0 ≤ v) (hv1 : v ≤ 255) (ha0 : 0 ≤ a) (ha1 : a ≤ 255) :
    (⟨p * 100, s * 257, v * 257, a * 257⟩ : QHsv).toRgb.alpha = a ∧
    (⟨p * 100, s * 257, v * 257, a * 257⟩ : QHsv).toRgb.red ≤ v ∧
    (⟨p * 100, s * 257, v * 257, a * 257⟩ : QHsv).toRgb.green ≤ v ∧
    (⟨p * 100, s * 257, v * 257, a * 257⟩ : QHsv).toRgb.blue ≤ v ∧
    (p < 60 ∨ 300 ≤ p → (⟨p * 100, s * 257, v * 257, a * 257⟩ : QHsv).toRgb.red = v) ∧
    (60 ≤ p ∧ p < 180 → (⟨p * 100, s * 257, v * 257, a * 257⟩ : QHsv).toRgb.green = v) ∧
    (180 ≤ p ∧ p < 300 → (⟨p * 100, s * 257, v * 257, a * 257⟩ : QHsv).toRgb.blue = v) := by
  by_cases hs : s = 0
  · subst hs
    rw [Int.zero_mul, QHsv.toRgb_achromatic _ v a hv0 hv1 ha0 ha1]
    simp only [QColor.rgba, QColor.alpha, QColor.red, QColor.green, QColor.blue,
      toChannel_of_bounds v hv0 hv1, toChannel_of_bounds a ha0 ha1]
    exact ⟨trivial, le_refl _, le_refl _, le_refl _, fun _ => trivial, fun _ => trivial,
      fun _ => trivial⟩
  · have hk0 : 0 ≤ p / 60 := by omega
    have hk5 : p / 60 ≤ 5 := by omega
    have hpq : (p : ℚ) = 60 * ((p / 60 : Int) : ℚ) + ((p % 60 : Int) : ℚ) := by
      have := Int.emod_add_ediv p 60
      have h2 : ((p % 60 + 60 * (p / 60) : Int) : ℚ) = (p : ℚ) := by rw [this]
      push_cast at h2
      linarith
    have hr0 : (0 : ℚ) ≤ ((p % 60 : Int) : ℚ) := by
      exact_mod_cast Int.emod_nonneg p (by norm_num)
    have hr1 : ((p % 60 : Int) : ℚ) < 60 := by
      exact_mod_cast Int.emod_lt_of_pos p (by norm_num)
    have hh : (((p * 100 : Int) : ℚ) / 6000) = ((p / 60 : Int) : ℚ) + ((p % 60 : Int) : ℚ) / 60 := by
      push_cast
      rw [hpq]
      ring
    have hh0 : (0 : ℚ) ≤ ((p * 100 : Int) : ℚ) / 6000 := by
      have : (0 : ℚ) ≤ ((p / 60 : Int) : ℚ) := by exact_mod_cast hk0
      rw [hh]
      positivity
    have hi : castInt (((p * 100 : Int) : ℚ) / 6000) = p / 60 := by
      unfold castInt
      rw [if_pos hh0, Int.floor_eq_iff, hh]
      constructor
      · linarith [div_nonneg hr0 (by norm_num : (0 : ℚ) ≤ 60)]
      · have : ((p % 60 : Int) : ℚ) / 60 < 1 := by
          rw [div_lt_one (by norm_num)]
          exact hr1
        linarith
    have hf0 : (0 : ℚ) ≤ ((p * 100 : Int) : ℚ) / 6000 - ((p / 60 : Int) : ℚ) := by
      rw [hh]
      linarith [div_nonneg hr0 (by norm_num : (0 : ℚ) ≤ 60)]
    have hf1 : ((p * 100 : Int) : ℚ) / 6000 - ((p / 60 : Int) : ℚ) ≤ 1 := by
      have : ((p % 60 : Int) : ℚ) / 60 < 1 := by
        rw [div_lt_one (by norm_num)]
        exact hr1
      rw [hh]
      linarith
    have hS0 : (0 : ℚ) ≤ ((s * 257 : Int) : ℚ) / 65535 := by
      have : (0 : ℚ) ≤ (s : ℚ) := by exact_mod_cast hs0
      push_cast
      positivity
    have hS1 : ((s * 257 : Int) : ℚ) / 65535 ≤ 1 := by
      have : (s : ℚ) ≤ 255 := by exact_mod_cast hs1
      push_cast
      rw [div_le_one (by norm_num)]
      linarith
    have hV0 : (0 : ℚ) ≤ ((v * 257 : Int) : ℚ) / 65535 := by
      have : (0 : ℚ) ≤ (v : ℚ) := by exact_mod_cast hv0
      push_cast
      positivity
    have hva := div257_qRound_value v hv0 hv1
    have hcomp := fun X h0 h1 => div257_qRound_le X v hv0 hv1 h0 h1
    have haa : ((toChannel (div257 (a * 257))).val : Int) = a := by
      rw [div257_channel a ha0 ha1, toChannel_of_bounds _ ha0 ha1]
    have e1 : ¬ (s * 257 = 0 ∨ p * 100 = 65535) := by omega
    have e2 : ¬ p * 100 = 36000 := by omega
    unfold QHsv.toRgb
    simp only [e1, e2, if_false, hi]
    generalize ((p * 100 : Int) : ℚ) / 6000 - ((p / 60 : Int) : ℚ) = f at hf0 hf1
    generalize hS : ((s * 257 : Int) : ℚ) / 65535 = S at hS0 hS1
    generalize hV : ((v * 257 : Int) : ℚ) / 65535 = V at hV0 hva hcomp
    have hP := hcomp (V * (1 - S)) (mul_nonneg hV0 (by linarith)) (by nlinarith)
    have hQ := hcomp (V * (1 - S * f)) (mul_nonneg hV0 (by nlinarith))
      (by nlinarith [mul_nonneg hS0 hf0])
    have hT := hcomp (V * (1 - S * (1 - f))) (mul_nonneg hV0 (by nlinarith))
      (by nlinarith [mul_nonneg hS0 (by linarith : (0 : ℚ) ≤ 1 - f)])
    have hk : p / 60 = 0 ∨ p / 60 = 1 ∨ p / 60 = 2 ∨ p / 60 = 3 ∨ p / 60 = 4 ∨ p / 60 = 5 := by
      omega
    have tm0 : Int.tmod 0 2 = 0 := by decide
    have tm1 : Int.tmod 1 2 = 1 := by decide
    have tm2 : Int.tmod 2 2 = 0 := by decide
    have tm3 : Int.tmod 3 2 = 1 := by decide
    have tm4 : Int.tmod 4 2 = 0 := by decide
    have tm5 : Int.tmod 5 2 = 1 := by decide
    rcases hk with hk | hk | hk | hk | hk | hk <;> rw [hk] <;>
      simp only [cmod, tm0, tm1, tm2, tm3, tm4, tm5, if_true, if_false, one_ne_zero,
        zero_ne_one, OfNat.ofNat_ne_zero, OfNat.ofNat_ne_one, reduceIte, Int.reduceEq,
        QColor.rgba, QColor.alpha, QColor.red, QColor.green, QColor.blue]
    · exact ⟨haa, le_of_eq hva, hT, hP, fun _ => hva, fun h => by omega, fun h => by omega⟩
    · exact ⟨haa, hQ, le_of_eq hva, hP, fun h => by omega, fun _ => hva, fun h => by omega⟩
    · exact ⟨haa, hP, le_of_eq hva, hT, fun h => by omega, fun _ => hva, fun h => by omega⟩
    · exact ⟨haa, hP, hQ, le_of_eq hva, fun h => by omega, fun h => by omega, fun _ => hva⟩
    · exact ⟨haa, hT, hP, le_of_eq hva, fun h => by omega, fun h => by omega, fun _ => hva⟩
    · exact ⟨haa, le_of_eq hva, hP, hQ, fun _ => hva, fun h => by omega, fun h => by omega⟩
/-- Claim C27, as amended. For every pixel of the raster and every offset `d`, the hue that
`adjustHue` passes to `setHsv` is `(h + clamp(d, -180, 180)) mod 360` taken in `[0, 360)`
(never negative, never 360 or more), where `h` is the hue of the pixel (-1 when achromatic);
`setHsv` accepts it, and the new HSV colour has that hue and the 8-bit saturation, value and
alpha of the pixel. The pixel stored is the 8-bit RGB form of that colour: it has the alpha
of the original pixel, no channel above the largest channel of the original pixel (its
value), and the channel of the sector of the passed hue (red below 60 and from 300, green in
60..179, blue in 180..299) equal to that value, so the value and alpha read back from the
stored pixel are those of the original; a pixel with red = green = blue is stored unchanged,
whatever the offset. The hue read back from the stored pixel is not always the hue passed
on. -/
theorem adjustHue_wraps_hue (image : QImage) (d : Int) (x y : Int)
    (hx : 0 ≤ x ∧ x < (image.width : Int)) (hy : 0 ≤ y ∧ y < (image.height : Int)) :
    let c := (image.pixelColor x y).toHsv
    let passed :=
      if cmod (c.hue + qBound (-180) d 180) 360 < 0
        then cmod (c.hue + qBound (-180) d 180) 360 + 360
        else cmod (c.hue + qBound (-180) d 180) 360
    let stored := (adjustHue image d).pixelColor x y
    (0 ≤ passed ∧ passed < 360 ∧ passed = (c.hue + qBound (-180) d 180) % 360 ∧
      ∃ hsv : QHsv, QHsv.setHsv passed c.saturation c.value c.alpha = some hsv ∧
        hsv.hue = passed ∧ hsv.saturation = c.saturation ∧ hsv.value = c.value ∧
        hsv.alpha = c.alpha ∧ stored = hsv.toRgb) ∧
    (c.value = max (image.pixelColor x y).red
        (max (image.pixelColor x y).green (image.pixelColor x y).blue) ∧
      c.alpha = (image.pixelColor x y).alpha) ∧
    (stored.alpha = (image.pixelColor x y).alpha ∧
      stored.red ≤ c.value ∧ stored.green ≤ c.value ∧ stored.blue ≤ c.value ∧
      (passed < 60 ∨ 300 ≤ passed → stored.red = c.value) ∧
      (60 ≤ passed ∧ passed < 180 → stored.green = c.value) ∧
      (180 ≤ passed ∧ passed < 300 → stored.blue = c.value)) ∧
    (stored.toHsv.value = c.value ∧ stored.toHsv.alpha = c.alpha) ∧
    ((image.pixelColor x y).r = (image.pixelColor x y).g →
      (image.pixelColor x y).g = (image.pixelColor x y).b → stored = image.pixelColor x y) := by
  intro c passed stored
  have hp : passed = (c.hue + qBound (-180) d 180) % 360 := wrapped_hue _ _
  have hp0 : 0 ≤ passed := by rw [hp]; exact Int.emod_nonneg _ (by norm_num)
  have hp1 : passed < 360 := by rw [hp]; exact Int.emod_lt_of_pos _ (by norm_num)
  have hb := (image.pixelColor x y).toHsv_bounds
  have hcb := (image.pixelColor x y).channel_bounds
  obtain ⟨hv16, ha16⟩ := (image.pixelColor x y).toHsv_v16
  have hM0 : 0 ≤ max (image.pixelColor x y).red
      (max (image.pixelColor x y).green (image.pixelColor x y).blue) := le_max_of_le_left hcb.1
  have hM1 : max (image.pixelColor x y).red
      (max (image.pixelColor x y).green (image.pixelColor x y).blue) ≤ 255 :=
    max_le hcb.2.1 (max_le hcb.2.2.2.1 hcb.2.2.2.2.2.1)
  have hs : 0 ≤ c.saturation ∧ c.saturation ≤ 255 := by
    show 0 ≤ c.s16 / 256 ∧ c.s16 / 256 ≤ 255
    have h1 : 0 ≤ c.s16 := hb.1
    have h2 : c.s16 ≤ 65535 := hb.2.1
    omega
  have hval : c.value = max (image.pixelColor x y).red
      (max (image.pixelColor x y).green (image.pixelColor x y).blue) := by
    show c.v16 / 256 = _
    have h1 : c.v16 = _ := hv16
    rw [h1]
    omega
  have halpha : c.alpha = (image.pixelColor x y).alpha := by
    show c.a16 / 256 = _
    have h1 : c.a16 = _ := ha16
    rw [h1]
    omega
  have hv : 0 ≤ c.value ∧ c.value ≤ 255 := by rw [hval]; exact ⟨hM0, hM1⟩
  have ha : 0 ≤ c.alpha ∧ c.alpha ≤ 255 := by rw [halpha]; exact ⟨hcb.2.2.2.2.2.2.1, hcb.2.2.2.2.2.2.2⟩
  have hset : QHsv.setHsv passed c.saturation c.value c.alpha
      = some ⟨passed * 100, c.saturation * 257, c.value * 257, c.alpha * 257⟩ := by
    unfold QHsv.setHsv
    rw [if_neg (by omega), if_neg (by omega)]
    have : cmod passed 360 = passed := Int.tmod_eq_of_lt hp0 hp1
    rw [this]
  have hstored : stored
      = (⟨passed * 100, c.saturation * 257, c.value * 257, c.alpha * 257⟩ : QHsv).toRgb := by
    have hd := (adjustHue_data image d).2.2 x y
    rw [if_pos ⟨hx.1, hx.2, hy.1, hy.2⟩] at hd
    show (adjustHue image d).data x y = _
    rw [hd]
    have hset' : QHsv.setHsv
        (if cmod ((image.data x y).toHsv.hue + qBound (-180) d 180) 360 < 0
          then cmod ((image.data x y).toHsv.hue + qBound (-180) d 180) 360 + 360
          else cmod ((image.data x y).toHsv.hue + qBound (-180) d 180) 360)
        (image.data x y).toHsv.saturation (image.data x y).toHsv.value
        (image.data x y).toHsv.alpha
        = some ⟨passed * 100, c.saturation * 257, c.value * 257, c.alpha * 257⟩ := hset
    rw [hset']
  have hsec := QHsv.toRgb_sector passed c.saturation c.value c.alpha hp0 hp1 hs.1 hs.2 hv.1 hv.2
    ha.1 ha.2
  rw [← hstored] at hsec
  obtain ⟨s1, s2, s3, s4, s5, s6, s7⟩ := hsec
  have hmaxs : max stored.red (max stored.green stored.blue) = c.value := by
    apply le_antisymm (max_le s2 (max_le s3 s4))
    by_cases h1 : passed < 60 ∨ 300 ≤ passed
    · rw [← s5 h1]
      exact le_max_left _ _
    · by_cases h2 : 60 ≤ passed ∧ passed < 180
      · rw [← s6 h2]
        exact le_max_of_le_right (le_max_left _ _)
      · rw [← s7 (by omega)]
        exact le_max_of_le_right (le_max_right _ _)
  refine ⟨⟨hp0, hp1, hp, _, hset, ?_, ?_, ?_, ?_, hstored⟩, ⟨hval, halpha⟩,
    ⟨by rw [s1, halpha], s2, s3, s4, s5, s6, s7⟩, ⟨?_, ?_⟩, ?_⟩
  · show (if passed * 100 = 65535 then -1 else cdiv (passed * 100) 100) = passed
    rw [if_neg (by omega)]
    exact Int.mul_tdiv_cancel _ (by norm_num)
  · show c.saturation * 257 / 256 = c.saturation
    omega
  · show c.value * 257 / 256 = c.value
    omega
  · show c.alpha * 257 / 256 = c.alpha
    omega
  · show stored.toHsv.v16 / 256 = c.value
    rw [stored.toHsv_v16.1, hmaxs]
    omega
  · show stored.toHsv.a16 / 256 = c.alpha
    rw [stored.toHsv_v16.2, s1]
    omega
  · intro h1 h2
    have hg := QColor.toHsv_gray _ h1 h2
    have hsat : c.saturation = 0 := by
      show (image.pixelColor x y).toHsv.s16 / 256 = 0
      rw [hg]
      rfl
    have hvr : c.value = (image.pixelColor x y).red := by
      show (image.pixelColor x y).toHsv.v16 / 256 = _
      rw [hg]
      show (image.pixelColor x y).red * 257 / 256 = _
      omega
    rw [hstored, hsat, Int.zero_mul, QHsv.toRgb_achromatic _ _ _ hv.1 hv.2 ha.1 ha.2, hvr, halpha]
    have hgr : (image.pixelColor x y).green = (image.pixelColor x y).red := by
      simp only [QColor.green, QColor.red, h1]
    have hbr : (image.pixelColor x y).blue = (image.pixelColor x y).red := by
      simp only [QColor.blue, QColor.red, h1, h2]
    conv_rhs => rw [← QColor.rgba_self (image.pixelColor x y), hgr, hbr]

/-- Witness of claim C27: the blue pixel (0,0,255,255), hue 240, and the offset 200, bounded
to 180: the hue passed on is 420 - 360 = 60, with saturation, value and alpha 255, and the
stored pixel has green 255 and alpha 255. -/
theorem adjustHue_wraps_hue_witness :
    (0 ≤ (0 : Int) ∧ (0 : Int) < ((QImage.uniform 1 1 ⟨0, 0, 255, 255⟩).width : Int)) ∧
    (0 ≤ (0 : Int) ∧ (0 : Int) < ((QImage.uniform 1 1 ⟨0, 0, 255, 255⟩).height : Int)) ∧
    (∃ hsv : QHsv, hsv.hue = 60 ∧ hsv.saturation = 255 ∧ hsv.value = 255 ∧ hsv.alpha = 255 ∧
      (adjustHue (QImage.uniform 1 1 ⟨0, 0, 255, 255⟩) 200).pixelColor 0 0 = hsv.toRgb) ∧
    ((adjustHue (QImage.uniform 1 1 ⟨0, 0, 255, 255⟩) 200).pixelColor 0 0).green = 255 ∧
    ((adjustHue (QImage.uniform 1 1 ⟨0, 0, 255, 255⟩) 200).pixelColor 0 0).alpha = 255 := by
  have hx : 0 ≤ (0 : Int) ∧ (0 : Int) < ((QImage.uniform 1 1 ⟨0, 0, 255, 255⟩).width : Int) := by
    decide
  have hy : 0 ≤ (0 : Int) ∧ (0 : Int) < ((QImage.uniform 1 1 ⟨0, 0, 255, 255⟩).height : Int) := by
    decide
  have hc : ((QImage.uniform 1 1 ⟨0, 0, 255, 255⟩).pixelColor 0 0).toHsv
      = ⟨24000, 65535, 65535, 65535⟩ := by decide!
  obtain ⟨⟨_, _, hp, hsv, _, hhue, hsat, hval, halpha, hpix⟩, _, ⟨sa, _, _, _, _, sg, _⟩, _, _⟩ :=
    adjustHue_wraps_hue (QImage.uniform 1 1 ⟨0, 0, 255, 255⟩) 200 0 0 hx hy
  rw [hc] at hp hhue hsat hval halpha sg
  exact ⟨hx, hy, ⟨hsv, by rw [hhue, hp]; decide, by rw [hsat]; decide, by rw [hval]; decide,
    by rw [halpha]; decide, hpix⟩, sg (by decide), sa⟩

/-- Claim C27, refuted as stated: the stored pixel does not always have the hue
`(h + clamp(d)) mod 360`. The gray pixel (100,100,100,255) has hue -1 and the offset 90
passes the hue 89 to `setHsv`, but the pixel stored is the same gray, whose hue is -1. The
pixel (200,100,100,255) has hue 0 and the offset 10 passes the hue 10, but the pixel stored
is (200,116,100,255), whose hue reads 9. -/
theorem adjustHue_stored_hue_differs :
    (⟨100, 100, 100, 255⟩ : QColor).toHsv.hue = -1 ∧
    (-1 + qBound (-180) 90 180) % 360 = (89 : Int) ∧
    (adjustHue (QImage.uniform 1 1 ⟨100, 100, 100, 255⟩) 90).pixelColor 0 0
      = ⟨100, 100, 100, 255⟩ ∧
    ((adjustHue (QImage.uniform 1 1 ⟨100, 100, 100, 255⟩) 90).pixelColor 0 0).toHsv.hue = -1 ∧
    (⟨200, 100, 100, 255⟩ : QColor).toHsv.hue = 0 ∧
    (0 + qBound (-180) 10 180) % 360 = (10 : Int) ∧
    (adjustHue (QImage.uniform 1 1 ⟨200, 100, 100, 255⟩) 10).pixelColor 0 0
      = ⟨200, 116, 100, 255⟩ ∧
    ((adjustHue (QImage.uniform 1 1 ⟨200, 100, 100, 255⟩) 10).pixelColor 0 0).toHsv.hue = 9 := by
  decide!

/-! ## AI suggestions -/

/-- An evaluation of `applyAIEnhancements` on a 2x1 raster of colour (10,20,30,255):
`Brightness` 10.5 pushes a brightness command of 10, `denoise` is skipped, `BLUR` 2.7 pushes
a blur command of radius 2. -/
theorem applyAIEnhancements_example :
    (applyAIEnhancements lowerExample powExample sqrtExample
      [⟨"Brightness", 21 / 2, "", 1, true⟩, ⟨"denoise", 5, "", 1, true⟩,
        ⟨"BLUR", 27 / 10, "", 1, true⟩]
      CommandManager.new
      ⟨QImage.uniform 2 1 ⟨10, 20, 30, 255⟩, QImage.uniform 2 1 ⟨10, 20, 30, 255⟩, "photo.png",
        false⟩).appliedCount = 2 ∧
    (applyAIEnhancements lowerExample powExample sqrtExample
      [⟨"Brightness", 21 / 2, "", 1, true⟩, ⟨"denoise", 5, "", 1, true⟩,
        ⟨"BLUR", 27 / 10, "", 1, true⟩]
      CommandManager.new
      ⟨QImage.uniform 2 1 ⟨10, 20, 30, 255⟩, QImage.uniform 2 1 ⟨10, 20, 30, 255⟩, "photo.png",
        false⟩).commandManager.m_undoStack.index = 2 ∧
    (applyAIEnhancements lowerExample powExample sqrtExample
      [⟨"Brightness", 21 / 2, "", 1, true⟩, ⟨"denoise", 5, "", 1, true⟩,
        ⟨"BLUR", 27 / 10, "", 1, true⟩]
      CommandManager.new
      ⟨QImage.uniform 2 1 ⟨10, 20, 30, 255⟩, QImage.uniform 2 1 ⟨10, 20, 30, 255⟩, "photo.png",
        false⟩).document.m_currentImage.toRows
      = [[⟨20, 30, 40, 255⟩, ⟨20, 30, 40, 255⟩]] := by
  decide!

/-! ## Document state -/

/-- The two outcomes of `ImageDocument::load`. -/
theorem ImageDocument.load_eq (read : String → QImage) (d : ImageDocument) (filePath : String) :
    ((filePath.isEmpty = true ∨ (read filePath).isNull = true ∨
        ((read filePath).width : Int) ≤ 0 ∨ ((read filePath).height : Int) ≤ 0) →
      d.load read filePath = (false, d)) ∧
    (¬ (filePath.isEmpty = true ∨ (read filePath).isNull = true ∨
        ((read filePath).width : Int) ≤ 0 ∨ ((read filePath).height : Int) ≤ 0) →
      d.load read filePath = (true, ⟨read filePath, read filePath, filePath, false⟩)) := by
  constructor
  · intro h
    unfold ImageDocument.load
    by_cases h1 : filePath.isEmpty = true
    · rw [if_pos h1]
    · rw [if_neg h1]
      dsimp only
      by_cases h2 : (read filePath).isNull = true
      · rw [if_pos h2]
      · rw [if_neg h2]
        have h3 : ImageDocument.validateImage (read filePath) = false := by
          unfold ImageDocument.validateImage
          rw [if_neg h2]
          rcases h with h | h | h
          · exact absurd h h1
          · exact absurd h h2
          · rw [if_pos h]
        rw [h3]
        rfl
  · intro h
    rw [not_or, not_or] at h
    unfold ImageDocument.load
    rw [if_neg h.1]
    dsimp only
    rw [if_neg h.2.1]
    have h3 : ImageDocument.validateImage (read filePath) = true := by
      unfold ImageDocument.validateImage
      rw [if_neg h.2.1, if_neg h.2.2]
    rw [h3]
    unfold ImageDocument.setModified
    cases hm : d.m_modified <;> simp

/-- Claim C23: `ImageDocument::load` returns false and leaves the current raster, the
original raster, the file path and the modified flag as they were whenever the path is empty,
the reader yields a null image or the decoded image has a non-positive width or height; in
every other case it returns true, makes the decoded image the current and the original raster,
stores the path and resets the modified flag. A load that returns false leaves the document
unchanged. -/
theorem ImageDocument.load_replaces_only_on_success (read : String → QImage)
    (d : ImageDocument) (filePath : String) :
    ((filePath.isEmpty = true ∨ (read filePath).isNull = true ∨
        ((read filePath).width : Int) ≤ 0 ∨ ((read filePath).height : Int) ≤ 0) →
      (d.load read filePath).1 = false ∧
      (d.load read filePath).2.m_currentImage = d.m_currentImage ∧
      (d.load read filePath).2.m_originalImage = d.m_originalImage ∧
      (d.load read filePath).2.m_filePath = d.m_filePath ∧
      (d.load read filePath).2.m_modified = d.m_modified) ∧
    (¬ (filePath.isEmpty = true ∨ (read filePath).isNull = true ∨
        ((read filePath).width : Int) ≤ 0 ∨ ((read filePath).height : Int) ≤ 0) →
      (d.load read filePath).1 = true ∧
      (d.load read filePath).2.m_currentImage = read filePath ∧
      (d.load read filePath).2.m_originalImage = read filePath ∧
      (d.load read filePath).2.m_filePath = filePath ∧
      (d.load read filePath).2.m_modified = false) ∧
    ((d.load read filePath).1 = false → (d.load read filePath).2 = d) := by
  obtain ⟨hfail, hok⟩ := ImageDocument.load_eq read d filePath
  refine ⟨fun h => ?_, fun h => ?_, fun h => ?_⟩
  · rw [hfail h]
    exact ⟨rfl, rfl, rfl, rfl, rfl⟩
  · rw [hok h]
    exact ⟨rfl, rfl, rfl, rfl, rfl⟩
  · by_cases hc : filePath.isEmpty = true ∨ (read filePath).isNull = true ∨
        ((read filePath).width : Int) ≤ 0 ∨ ((read filePath).height : Int) ≤ 0
    · rw [hfail hc]
    · rw [hok hc] at h
      exact absurd h (by simp)

/-- No sequence of undo and redo actions on commands that write through `currentImagePtr()`
changes the modified flag, the file path or the original raster of the document. -/
theorem CommandManager.run_document_frame (calls : List Call)
    (m : CommandManager ImageCommand) (d : ImageDocument) :
    (CommandManager.run documentCommands calls (m, d)).2.m_modified = d.m_modified ∧
    (CommandManager.run documentCommands calls (m, d)).2.m_filePath = d.m_filePath ∧
    (CommandManager.run documentCommands calls (m, d)).2.m_originalImage
      = d.m_originalImage := by
  induction calls generalizing m d with
  | nil => exact ⟨rfl, rfl, rfl⟩
  | cons call calls ih =>
    cases call with
    | redo =>
      show (CommandManager.run documentCommands calls
        (CommandManager.redo documentCommands m d)).2.m_modified = _ ∧ _
      have hstep : (CommandManager.redo documentCommands m d).2.m_modified = d.m_modified ∧
          (CommandManager.redo documentCommands m d).2.m_filePath = d.m_filePath ∧
          (CommandManager.redo documentCommands m d).2.m_originalImage = d.m_originalImage := by
        unfold CommandManager.redo QUndoStack.redo
        cases m.m_undoStack.commands.get? m.m_undoStack.index with
        | none => exact ⟨rfl, rfl, rfl⟩
        | some cmd => exact ⟨rfl, rfl, rfl⟩
      obtain ⟨i1, i2, i3⟩ := ih (CommandManager.redo documentCommands m d).1
        (CommandManager.redo documentCommands m d).2
      exact ⟨i1.trans hstep.1, i2.trans hstep.2.1, i3.trans hstep.2.2⟩
    | undo =>
      show (CommandManager.run documentCommands calls
        (CommandManager.undo documentCommands m d)).2.m_modified = _ ∧ _
      have hstep : (CommandManager.undo documentCommands m d).2.m_modified = d.m_modified ∧
          (CommandManager.undo documentCommands m d).2.m_filePath = d.m_filePath ∧
          (CommandManager.undo documentCommands m d).2.m_originalImage = d.m_originalImage := by
        unfold CommandManager.undo QUndoStack.undo
        by_cases h0 : m.m_undoStack.index = 0
        · rw [if_pos h0]
          exact ⟨rfl, rfl, rfl⟩
        · rw [if_neg h0]
          cases m.m_undoStack.commands.get? (m.m_undoStack.index - 1) with
          | none => exact ⟨rfl, rfl, rfl⟩
          | some cmd => exact ⟨rfl, rfl, rfl⟩
      obtain ⟨i1, i2, i3⟩ := ih (CommandManager.undo documentCommands m d).1
        (CommandManager.undo documentCommands m d).2
      exact ⟨i1.trans hstep.1, i2.trans hstep.2.1, i3.trans hstep.2.2⟩

/-- Claim C29, not met by the code: after a successful load, executing any image command
through `executeCommand` and any undo and redo actions afterwards leave `isModified()` false,
so `aiEnhance` on a non-empty document hands over the file of the document, not the current
raster. Example: the 1x1 raster (10,10,10,255) loaded from `photo.png`, then
`BrightnessCommand(+50)`: the current raster is (60,60,60,255), the loaded one
(10,10,10,255), `isModified()` is false and `aiEnhance` analyses `photo.png`. -/
theorem commands_leave_isModified_false :
    (∀ (read : String → QImage) (d : ImageDocument) (filePath : String)
        (m : CommandManager ImageCommand) (cmd : ImageCommand) (calls : List Call),
      (d.load read filePath).1 = true →
      (CommandManager.run documentCommands calls
        (m.executeCommand documentCommands (some cmd)
          (d.load read filePath).2)).2.isModified = false ∧
      ((CommandManager.run documentCommands calls
        (m.executeCommand documentCommands (some cmd)
          (d.load read filePath).2)).2.isEmpty = false →
        aiEnhance (CommandManager.run documentCommands calls
          (m.executeCommand documentCommands (some cmd) (d.load read filePath).2)).2
          = some (AnalysedImage.documentFile filePath))) ∧
    (((CommandManager.new.executeCommand documentCommands
        (some (BrightnessCommand (QImage.uniform 1 1 ⟨10, 10, 10, 255⟩) 50))
        (ImageDocument.new.load (fun _ => QImage.uniform 1 1 ⟨10, 10, 10, 255⟩)
          "photo.png").2).2.getCurrentImage.toRows = [[⟨60, 60, 60, 255⟩]]) ∧
      ((CommandManager.new.executeCommand documentCommands
        (some (BrightnessCommand (QImage.uniform 1 1 ⟨10, 10, 10, 255⟩) 50))
        (ImageDocument.new.load (fun _ => QImage.uniform 1 1 ⟨10, 10, 10, 255⟩)
          "photo.png").2).2.getOriginalImage.toRows = [[⟨10, 10, 10, 255⟩]]) ∧
      ((CommandManager.new.executeCommand documentCommands
        (some (BrightnessCommand (QImage.uniform 1 1 ⟨10, 10, 10, 255⟩) 50))
        (ImageDocument.new.load (fun _ => QImage.uniform 1 1 ⟨10, 10, 10, 255⟩)
          "photo.png").2).2.isModified = false) ∧
      (aiEnhance (CommandManager.new.executeCommand documentCommands
        (some (BrightnessCommand (QImage.uniform 1 1 ⟨10, 10, 10, 255⟩) 50))
        (ImageDocument.new.load (fun _ => QImage.uniform 1 1 ⟨10, 10, 10, 255⟩)
          "photo.png").2).2 = some (AnalysedImage.documentFile "photo.png"))) := by
  refine ⟨?_, by decide, by decide, by decide, by rfl⟩
  intro read d filePath m cmd calls hload
  have hloaded : (d.load read filePath).2.m_modified = false ∧
      (d.load read filePath).2.m_filePath = filePath := by
    obtain ⟨hfail, hok⟩ := ImageDocument.load_eq read d filePath
    by_cases hc : filePath.isEmpty = true ∨ (read filePath).isNull = true ∨
        ((read filePath).width : Int) ≤ 0 ∨ ((read filePath).height : Int) ≤ 0
    · rw [hfail hc] at hload
      exact absurd hload (by simp)
    · rw [hok hc]
      exact ⟨rfl, rfl⟩
  have hexec : (m.executeCommand documentCommands (some cmd)
      (d.load read filePath).2).2.m_modified = (d.load read filePath).2.m_modified ∧
      (m.executeCommand documentCommands (some cmd)
      (d.load read filePath).2).2.m_filePath = (d.load read filePath).2.m_filePath :=
    ⟨rfl, rfl⟩
  have hrun := CommandManager.run_document_frame calls
    (m.executeCommand documentCommands (some cmd) (d.load read filePath).2).1
    (m.executeCommand documentCommands (some cmd) (d.load read filePath).2).2
  have hmod : (CommandManager.run documentCommands calls
      (m.executeCommand documentCommands (some cmd)
        (d.load read filePath).2)).2.m_modified = false := by
    rw [show m.executeCommand documentCommands (some cmd) (d.load read filePath).2
      = ((m.executeCommand documentCommands (some cmd) (d.load read filePath).2).1,
        (m.executeCommand documentCommands (some cmd) (d.load read filePath).2).2) from rfl,
      hrun.1, hexec.1, hloaded.1]
  have hpath : (CommandManager.run documentCommands calls
      (m.executeCommand documentCommands (some cmd)
        (d.load read filePath).2)).2.m_filePath = filePath := by
    rw [show m.executeCommand documentCommands (some cmd) (d.load read filePath).2
      = ((m.executeCommand documentCommands (some cmd) (d.load read filePath).2).1,
        (m.executeCommand documentCommands (some cmd) (d.load read filePath).2).2) from rfl,
      hrun.2.1, hexec.2, hloaded.2]
  refine ⟨hmod, fun hne => ?_⟩
  unfold aiEnhance
  rw [hne, ImageDocument.isModified, hmod, ImageDocument.filePath, hpath]
  rfl

/-! ## Null rasters -/

/-- Claim C25: on a null raster every transformation of `ImageProcessor` (the nine
adjustments, black-and-white, sepia, vignette, sharpen, blur, edge detection, rotate, both
flips, resize, crop and both watermarks) returns the raster it was given, whatever the other
arguments; `calculateHistogram` returns 256 zeros and `analyzeImage` the all-zero statistics,
without reaching its divisions by the number of pixels. -/
theorem null_raster_is_returned_unchanged (qPow : ℚ → ℚ → ℚ) (qSqrt : ℚ → ℚ)
    (smoothScale : QImage → Int → Int → QImage) (transformed : QImage → Int → QImage)
    (drawText : QImage → Int → Int → String → QImage)
    (drawImage : QImage → Int → Int → QImage → QImage)
    (image : QImage) (hnull : image.isNull = true) :
    (∀ v : Int, adjustBrightness image v = image ∧ adjustContrast image v = image ∧
      adjustSaturation image v = image ∧ adjustHue image v = image ∧
      adjustColorTemperature image v = image ∧ adjustExposure qPow image v = image ∧
      adjustShadows image v = image ∧ adjustHighlights image v = image) ∧
    (∀ gamma : ℚ, adjustGamma qPow image gamma = image) ∧
    applyBlackAndWhite image = image ∧ applySepia image = image ∧
    applyVignette qSqrt image = image ∧ applySharpen image = image ∧
    (∀ radius : Int, applyBlur image radius = image ∧ applyGaussianBlur image radius = image) ∧
    applyEdgeDetection image = image ∧
    (∀ angle : Int, rotate transformed image angle = image) ∧
    flipHorizontal image = image ∧ flipVertical image = image ∧
    (∀ width height : Int, resize smoothScale image width height = image) ∧
    (∀ x y width height : Int, crop image x y width height = image) ∧
    (∀ (text : String) (x y : Int), addTextWatermark drawText image text x y = image) ∧
    (∀ (watermark : QImage) (x y : Int),
      addImageWatermark drawImage image watermark x y = image) ∧
    calculateHistogram image = List.replicate 256 0 ∧
    analyzeImage qSqrt image = ⟨0, 0, 0, 0, 0⟩ := by
  refine ⟨fun v => ⟨?_, ?_, ?_, ?_, ?_, ?_, ?_, ?_⟩, fun gamma => ?_, ?_, ?_, ?_, ?_,
    fun radius => ⟨?_, ?_⟩, ?_, fun angle => ?_, ?_, ?_, fun width height => ?_,
    fun x y width height => ?_, fun text x y => ?_, fun watermark x y => ?_, ?_, ?_⟩
  · unfold adjustBrightness; rw [if_pos hnull]
  · unfold adjustContrast; rw [if_pos hnull]
  · unfold adjustSaturation; rw [if_pos hnull]
  · unfold adjustHue; rw [if_pos hnull]
  · unfold adjustColorTemperature; rw [if_pos hnull]
  · unfold adjustExposure; rw [if_pos hnull]
  · unfold adjustShadows; rw [if_pos hnull]
  · unfold adjustHighlights; rw [if_pos hnull]
  · unfold adjustGamma; rw [if_pos hnull]
  · unfold applyBlackAndWhite; rw [if_pos hnull]
  · unfold applySepia; rw [if_pos hnull]
  · unfold applyVignette; rw [if_pos hnull]
  · unfold applySharpen; rw [if_pos hnull]
  · unfold applyBlur; rw [if_pos hnull]
  · unfold applyGaussianBlur; rw [if_pos hnull]
  · unfold applyEdgeDetection; rw [if_pos hnull]
  · unfold rotate; rw [if_pos hnull]
  · unfold flipHorizontal; rw [if_pos hnull]
  · unfold flipVertical; rw [if_pos hnull]
  · unfold resize; rw [if_pos hnull]
  · unfold crop; rw [if_pos hnull]
  · unfold addTextWatermark; rw [hnull]; rfl
  · unfold addImageWatermark; rw [hnull]; rfl
  · unfold calculateHistogram; dsimp only; rw [if_pos hnull]
  · unfold analyzeImage; dsimp only; rw [if_pos hnull]

/-- Witness of claim C25: the default-constructed raster `QImage()`. -/
theorem null_raster_is_returned_unchanged_witness :
    QImage.null.isNull = true ∧ adjustBrightness QImage.null 40 = QImage.null ∧
    adjustGamma powExample QImage.null 2 = QImage.null ∧
    crop QImage.null 0 0 5 5 = QImage.null ∧
    (calculateHistogram QImage.null).length = 256 ∧
    analyzeImage sqrtExample QImage.null = ⟨0, 0, 0, 0, 0⟩ :=
  have h := null_raster_is_returned_unchanged powExample sqrtExample (fun i _ _ => i)
    (fun i _ => i) (fun i _ _ _ => i) (fun i _ _ _ => i) QImage.null rfl
  ⟨rfl, (h.1 40).1, h.2.1 2, h.2.2.2.2.2.2.2.2.2.2.2.2.1 0 0 5 5,
    by rw [h.2.2.2.2.2.2.2.2.2.2.2.2.2.2.2.1, List.length_replicate],
    h.2.2.2.2.2.2.2.2.2.2.2.2.2.2.2.2⟩

/-! ## JSON extraction -/

/-- A list that holds `c` splits at the first occurrence of `c`. -/
theorem List.split_at_first {α : Type} [DecidableEq α] (c : α) (l : List α) (h : c ∈ l) :
    ∃ pre post, l = pre ++ c :: post ∧ c ∉ pre := by
  induction l with
  | nil => simp at h
  | cons x l ih =>
    by_cases hx : x = c
    · exact ⟨[], l, by rw [hx]; rfl, by simp⟩
    · have hl : c ∈ l := by
        rcases List.mem_cons.1 h with h | h
        · exact absurd h.symm hx
        · exact h
      obtain ⟨pre, post, hsplit, hpre⟩ := ih hl
      refine ⟨x :: pre, post, by rw [hsplit]; rfl, ?_⟩
      intro hmem
      rcases List.mem_cons.1 hmem with h | h
      · exact hx h.symm
      · exact hpre h

/-- A list that holds `c` splits at the last occurrence of `c`. -/
theorem List.split_at_last {α : Type} [DecidableEq α] (c : α) (l : List α) (h : c ∈ l) :
    ∃ pre post, l = pre ++ c :: post ∧ c ∉ post := by
  obtain ⟨pre, post, hsplit, hpre⟩ := List.split_at_first c l.reverse (List.mem_reverse.2 h)
  refine ⟨post.reverse, pre.reverse, ?_, by simpa using hpre⟩
  have := congrArg List.reverse hsplit
  simpa using this

theorem QString.indexOf_split (pre post : List Char) (c : Char) (h : c ∉ pre) :
    QString.indexOf ⟨pre ++ c :: post⟩ c = pre.length := by
  unfold QString.indexOf
  rw [if_pos (by simp)]
  rw [List.indexOf_append_of_not_mem h, List.indexOf_cons_self]
  simp

theorem QString.lastIndexOf_split (pre post : List Char) (c : Char) (h : c ∉ post) :
    QString.lastIndexOf ⟨pre ++ c :: post⟩ c = pre.length := by
  unfold QString.lastIndexOf
  dsimp only
  rw [if_pos (by simp)]
  have hrev : (pre ++ c :: post).reverse = post.reverse ++ c :: pre.reverse := by simp
  rw [hrev, List.indexOf_append_of_not_mem (by simpa using h), List.indexOf_cons_self]
  simp only [List.length_append, List.length_cons, List.length_reverse]
  push_cast
  omega

/-- The extraction on a response split at its first opening and its last closing brace. -/
theorem extractJsonFromResponse_split (pre mid post : List Char)
    (hpre : '\x7b' ∉ pre) (hpost : '\x7d' ∉ post) :
    extractJsonFromResponse ⟨pre ++ '\x7b' :: (mid ++ '\x7d' :: post)⟩
      = ⟨'\x7b' :: (mid ++ ['\x7d'])⟩ := by
  have hstart := QString.indexOf_split pre (mid ++ '\x7d' :: post) '\x7b' hpre
  have hend : QString.lastIndexOf ⟨pre ++ '\x7b' :: (mid ++ '\x7d' :: post)⟩ '\x7d'
      = ((pre.length + 1 + mid.length : Nat) : Int) := by
    have h := QString.lastIndexOf_split (pre ++ '\x7b' :: mid) post '\x7d' hpost
    have hlen : (pre ++ '\x7b' :: mid).length = pre.length + 1 + mid.length := by
      simp only [List.length_append, List.length_cons]
      omega
    rw [hlen] at h
    rw [← h]
    simp
  have hsize : (⟨pre ++ '\x7b' :: (mid ++ '\x7d' :: post)⟩ : String).data.length
      = pre.length + 1 + mid.length + 1 + post.length := by
    dsimp only
    simp only [List.length_append, List.length_cons]
    omega
  unfold extractJsonFromResponse
  simp only [hstart, hend]
  have hguard : ¬ ((pre.length : Int) = -1 ∨ ((pre.length + 1 + mid.length : Nat) : Int) = -1 ∨
      (pre.length : Int) ≥ ((pre.length + 1 + mid.length : Nat) : Int)) := by
    rintro (h | h | h) <;> omega
  rw [if_neg hguard]
  unfold QString.mid
  rw [hsize]
  dsimp only
  have h1 : ¬ ((pre.length : Int) > ((pre.length + 1 + mid.length + 1 + post.length : Nat) : Int)) := by
    omega
  have h2 : ¬ ((pre.length : Int) < 0) := by omega
  have h3 : ¬ (((pre.length + 1 + mid.length : Nat) : Int) - (pre.length : Int) + 1 < 0) := by
    omega
  rw [if_neg h1, if_neg h2, if_neg h3]
  congr 1
  have hn : ((((pre.length + 1 + mid.length : Nat) : Int) - (pre.length : Int) + 1)).toNat
      = mid.length + 2 := by
    omega
  rw [hn, Int.toNat_ofNat, List.drop_left]
  have : '\x7b' :: (mid ++ '\x7d' :: post) = ('\x7b' :: (mid ++ ['\x7d'])) ++ post := by simp
  rw [this]
  have hl : ('\x7b' :: (mid ++ ['\x7d'])).length = mid.length + 2 := by simp
  rw [← hl, List.take_left]
/-- Either the response splits at a first opening brace followed by a last closing brace, or
the extraction returns the response itself. -/
theorem extractJsonFromResponse_cases (s : String) :
    (∃ pre mid post : List Char, s.data = pre ++ '\x7b' :: (mid ++ '\x7d' :: post) ∧
      '\x7b' ∉ pre ∧ '\x7d' ∉ post) ∨ extractJsonFromResponse s = s := by
  by_cases h1 : '\x7b' ∈ s.data
  · by_cases h2 : '\x7d' ∈ s.data
    · obtain ⟨pre, rest, hfirst, hpre⟩ := List.split_at_first '\x7b' s.data h1
      obtain ⟨front, post, hlast, hpost⟩ := List.split_at_last '\x7d' s.data h2
      have hs1 : s = ⟨pre ++ '\x7b' :: rest⟩ := by rw [← hfirst]
      have hs2 : s = ⟨front ++ '\x7d' :: post⟩ := by rw [← hlast]
      have hstart : QString.indexOf s '\x7b' = pre.length := by
        rw [hs1]; exact QString.indexOf_split pre rest '\x7b' hpre
      have hend : QString.lastIndexOf s '\x7d' = front.length := by
        rw [hs2]; exact QString.lastIndexOf_split front post '\x7d' hpost
      by_cases hlt : pre.length < front.length
      · left
        have heq : pre ++ '\x7b' :: rest = front ++ '\x7d' :: post := by rw [← hfirst, hlast]
        rcases List.append_eq_append_iff.1 heq with ⟨a, ha1, ha2⟩ | ⟨c, hc1, _⟩
        · cases a with
          | nil =>
            rw [List.append_nil] at ha1
            rw [ha1] at hlt
            exact absurd hlt (lt_irrefl _)
          | cons x mid =>
            rw [List.cons_append, List.cons.injEq] at ha2
            exact ⟨pre, mid, post, by rw [hfirst, ha2.2], hpre, hpost⟩
        · rw [hc1, List.length_append] at hlt
          omega
      · right
        unfold extractJsonFromResponse
        simp only [hstart, hend]
        rw [if_pos (Or.inr (Or.inr (by omega)))]
    · right
      unfold extractJsonFromResponse
      have hend : QString.lastIndexOf s '\x7d' = -1 := by
        unfold QString.lastIndexOf
        rw [if_neg h2]
      dsimp only
      rw [hend, if_pos (Or.inr (Or.inl rfl))]
  · right
    unfold extractJsonFromResponse
    have hstart : QString.indexOf s '\x7b' = -1 := by
      unfold QString.indexOf
      rw [if_neg h1]
    dsimp only
    rw [hstart, if_pos (Or.inl rfl)]

/-- Claim C28: when the response splits as `pre`, an opening brace, `mid`, a closing brace
and `post`, with no opening brace in `pre` and no closing brace in `post` (the first opening
brace comes before the last closing one), `extractJsonFromResponse` returns the opening
brace, `mid` and the closing brace; when no opening brace is followed by a closing one it
returns the response unchanged; applying it twice gives the same as applying it once. -/
theorem extractJsonFromResponse_first_to_last_brace (s : String) :
    (∀ pre mid post : List Char, s.data = pre ++ '\x7b' :: (mid ++ '\x7d' :: post) →
      '\x7b' ∉ pre → '\x7d' ∉ post →
      extractJsonFromResponse s = ⟨'\x7b' :: (mid ++ ['\x7d'])⟩) ∧
    ((¬ ∃ pre mid post : List Char, s.data = pre ++ '\x7b' :: (mid ++ '\x7d' :: post)) →
      extractJsonFromResponse s = s) ∧
    extractJsonFromResponse (extractJsonFromResponse s) = extractJsonFromResponse s := by
  refine ⟨?_, ?_, ?_⟩
  · intro pre mid post hs hpre hpost
    have : s = ⟨pre ++ '\x7b' :: (mid ++ '\x7d' :: post)⟩ := by rw [← hs]
    rw [this]
    exact extractJsonFromResponse_split pre mid post hpre hpost
  · intro hno
    rcases extractJsonFromResponse_cases s with ⟨pre, mid, post, hs, _, _⟩ | h
    · exact absurd ⟨pre, mid, post, hs⟩ hno
    · exact h
  · rcases extractJsonFromResponse_cases s with ⟨pre, mid, post, hs, hpre, hpost⟩ | h
    · have : s = ⟨pre ++ '\x7b' :: (mid ++ '\x7d' :: post)⟩ := by rw [← hs]
      rw [this, extractJsonFromResponse_split pre mid post hpre hpost]
      exact extractJsonFromResponse_split [] mid [] (by simp) (by simp)
    · rw [h, h]

/-- Two evaluations of the extraction: nested braces with text around them, and a closing
brace that comes before the only opening one. -/
theorem extractJsonFromResponse_examples :
    extractJsonFromResponse "Sure: \x7ba: \x7bb: 1\x7d\x7d. Done \x7d ok"
      = "\x7ba: \x7bb: 1\x7d\x7d. Done \x7d" ∧
    extractJsonFromResponse "\x7d no object \x7b" = "\x7d no object \x7b" := by
  decide

end Pix3lForge
